import Mathlib

/-!
# StreamSyncer: a shallow embedding of `src/main.cpp`, `src/include/Sample.h`
# and `src/include/Stream.h`

The C++ program reads several sampled streams, synthesises a timestamp for every
sample, and writes one table with a row per sample of the longest stream.

Conventions of the embedding

* `uint64_t` / `size_t` values are natural numbers; where the C++ arithmetic can
  wrap (`size() - 1`, the initial `max_idx = -1`, `start_time + offset`) the
  reduction modulo `2 ^ 64` is written out.
* `int` values are integers; a conversion to `int` reduces modulo `2 ^ 32` into
  the two's-complement range (`toInt32`), a conversion to `size_t` modulo
  `2 ^ 64` (`toSizeT`).
* A `std::string` that is searched, cut or split is the list of its characters.
* C++ exceptions are the `Except.error` results of `Except Error _`; a step
  whose behaviour is undefined is the result `Error.undefined_behaviour`.
* The configuration file and the file system are arguments of `main`: the
  entries of `data["streams"]` with their fields converted, and a map from a
  path to the lines of the file.
* `float` is IEEE-754 binary32, modelled by value (`F32`).
* `new float[cols]` is not initialised: a cell that was never assigned is `none`.
* `#pragma omp for` outside of a parallel region is executed by one thread, in
  index order, so every loop is a sequential loop.
-/

namespace StreamSyncer

/-! ## Machine integers -/

/-- Number of values of a `uint64_t`. -/
def UINT64_MOD : Nat := 2 ^ 64

/-! ## IEEE-754 binary32, by value

Every finite binary32 number is an integer multiple of the smallest subnormal
`2 ^ (-149)`.  A finite magnitude is therefore stored as a natural number of
such units, which keeps all arithmetic in `Nat`. -/

/-- Number of units `2 ^ (-149)` in `1.0f`. -/
def F32_ONE : Nat := 2 ^ 149

/-- Smallest magnitude (in units) that no longer fits binary32: `2 ^ 128`. -/
def F32_OVERFLOW : Nat := 2 ^ 128 * 2 ^ 149

/-- A binary32 datum: NaN, a signed infinity, or a signed finite magnitude
counted in units of `2 ^ (-149)` (magnitude `0` is a signed zero). -/
inductive F32 where
  | nan : F32
  | inf (neg : Bool) : F32
  | fin (neg : Bool) (mag : Nat) : F32
deriving DecidableEq, Repr

/-- Nearest integer to `p / d`, ties to even (`d > 0`). -/
def halfEvenDiv (p d : Nat) : Nat :=
  let k := p / d
  let r := p % d
  if 2 * r < d then k
  else if d < 2 * r then k + 1
  else if k % 2 = 0 then k else k + 1

/-- Binary exponent of the unit in the last place for a magnitude whose integer
part is `k` units: `0` below `2 ^ 24` (subnormals and the first binade), and
`s` when `2 ^ (23 + s) ≤ k < 2 ^ (24 + s)`.  The first argument bounds the
number of halvings. -/
def ulpShift : Nat → Nat → Nat
  | 0, _ => 0
  | fuel + 1, k => if k < 2 ^ 24 then 0 else ulpShift fuel (k / 2) + 1

/-- Round the exact magnitude `p / q` units to the binary32 grid (24 significant
bits, round to nearest, ties to even), exponent unbounded above. -/
def roundQ (p q : Nat) : Nat :=
  let s := ulpShift (p / q) (p / q)
  halfEvenDiv p (q * 2 ^ s) * 2 ^ s

/-- Result of a finite operation with sign `neg` and exact magnitude `p / q`
units: rounded, and replaced by an infinity on overflow. -/
def F32.round (neg : Bool) (p q : Nat) : F32 :=
  let m := roundQ p q
  if m < F32_OVERFLOW then F32.fin neg m else F32.inf neg

/-- Conversion `(float)n` of an unsigned integer. -/
def F32.ofNat (n : Nat) : F32 := F32.round false (n * F32_ONE) 1

/-- Binary32 multiplication `a * b`. -/
def F32.mul : F32 → F32 → F32
  | F32.nan, _ => F32.nan
  | _, F32.nan => F32.nan
  | F32.inf s, F32.inf t => F32.inf (xor s t)
  | F32.inf s, F32.fin t m => if m = 0 then F32.nan else F32.inf (xor s t)
  | F32.fin s m, F32.inf t => if m = 0 then F32.nan else F32.inf (xor s t)
  | F32.fin s m, F32.fin t n => F32.round (xor s t) (m * n) F32_ONE

/-- Binary32 division `a / b`. -/
def F32.div : F32 → F32 → F32
  | F32.nan, _ => F32.nan
  | _, F32.nan => F32.nan
  | F32.inf _, F32.inf _ => F32.nan
  | F32.inf s, F32.fin t _ => F32.inf (xor s t)
  | F32.fin s _, F32.inf t => F32.fin (xor s t) 0
  | F32.fin s m, F32.fin t n =>
    if n = 0 then (if m = 0 then F32.nan else F32.inf (xor s t))
    else F32.round (xor s t) (m * F32_ONE) n

/-- IEEE comparison `a == 0.f`: true for both signed zeros only. -/
def F32.isZero : F32 → Bool
  | F32.fin _ m => decide (m = 0)
  | _ => false

/-- Conversion `(uint64_t)a`: truncation toward zero.  The C++ conversion is
undefined when the truncated value is not a `uint64_t`; that case is `none`. -/
def F32.toUInt64 : F32 → Option Nat
  | F32.fin neg m =>
    let k := m / F32_ONE
    if neg then (if k = 0 then some 0 else none)
    else if k < UINT64_MOD then some k else none
  | _ => none

/-- The constant `1.f`. -/
def F32.one : F32 := F32.fin false F32_ONE

/-- The constant `1000.f`. -/
def F32.thousand : F32 := F32.fin false (1000 * F32_ONE)

/-! ## Exceptions -/

/-- The exceptions raised by the library calls the program makes, and the two
ways the model itself can stop. -/
inductive Error where
  /-- Thrown by `std::vector::at` and `std::string::erase`: `std::out_of_range`. -/
  | out_of_range : Error
  /-- Thrown by `std::get` on the other alternative: `std::bad_variant_access`. -/
  | bad_variant_access : Error
  /-- Thrown by `std::stof` on text that is not a number. -/
  | invalid_argument : Error
  /-- Undefined behaviour of the C++ program (out-of-range float conversion). -/
  | undefined_behaviour : Error
  /-- The iteration bound given to a `while` loop of the model was too small. -/
  | out_of_fuel : Error
deriving DecidableEq, Repr

/-! ## `Sample.h` -/

/-- The member `std::variant<float, std::string> value`. -/
inductive Variant where
  | float (v : F32) : Variant
  | string (v : String) : Variant
deriving DecidableEq, Repr

/-- Class `Sample`. -/
structure Sample where
  value : Variant
  timestamp_ns : Nat
deriving DecidableEq, Repr

/-- Constructor `Sample()`: the variant is value-initialised to its first
alternative, the timestamp to `0`. -/
def Sample.new : Sample := ⟨Variant.float (F32.fin false 0), 0⟩

/-- Constructor `Sample(uint64_t t, std::string v)`. -/
def Sample.ofString (t : Nat) (v : String) : Sample := ⟨Variant.string v, t⟩

/-- Constructor `Sample(uint64_t t, float v)`. -/
def Sample.ofFloat (t : Nat) (v : F32) : Sample := ⟨Variant.float v, t⟩

/-- Method `getStringVal`: `std::get<std::string>(value)`. -/
def Sample.getStringVal (s : Sample) : Except Error String :=
  match s.value with
  | Variant.string v => .ok v
  | Variant.float _ => .error Error.bad_variant_access

/-- Method `getFloatVal`: `std::get<float>(value)`. -/
def Sample.getFloatVal (s : Sample) : Except Error F32 :=
  match s.value with
  | Variant.float v => .ok v
  | Variant.string _ => .error Error.bad_variant_access

/-- Method `getTimestamp`. -/
def Sample.getTimestamp (s : Sample) : Nat := s.timestamp_ns

/-- Method `setVal(std::string v)`. -/
def Sample.setValString (s : Sample) (v : String) : Sample :=
  { s with value := Variant.string v }

/-- Method `setVal(float v)`. -/
def Sample.setValFloat (s : Sample) (v : F32) : Sample :=
  { s with value := Variant.float v }

/-- Method `setTimestamp`. -/
def Sample.setTimestamp (s : Sample) (t : Nat) : Sample :=
  { s with timestamp_ns := t }

/-! ## `Stream.h` -/

/-- Class `Stream`. -/
structure Stream where
  data : List Sample
  name : String
  sr : F32
deriving DecidableEq, Repr

/-- Constructor `Stream()`: no samples, empty name; `sr` is not initialised by
the C++ constructor and is given a fixed value here. -/
def Stream.new : Stream := ⟨[], "", F32.fin false 0⟩

instance : Inhabited Stream := ⟨Stream.new⟩

/-- Method `setName`. -/
def Stream.setName (s : Stream) (n : String) : Stream := { s with name := n }

/-- Method `getName`. -/
def Stream.getName (s : Stream) : String := s.name

/-- Method `setSR`. -/
def Stream.setSR (s : Stream) (r : F32) : Stream := { s with sr := r }

/-- Method `getSR`. -/
def Stream.getSR (s : Stream) : F32 := s.sr

/-- Method `appendSample`: `data.push_back(s)`. -/
def Stream.appendSample (s : Stream) (x : Sample) : Stream :=
  { s with data := s.data ++ [x] }

/-- Method `getSamples`. -/
def Stream.getSamples (s : Stream) : List Sample := s.data

/-- Checked element access `std::vector::at`. -/
def vec_at {α : Type} (v : List α) (i : Nat) : Except Error α :=
  match v[i]? with
  | some x => .ok x
  | none => .error Error.out_of_range

/-- Loop `for (uint64_t i = lo; i < lo + n; i++) body`: the state is threaded
through the iterations and the first exception ends the loop. -/
def forLoop {σ : Type} (body : Nat → σ → Except Error σ) : Nat → Nat → σ → Except Error σ
  | 0, _, st => .ok st
  | n + 1, i, st =>
    match body i st with
    | .error e => .error e
    | .ok st' => forLoop body n (i + 1) st'

/-! ## `create_data_table` (main.cpp, lines 135-227) -/

/-- The data written to the csv file: the header names after `timestamp`, the
row timestamps, and the cells `arr[i][j]` (`none`: never assigned). -/
structure Table where
  colnames : List String
  timestamps : List Nat
  arr : List (List (Option F32))
deriving DecidableEq, Repr

/-- Variables of the first loop (lines 138-150). -/
structure ScanState where
  rows : Nat
  max_idx : Nat
  colnames : List String
deriving DecidableEq, Repr

/-- Body of the loop of lines 143-150. -/
def scanBody (streams : List Stream) (i : Nat) (st : ScanState) : Except Error ScanState :=
  let s := (streams.getD i default).getSamples.length
  let colnames := st.colnames.set i (streams.getD i default).getName
  if s > st.rows then .ok ⟨s, i, colnames⟩ else .ok ⟨st.rows, st.max_idx, colnames⟩

/-- Body of the loop of lines 156-158: `timestamps[i] = streams[max_idx]->getSamples()->at(i).getTimestamp()`. -/
def copyBody (ref : List Sample) (i : Nat) (timestamps : List Nat) : Except Error (List Nat) :=
  match vec_at ref i with
  | .error e => .error e
  | .ok x => .ok (timestamps.set i x.getTimestamp)

/-- Body of the loop of lines 164-166: `arr[i] = new float[cols]`. -/
def allocBody (cols : Nat) (i : Nat) (arr : List (List (Option F32))) :
    Except Error (List (List (Option F32))) :=
  .ok (arr.set i (List.replicate cols none))

/-- Assignment `arr[i][j] = v`. -/
def setCell (arr : List (List (Option F32))) (i j : Nat) (v : F32) : List (List (Option F32)) :=
  arr.set i ((arr.getD i []).set j (some v))

/-- Read of `arr[i][j]`. -/
def getCell (arr : List (List (Option F32))) (i j : Nat) : Option F32 :=
  (arr.getD i []).getD j none

/-- The expression `streams[j]->getSamples()->size()-1` in `size_t` arithmetic. -/
def sizeMinusOne (samples : List Sample) : Nat :=
  (samples.length + UINT64_MOD - 1) % UINT64_MOD

/-- The `while` loop of lines 181-186, from the cursor `stream_row` whose
timestamp `t_c` has been read; returns the final `stream_row` and `t_c`.  The
first argument bounds the number of iterations. -/
def cursorLoop (samples : List Sample) (t : Nat) : Nat → Nat → Nat → Except Error (Nat × Nat)
  | fuel, stream_row, t_c =>
    if stream_row < sizeMinusOne samples ∧ t > t_c then
      match fuel with
      | 0 => .error Error.out_of_fuel
      | fuel + 1 =>
        let stream_row := (stream_row + 1) % UINT64_MOD
        match vec_at samples stream_row with
        | .error e => .error e
        | .ok x => cursorLoop samples t fuel stream_row x.getTimestamp
    else .ok (stream_row, t_c)

/-- Variables that live across the rows of one column (lines 172-191): the
cursor and the table. -/
structure SyncState where
  stream_row : Nat
  arr : List (List (Option F32))
deriving DecidableEq, Repr

/-- Body of the row loop, lines 178-190, for column `j` whose stream has the
samples `samples`. -/
def syncRow (timestamps : List Nat) (samples : List Sample) (j : Nat) (i : Nat)
    (st : SyncState) : Except Error SyncState :=
  let t := timestamps.getD i 0
  match vec_at samples st.stream_row with
  | .error e => .error e
  | .ok x =>
    match cursorLoop samples t samples.length st.stream_row x.getTimestamp with
    | .error e => .error e
    | .ok (stream_row, t_c) =>
      if t ≤ t_c then
        match vec_at samples stream_row with
        | .error e => .error e
        | .ok y =>
          match y.getFloatVal with
          | .error e => .error e
          | .ok v => .ok ⟨stream_row, setCell st.arr i j v⟩
      else .ok ⟨stream_row, st.arr⟩

/-- Body of the column loop, lines 170-192. -/
def syncColumn (streams : List Stream) (timestamps : List Nat) (rows : Nat) (j : Nat)
    (arr : List (List (Option F32))) : Except Error (List (List (Option F32))) :=
  match forLoop (syncRow timestamps (streams.getD j default).getSamples j) rows 0 ⟨0, arr⟩ with
  | .error e => .error e
  | .ok st => .ok st.arr

/-- Function `create_data_table(streams, size, outfile)`, with `size` the length
of `streams`; the result is the content handed to the csv writer. -/
def create_data_table (streams : List Stream) : Except Error Table :=
  let cols := streams.length
  match forLoop (scanBody streams) cols 0 ⟨0, UINT64_MOD - 1, List.replicate cols ""⟩ with
  | .error e => .error e
  | .ok scan =>
    let rows := scan.rows
    match forLoop (copyBody (streams.getD scan.max_idx default).getSamples) rows 0
        (List.replicate rows 0) with
    | .error e => .error e
    | .ok timestamps =>
      match forLoop (allocBody cols) rows 0 (List.replicate rows []) with
      | .error e => .error e
      | .ok arr =>
        match forLoop (syncColumn streams timestamps rows) cols 0 arr with
        | .error e => .error e
        | .ok arr => .ok ⟨scan.colnames, timestamps, arr⟩

/-- Body of the row loop with the cursor forced back to index 0 at the start of
the row; the rest of the row is the row of `syncRow`. -/
def syncRowReset (timestamps : List Nat) (samples : List Sample) (j : Nat) (i : Nat)
    (st : SyncState) : Except Error SyncState :=
  syncRow timestamps samples j i ⟨0, st.arr⟩

/-- Column loop over `syncRowReset`. -/
def syncColumnReset (streams : List Stream) (timestamps : List Nat) (rows : Nat) (j : Nat)
    (arr : List (List (Option F32))) : Except Error (List (List (Option F32))) :=
  match forLoop (syncRowReset timestamps (streams.getD j default).getSamples j) rows 0 ⟨0, arr⟩ with
  | .error e => .error e
  | .ok st => .ok st.arr

/-- Restatement from the spec ("re-running the alignment with cursors forced to
restart from zero every row"): `create_data_table` with `syncColumnReset` in
place of `syncColumn`. -/
def create_data_table_reset (streams : List Stream) : Except Error Table :=
  let cols := streams.length
  match forLoop (scanBody streams) cols 0 ⟨0, UINT64_MOD - 1, List.replicate cols ""⟩ with
  | .error e => .error e
  | .ok scan =>
    let rows := scan.rows
    match forLoop (copyBody (streams.getD scan.max_idx default).getSamples) rows 0
        (List.replicate rows 0) with
    | .error e => .error e
    | .ok timestamps =>
      match forLoop (allocBody cols) rows 0 (List.replicate rows []) with
      | .error e => .error e
      | .ok arr =>
        match forLoop (syncColumnReset streams timestamps rows) cols 0 arr with
        | .error e => .error e
        | .ok arr => .ok ⟨scan.colnames, timestamps, arr⟩

/-! ## `total_zero_count` (main.cpp, lines 104-114) -/

/-- The range-based loop of lines 108-111 over the remaining samples, with the
counter `c` (a `uint64_t`). -/
def zeroCountLoop : List Sample → Nat → Except Error Nat
  | [], c => .ok c
  | v :: rest, c =>
    match v.getFloatVal with
    | .error e => .error e
    | .ok x => zeroCountLoop rest (if x.isZero then (c + 1) % UINT64_MOD else c)

/-- Function `total_zero_count(Stream *s)`: the returned count, and the stream
behind the pointer after the call. -/
def total_zero_count (s : Stream) : Except Error (Nat × Stream) :=
  match zeroCountLoop s.getSamples 0 with
  | .error e => .error e
  | .ok c => .ok (c, s)

/-! ## `stringsplit` (main.cpp, lines 29-38)

A `std::string` that is searched or cut is the list of its characters. -/

/-- Conversion of an integer value to `int` (32 bits, two's complement). -/
@[irreducible] def toInt32 (x : Int) : Int := (x + 2 ^ 31) % 2 ^ 32 - 2 ^ 31

/-- Conversion of an integer value to `size_t`. -/
@[irreducible] def toSizeT (x : Int) : Nat := (x % 2 ^ 64).toNat

/-- The value `std::string::npos`. -/
def NPOS : Nat := UINT64_MOD - 1

/-- Search of `std::string::find` in the suffix `l` that starts at index `pos`. -/
def findFrom (del : List Char) : List Char → Nat → Nat
  | [], pos => if del.isPrefixOf [] then pos else NPOS
  | c :: rest, pos => if del.isPrefixOf (c :: rest) then pos else findFrom del rest (pos + 1)

/-- Method `s.find(del, pos)`. -/
def std_find (s del : List Char) (pos : Nat) : Nat :=
  if pos > s.length then NPOS else findFrom del (s.drop pos) pos

/-- Method `s.substr(pos, count)`. -/
def std_substr (s : List Char) (pos count : Nat) : Except Error (List Char) :=
  if pos > s.length then .error Error.out_of_range else .ok ((s.drop pos).take count)

/-- Method `s.erase(pos)`: removes everything from index `pos` on. -/
def std_erase (s : List Char) (pos : Nat) : Except Error (List Char) :=
  if pos > s.length then .error Error.out_of_range else .ok (s.take pos)

/-- Loop `do body while (again)`: the body returns the new state and whether the
loop condition holds, and the first exception ends the loop.  The first argument
bounds the number of iterations. -/
def doWhile {σ : Type} (body : σ → Except Error (σ × Bool)) : Nat → σ → Except Error σ
  | 0, _ => .error Error.out_of_fuel
  | fuel + 1, st =>
    match body st with
    | .error e => .error e
    | .ok (st', again) => if again then doWhile body fuel st' else .ok st'

/-- Body of the `do ... while (end != -1)` loop of lines 32-37 on the state
(`end`, vector behind `strvec`), with the value of the loop condition; an
exception of `substr` leaves the body.  `start` and `end` are `int`s: the
`size_t` values `end + del.size()` and `s.find(del, start)` are converted to
`int`, and the `int` difference `end - start` (taken to wrap where it would
overflow) is converted to `size_t`. -/
def stringsplitBody (s del : List Char) (st : Int × List (List Char)) :
    Except Error ((Int × List (List Char)) × Bool) :=
  let start := toInt32 (((toSizeT st.1 + del.length) % UINT64_MOD : Nat) : Int)
  let end_ := toInt32 ((std_find s del (toSizeT start) : Nat) : Int)
  (std_substr s (toSizeT start) (toSizeT (toInt32 (end_ - start)))).map
    (fun piece => ((end_, st.2 ++ [piece]), decide (end_ ≠ -1)))

/-- The `do ... while (end != -1)` loop of lines 32-37 from the values `end_` of
`end` and `strvec` of the vector; the result is the vector after the loop. -/
def stringsplitLoop (s del : List Char) (fuel : Nat) (end_ : Int) (strvec : List (List Char)) :
    Except Error (List (List Char)) :=
  (doWhile (stringsplitBody s del) fuel (end_, strvec)).map (fun st => st.2)

/-- Function `stringsplit(s, del, strvec)`: the vector behind `strvec` after the
call.  `end` starts as `-1*del.size()`, computed in `size_t` and stored in an
`int`. -/
def stringsplit (s del : List Char) (strvec : List (List Char)) :
    Except Error (List (List Char)) :=
  stringsplitLoop s del (s.length + 1)
    (toInt32 ((((UINT64_MOD - 1) * del.length % UINT64_MOD : Nat)) : Int)) strvec

/-! ## `read_float_stream` (main.cpp, lines 54-95)

`std::stof` is a parameter.  The file is `none` when the path does not exist and
otherwise the list of lines that `std::getline` delivers. -/

/-- The expression `line.length()-2` of line 80 in `size_t` arithmetic. -/
@[irreducible] def eraseIndex (line : List Char) : Nat :=
  (line.length + UINT64_MOD - 2) % UINT64_MOD

/-- Lines 71-85: the value parsed from one line; an exception of `erase`,
`substr`, `at` or `stof` leaves the function. -/
def lineValue (stof : List Char → Except Error F32) (dims dimsel : Nat) (line : List Char) :
    Except Error F32 :=
  if dims = 1 then stof line
  else if dims > 1 then
    (std_erase line (eraseIndex line)).bind fun line =>
      (stringsplit line [' '] []).bind fun strs =>
        (vec_at strs dimsel).bind stof
  else .ok (F32.fin false 0)

/-- The expression `(uint64_t)(timestep_ms*(float)i)` of line 87. -/
def timeOffset (timestep_ms : F32) (i : Nat) : Option Nat :=
  (F32.mul timestep_ms (F32.ofNat i)).toUInt64

/-- The `while (std::getline ...)` loop of lines 69-90 over the remaining lines,
with the line counter `i`. -/
def readLoop (stof : List Char → Except Error F32) (timestep_ms : F32)
    (start_time dims dimsel : Nat) : List (List Char) → Nat → Stream → Except Error Stream
  | [], _, s => .ok s
  | line :: rest, i, s =>
    match lineValue stof dims dimsel line with
    | .error e => .error e
    | .ok val =>
      match timeOffset timestep_ms i with
      | none => .error Error.undefined_behaviour
      | some off =>
        readLoop stof timestep_ms start_time dims dimsel rest ((i + 1) % UINT64_MOD)
          (s.appendSample (Sample.ofFloat ((start_time + off) % UINT64_MOD) val))

/-- The assignment `timestep_ms = (1.f/sr) * 1000.f` of line 66. -/
def timestepMs (sr : F32) : F32 := F32.mul (F32.div F32.one sr) F32.thousand

/-- Function `read_float_stream`: the returned flag and the stream behind `s`
after the call. -/
def read_float_stream (stof : List Char → Except Error F32) (s : Stream)
    (file : Option (List (List Char))) (start_time : Nat) (name : String) (sr : F32)
    (dims dimsel : Nat) : Except Error (Bool × Stream) :=
  match file with
  | none => .ok (false, s)
  | some lines =>
    match readLoop stof (timestepMs sr) start_time dims dimsel lines 0
        ((s.setName name).setSR sr) with
    | .error e => .error e
    | .ok s => .ok (true, s)

/-! ## `print_stream_info` (main.cpp, lines 122-125) -/

/-- Number of non-negative values of an `int`. -/
def INT_RANGE : Nat := 2 ^ 31

/-- Conversion `(int)a`: truncation toward zero.  The C++ conversion is
undefined when the truncated value is not an `int`; that case is `none`. -/
def F32.toInt : F32 → Option Int
  | F32.fin neg m =>
    let k := m / F32_ONE
    if neg then (if k ≤ INT_RANGE then some (-(k : Int)) else none)
    else if k < INT_RANGE then some (k : Int) else none
  | _ => none

/-- The line `print_stream_info` writes: the name, the sample count, the
seconds in the brackets and the zero count. -/
structure StreamInfo where
  name : String
  samples : Nat
  seconds : Int
  zeros : Nat
deriving DecidableEq, Repr

/-- Function `print_stream_info(Stream *s)`: the line written to the standard
output.  The operands of `<<` are evaluated from left to right, the conversion
`(int)(size/sr)` before the call of `total_zero_count`. -/
def print_stream_info (s : Stream) : Except Error StreamInfo :=
  match (F32.div (F32.ofNat s.getSamples.length) s.getSR).toInt with
  | none => .error Error.undefined_behaviour
  | some sec =>
    match total_zero_count s with
    | .error e => .error e
    | .ok (c, _) => .ok ⟨s.getName, s.getSamples.length, sec, c⟩

/-- A stream of 130 samples at 130 Hz. -/
def scenarioSecond : Stream :=
  ⟨List.replicate 130 (Sample.ofFloat 0 (F32.ofNat 7)), "ECG_1", F32.ofNat 130⟩

/-! ## Vocabulary of the statements -/

/-- Greatest sample count among the streams, `0` for no stream. -/
def maxSampleCount (streams : List Stream) : Nat :=
  (streams.map (fun s => s.getSamples.length)).foldr max 0

/-- Sample count of the stream at index `k` (`0` past the end). -/
def countAt (streams : List Stream) (k : Nat) : Nat :=
  (streams.getD k default).getSamples.length

/-- Invariant of the scan loop before iteration `i`. -/
def ScanInv (streams : List Stream) (i : Nat) (st : ScanState) : Prop :=
  st.colnames.length = streams.length ∧
  (∀ k, k < i → st.colnames[k]? = (streams[k]?).map Stream.getName) ∧
  (∀ k, k < i → countAt streams k ≤ st.rows) ∧
  ((st.rows = 0 ∧ st.max_idx = UINT64_MOD - 1) ∨
    (0 < st.rows ∧ st.max_idx < i ∧ countAt streams st.max_idx = st.rows ∧
      ∀ k, k < st.max_idx → countAt streams k < st.rows))

/-- First sample of the list whose timestamp is at least `t`. -/
def firstAtOrAfter (samples : List Sample) (t : Nat) : Option Sample :=
  samples.find? (fun x => decide (t ≤ x.getTimestamp))

/-- The number held by a sample, if it holds one. -/
def Sample.float? (x : Sample) : Option F32 :=
  match x.value with
  | Variant.float v => some v
  | Variant.string _ => none

/-- Every sample of the list holds the float alternative. -/
def Numeric (samples : List Sample) : Prop :=
  ∀ x ∈ samples, x.float?.isSome = true

instance (samples : List Sample) : Decidable (Numeric samples) := by
  unfold Numeric; infer_instance

/-- Every sample of the list holds the string alternative. -/
def TextValued (samples : List Sample) : Prop :=
  ∀ x ∈ samples, x.float? = none

instance (samples : List Sample) : Decidable (TextValued samples) := by
  unfold TextValued; infer_instance

/-- The cursor `k`, at the sample `y`, is where the `while` loop stops for the
row timestamp `t` when it starts at index 0: every earlier sample is before
`t`, and `y` is the last sample or is not before `t`. -/
def StopsAt (samples : List Sample) (t : Nat) (k : Nat) (y : Sample) : Prop :=
  samples[k]? = some y ∧
  (∀ m z, m < k → samples[m]? = some z → z.getTimestamp < t) ∧
  (k + 1 = samples.length ∨ t ≤ y.getTimestamp)

/-- The number in the first sample whose timestamp is at least `t`, if there is
such a sample and it holds a number. -/
def cellSpec (samples : List Sample) (t : Nat) : Option F32 :=
  (firstAtOrAfter samples t).bind Sample.float?

/-- The timestamps of the list never decrease. -/
def NonDecreasing (l : List Nat) : Prop := List.Pairwise (fun a b => a ≤ b) l

instance (l : List Nat) : Decidable (NonDecreasing l) := by
  unfold NonDecreasing; infer_instance

/-- The table while column `j` is being filled, before row `i`: the shape is
`timestamps.length` by `streams.length`, the columns before `j` and the rows
before `i` of column `j` hold `cellSpec`, and nothing else is assigned. -/
def FilledUpTo (streams : List Stream) (timestamps : List Nat) (j i : Nat)
    (arr : List (List (Option F32))) : Prop :=
  arr.length = timestamps.length ∧ (∀ r ∈ arr, r.length = streams.length) ∧
  ∀ i' j', i' < timestamps.length → j' < streams.length →
    getCell arr i' j' =
      if j' < j ∨ (j' = j ∧ i' < i) then
        cellSpec (streams.getD j' default).getSamples (timestamps.getD i' 0)
      else none

/-- Condition on the cursor `c` before row `i`: it is inside the vector, and
every sample before it is before the timestamp of row `i`. -/
def CursorOk (timestamps : List Nat) (samples : List Sample) (i c : Nat) : Prop :=
  (∃ x, samples[c]? = some x) ∧
  (i < timestamps.length →
    ∀ m z, m < c → samples[m]? = some z → z.getTimestamp < timestamps.getD i 0)

/-- The table with `cellSpec` in every cell: one row per timestamp, one
column per stream. -/
def tableSpec (streams : List Stream) (timestamps : List Nat) : List (List (Option F32)) :=
  timestamps.map (fun t => streams.map (fun s => cellSpec s.getSamples t))

/-- The reference stream in the words of the spec: the first stream, in the
order given, whose sample count is the greatest. -/
def referenceStream (streams : List Stream) : Option Stream :=
  streams.find? (fun s => decide (s.getSamples.length = maxSampleCount streams))

/-- The timestamps of the reference stream, in their order (none without a
stream). -/
def refTimestamps (streams : List Stream) : List Nat :=
  match referenceStream streams with
  | some r => r.getSamples.map Sample.getTimestamp
  | none => []

/-- The latest sample of the list whose timestamp is at most `t` (the sample a
hold-last-value table would show at `t`). -/
def lastAtOrBefore (samples : List Sample) (t : Nat) : Option Sample :=
  (samples.filter (fun x => decide (x.getTimestamp ≤ t))).getLast?

/-! ## Streams of the scenarios -/

/-- A stream of numeric samples given as (timestamp, integer value) pairs. -/
def numericStream (name : String) (samples : List (Nat × Nat)) : Stream :=
  ⟨samples.map (fun p => Sample.ofFloat p.1 (F32.ofNat p.2)), name, F32.ofNat 1⟩

/-- A stream of text samples given as (timestamp, text) pairs. -/
def textStream (name : String) (samples : List (Nat × String)) : Stream :=
  ⟨samples.map (fun p => Sample.ofString p.1 p.2), name, F32.ofNat 1⟩

/-- Stream A of the scenario of the spec. -/
def scenarioA : Stream := numericStream "A" [(0, 1), (10, 2), (20, 3), (30, 4)]

/-- Stream B of the scenario of the spec. -/
def scenarioB : Stream := numericStream "B" [(0, 10), (15, 20)]

/-- A stream that starts after the first row of `scenarioA`. -/
def scenarioLate : Stream := numericStream "B" [(5, 10), (15, 20)]

/-- The table the program writes for `scenarioA` and `scenarioB`: column B is
10, 20, hole, hole. -/
def scenarioTable : Table :=
  ⟨["A", "B"], [0, 10, 20, 30],
    [[some (F32.ofNat 1), some (F32.ofNat 10)], [some (F32.ofNat 2), some (F32.ofNat 20)],
     [some (F32.ofNat 3), none], [some (F32.ofNat 4), none]]⟩

/-- The table the program writes for `scenarioB` and `scenarioA`, in this
order. -/
def scenarioTableBA : Table :=
  ⟨["B", "A"], [0, 10, 20, 30],
    [[some (F32.ofNat 10), some (F32.ofNat 1)], [some (F32.ofNat 20), some (F32.ofNat 2)],
     [none, some (F32.ofNat 3)], [none, some (F32.ofNat 4)]]⟩

/-- A numeric stream whose samples are at 10 and 20. -/
def scenarioNumeric : Stream := numericStream "A" [(10, 1), (20, 2)]

/-- A text-valued stream whose only sample is at 0. -/
def scenarioText : Stream := textStream "T" [(0, "x")]

/-- The value is a float that compares equal to `0.f`: one of the two signed
zeros. -/
def Variant.isZeroFloat (v : Variant) : Bool :=
  decide (v = Variant.float (F32.fin false 0) ∨ v = Variant.float (F32.fin true 0))

/-- A stand-in for `std::stof` that reads every text as the number `v`. -/
def stofConst (v : F32) : List Char → Except Error F32 := fun _ => .ok v

/-- Four lines of a source file with one value per line. -/
def scenarioLines : List (List Char) := [['1'], ['2'], ['3'], ['4']]

/-- The stream `read_float_stream` builds from `scenarioLines` at 3 Hz from the
start time 1000: the offsets are 0, 333, 666 and 1000. -/
def scenarioRead : Stream :=
  ⟨[Sample.ofFloat 1000 (F32.ofNat 7), Sample.ofFloat 1333 (F32.ofNat 7),
    Sample.ofFloat 1666 (F32.ofNat 7), Sample.ofFloat 2000 (F32.ofNat 7)], "S", F32.ofNat 3⟩

deriving instance DecidableEq for Except

/-- The timestamps of the list strictly increase. -/
def StrictlyIncreasing (l : List Nat) : Prop := List.Pairwise (fun a b => a < b) l

instance (l : List Nat) : Decidable (StrictlyIncreasing l) := by
  unfold StrictlyIncreasing; infer_instance

/-- A numeric stream whose timestamps are out of order. -/
def scenarioUnordered : Stream := numericStream "U" [(30, 7), (5, 8)]

/-- A stand-in for `std::stof` on the texts of the scenarios: it reads `10` and
`20`, and throws `invalid_argument`, as `std::stof` does on a text that holds no
number, on every other text. -/
def scenarioStof (text : List Char) : Except Error F32 :=
  if text = ['1', '0'] then .ok (F32.ofNat 10)
  else if text = ['2', '0'] then .ok (F32.ofNat 20)
  else .error Error.invalid_argument

/-- A sample rate is positive: a positive finite value or `+inf`. -/
def F32.isPositive : F32 → Bool
  | F32.fin false m => decide (0 < m)
  | F32.inf false => true
  | _ => false

/-- The offset in the words of the specification, `round((1000/sr) * i)`: the
integer nearest to the exact value (halves upward) for a positive finite rate
`sr`, and no value otherwise. -/
def specOffset (sr : F32) (i : Nat) : Option Nat :=
  match sr with
  | F32.fin false a =>
    if a = 0 then none else some ((2 * (1000 * i * F32_ONE) + a) / (2 * a))
  | _ => none

/-- Forty-eight lines of a source file with one value per line. -/
def scenarioManyLines : List (List Char) := List.replicate 48 ['1']

/-! ## `main` (main.cpp, lines 262-319)

The configuration is the list of the entries of `data["streams"]` in the order
of the iteration, with the values of the fields already converted; the file
system maps a path to the lines of the file, if the file exists. -/

/-- Number of values of a `uint32_t`. -/
def UINT32_MOD : Nat := 2 ^ 32

/-- One entry of `data["streams"]`. -/
structure StreamDecl where
  name : String
  filename : String
  sr : F32
  dims : Nat
  dim_sel : Nat
deriving DecidableEq, Repr

/-- Assignment `m[k] = v` on a `std::map`, kept as the list of its entries in
the order of the keys, which are compared character by character: the value
under an existing key is replaced, a new key is inserted. -/
def mapAssign : List (String × Stream) → String → Stream → List (String × Stream)
  | [], k, v => [(k, v)]
  | (k', v') :: rest, k, v =>
    if k = k' then (k, v) :: rest
    else if k.data < k'.data then (k, v) :: (k', v') :: rest
    else (k', v') :: mapAssign rest k v

/-- The pointer `m[k].get()`: the stream under the key `k`, `none` for the null
pointer of a key that was not there. -/
def mapFind : List (String × Stream) → String → Option Stream
  | [], _ => none
  | (k', v') :: rest, k => if k = k' then some v' else mapFind rest k

/-- The loop of lines 273-286 over the remaining entries, with `stream_names`
and `m_streams`; `none` is the `return -1` of a missing file.  The stream that
`read_float_stream` fills is the one behind `m_streams[name].get()`, and what it
appends is seen under the same key afterwards. -/
def ingestLoop (stof : List Char → Except Error F32) (fs : String → Option (List (List Char)))
    (start : Nat) : List StreamDecl → List String → List (String × Stream) →
    Except Error (Option (List String × List (String × Stream)))
  | [], stream_names, m_streams => .ok (some (stream_names, m_streams))
  | value :: rest, stream_names, m_streams =>
    let stream_names := stream_names ++ [value.name]
    let m_streams := mapAssign m_streams value.name Stream.new
    match mapFind m_streams value.name with
    | none => .error Error.undefined_behaviour
    | some s =>
      match read_float_stream stof s (fs value.filename) start value.name value.sr
          value.dims value.dim_sel with
      | .error e => .error e
      | .ok (result, s) =>
        if result then
          ingestLoop stof fs start rest stream_names (mapAssign m_streams value.name s)
        else .ok none

/-- The loop of lines 294-296: one line per element of the map, in the order of
the keys. -/
def printLoop : List (String × Stream) → Except Error (List StreamInfo)
  | [] => .ok []
  | element :: rest =>
    match print_stream_info element.2 with
    | .error e => .error e
    | .ok line =>
      match printLoop rest with
      | .error e => .error e
      | .ok lines => .ok (line :: lines)

/-- The loop of lines 303-307 over the remaining names, with the counter `i` (a
`uint32_t`) and the array `streams` of pointers (`none`: null or never
assigned). -/
def selectLoop (m_streams : List (String × Stream)) :
    List String → Nat → List (Option Stream) → List (Option Stream)
  | [], _, streams => streams
  | n :: rest, i, streams =>
    selectLoop m_streams rest ((i + 1) % UINT32_MOD) (streams.set i (mapFind m_streams n))

/-- The streams behind the pointers of an array, when none of them is null or
unassigned. -/
def pointees : List (Option Stream) → Option (List Stream)
  | [] => some []
  | none :: _ => none
  | some s :: rest =>
    match pointees rest with
    | none => none
    | some l => some (s :: l)

/-- What `main` returns and writes: the return value, the lines of
`print_stream_info`, and the content of the csv file if it is written. -/
structure MainResult where
  code : Int
  infos : List StreamInfo
  table : Option Table
deriving DecidableEq, Repr

/-- The block of lines 262-319 of `main`, from the start time in milliseconds
and the entries of the configuration.  The second argument of
`create_data_table` is a `uint32_t`. -/
def main (stof : List Char → Except Error F32) (fs : String → Option (List (List Char)))
    (start : Nat) (config : List StreamDecl) : Except Error MainResult :=
  match ingestLoop stof fs start config [] [] with
  | .error e => .error e
  | .ok none => .ok ⟨-1, [], none⟩
  | .ok (some (stream_names, m_streams)) =>
    match printLoop m_streams with
    | .error e => .error e
    | .ok infos =>
      let streams := selectLoop m_streams stream_names 0
        (List.replicate stream_names.length none)
      match pointees (streams.take (stream_names.length % UINT32_MOD)) with
      | none => .error Error.undefined_behaviour
      | some streams =>
        match create_data_table streams with
        | .error e => .error e
        | .ok table => .ok ⟨0, infos, some table⟩

/-- The declaration that is the last one of the name `n` in the configuration. -/
def lastDecl : List StreamDecl → String → Option StreamDecl
  | [], _ => none
  | d :: rest, n =>
    match lastDecl rest n with
    | some x => some x
    | none => if d.name = n then some d else none

/-- A file system with a file of two lines `10` and a file of four lines `20`. -/
def scenarioFiles (path : String) : Option (List (List Char)) :=
  if path = "early" then some [['1', '0'], ['1', '0']]
  else if path = "late" then some [['2', '0'], ['2', '0'], ['2', '0'], ['2', '0']]
  else none

/-- A configuration that declares the name `A` twice, and `B` in between. -/
def scenarioConfig : List StreamDecl :=
  [⟨"A", "early", F32.ofNat 1, 1, 0⟩, ⟨"B", "early", F32.ofNat 1, 1, 0⟩,
   ⟨"A", "late", F32.ofNat 3, 1, 0⟩]

/-- The stream `read_float_stream` builds from the second declaration of `A`
from the start time 1000. -/
def scenarioKept : Stream :=
  ⟨[Sample.ofFloat 1000 (F32.ofNat 20), Sample.ofFloat 1333 (F32.ofNat 20),
    Sample.ofFloat 1666 (F32.ofNat 20), Sample.ofFloat 2000 (F32.ofNat 20)], "A", F32.ofNat 3⟩

/-- The stream `read_float_stream` builds from the declaration of `B` from the
start time 1000. -/
def scenarioOther : Stream :=
  ⟨[Sample.ofFloat 1000 (F32.ofNat 10), Sample.ofFloat 2000 (F32.ofNat 10)], "B", F32.ofNat 1⟩

/-- What `main` returns and writes for `scenarioConfig`: both columns `A` hold
the value 20 of the second declaration. -/
def scenarioMainResult : MainResult :=
  ⟨0, [⟨"A", 4, 1, 0⟩, ⟨"B", 2, 2, 0⟩],
    some ⟨["A", "B", "A"], [1000, 1333, 1666, 2000],
      [[some (F32.ofNat 20), some (F32.ofNat 10), some (F32.ofNat 20)],
       [some (F32.ofNat 20), some (F32.ofNat 10), some (F32.ofNat 20)],
       [some (F32.ofNat 20), some (F32.ofNat 10), some (F32.ofNat 20)],
       [some (F32.ofNat 20), some (F32.ofNat 10), some (F32.ofNat 20)]]⟩⟩

/-- The duration in the words of the specification, `sampleCount / sampleRate`
truncated: the integer part of the exact quotient for a positive finite rate
`sr`, and no value otherwise. -/
def specSeconds (count : Nat) (sr : F32) : Option Nat :=
  match sr with
  | F32.fin false a => if a = 0 then none else some (count * F32_ONE / a)
  | _ => none

/-- A stream of `n` samples at the rate of `rate` Hz. -/
def scenarioRecording (n rate : Nat) : Stream :=
  ⟨List.replicate n (Sample.ofFloat 0 (F32.ofNat 7)), "PCM", F32.ofNat rate⟩

/-- The stand-in `scenarioStof`, which also reads the text `2`. -/
def scenarioStofTwo (text : List Char) : Except Error F32 :=
  if text = ['2'] then .ok (F32.ofNat 2) else scenarioStof text

/-! # Theorems -/

/-! ## Loop rules -/

/-- Total correctness of a counted loop: an invariant that holds on entry and is
re-established by every iteration, which never throws, holds on exit. -/
theorem forLoop_inv {σ : Type} (body : Nat → σ → Except Error σ) (P : Nat → σ → Prop) :
    ∀ (n lo : Nat) (st : σ), P lo st →
      (∀ i st, lo ≤ i → i < lo + n → P i st → ∃ st', body i st = .ok st' ∧ P (i + 1) st') →
      ∃ st', forLoop body n lo st = .ok st' ∧ P (lo + n) st' := by
  intro n
  induction n with
  | zero => intro lo st h0 _; exact ⟨st, rfl, by simpa using h0⟩
  | succ n ih =>
    intro lo st h0 hstep
    obtain ⟨st1, hb, h1⟩ := hstep lo st (Nat.le_refl _) (by omega) h0
    obtain ⟨st2, hl, h2⟩ := ih (lo + 1) st1 h1
      (fun i st hi hlt hP => hstep i st (by omega) (by omega) hP)
    refine ⟨st2, ?_, ?_⟩
    · simp only [forLoop, hb]; exact hl
    · have e : lo + (n + 1) = lo + 1 + n := by omega
      rw [e]; exact h2

/-- Partial correctness of a counted loop: when the loop ends normally, an
invariant kept by every normally ending iteration holds on exit. -/
theorem forLoop_ok_inv {σ : Type} (body : Nat → σ → Except Error σ) (P : Nat → σ → Prop) :
    ∀ (n lo : Nat) (st st' : σ), P lo st →
      (∀ i st st', lo ≤ i → i < lo + n → P i st → body i st = .ok st' → P (i + 1) st') →
      forLoop body n lo st = .ok st' → P (lo + n) st' := by
  intro n
  induction n with
  | zero =>
    intro lo st st' h0 _ h
    simp only [forLoop, Except.ok.injEq] at h
    subst h; simpa using h0
  | succ n ih =>
    intro lo st st' h0 hstep h
    simp only [forLoop] at h
    cases hb : body lo st with
    | error e => rw [hb] at h; cases h
    | ok st1 =>
      rw [hb] at h
      have h1 := hstep lo st st1 (Nat.le_refl _) (by omega) h0 hb
      have h2 := ih (lo + 1) st1 st' h1
        (fun i st st' hi hlt hP hbd => hstep i st st' (by omega) (by omega) hP hbd) h
      have e : lo + (n + 1) = lo + 1 + n := by omega
      rw [e]; exact h2

/-- A counted loop throws as soon as one of its iterations throws from every
state. -/
theorem forLoop_error {σ : Type} (body : Nat → σ → Except Error σ) (j : Nat)
    (hj : ∀ st, ∃ e, body j st = .error e) :
    ∀ (n lo : Nat) (st : σ), lo ≤ j → j < lo + n → ∃ e, forLoop body n lo st = .error e := by
  intro n
  induction n with
  | zero => intro lo st h1 h2; omega
  | succ n ih =>
    intro lo st h1 h2
    simp only [forLoop]
    cases hb : body lo st with
    | error e => exact ⟨e, rfl⟩
    | ok st1 =>
      by_cases hlo : lo = j
      · subst hlo
        obtain ⟨e, he⟩ := hj st
        rw [he] at hb; cases hb
      · exact ih (lo + 1) st1 (by omega) (by omega)

/-! ## The scan loop (lines 143-150) -/

theorem le_maxSampleCount (streams : List Stream) (s : Stream) (h : s ∈ streams) :
    s.getSamples.length ≤ maxSampleCount streams := by
  induction streams with
  | nil => cases h
  | cons a l ih =>
    simp only [maxSampleCount, List.map_cons, List.foldr_cons]
    rcases List.mem_cons.mp h with rfl | h'
    · exact Nat.le_max_left _ _
    · exact Nat.le_trans (ih h') (Nat.le_max_right _ _)

theorem maxSampleCount_attained (streams : List Stream) :
    maxSampleCount streams = 0 ∨ ∃ s ∈ streams, s.getSamples.length = maxSampleCount streams := by
  induction streams with
  | nil => left; rfl
  | cons a l ih =>
    simp only [maxSampleCount, List.map_cons, List.foldr_cons]
    rcases Nat.le_total (List.foldr max 0 (l.map fun s => s.getSamples.length)) a.getSamples.length
      with h | h
    · right; exact ⟨a, List.mem_cons_self _ _, (Nat.max_eq_left h).symm⟩
    · rw [Nat.max_eq_right h]
      rcases ih with h0 | ⟨s, hs, he⟩
      · left; exact h0
      · right; exact ⟨s, List.mem_cons_of_mem _ hs, he⟩

theorem getD_mem (streams : List Stream) (k : Nat) (hk : k < streams.length) :
    streams.getD k default ∈ streams := by
  rw [List.getD_eq_getElem?_getD, List.getElem?_eq_getElem hk]
  exact List.getElem_mem hk

theorem scanBody_inv (streams : List Stream) (i : Nat) (st : ScanState)
    (hi : i < streams.length) (h : ScanInv streams i st) :
    ∃ st', scanBody streams i st = .ok st' ∧ ScanInv streams (i + 1) st' := by
  obtain ⟨hlen, hnames, hle, hmax⟩ := h
  have hname : ∀ (names : List String), names.length = streams.length →
      (∀ k, k < i → names[k]? = (streams[k]?).map Stream.getName) →
      ∀ k, k < i + 1 → (names.set i (streams.getD i default).getName)[k]?
        = (streams[k]?).map Stream.getName := by
    intro names hc hn k hk
    by_cases hki : k = i
    · subst hki
      rw [List.getElem?_set_self (by omega), List.getD_eq_getElem?_getD,
        List.getElem?_eq_getElem hi]
      rfl
    · rw [List.getElem?_set_ne (fun e => hki e.symm)]
      exact hn k (by omega)
  unfold scanBody
  by_cases hgt : (streams.getD i default).getSamples.length > st.rows
  · refine ⟨_, by simp only [hgt, if_true]; rfl, ?_⟩
    refine ⟨by simp [hlen], hname _ hlen hnames, ?_, ?_⟩
    · intro k hk
      by_cases hki : k = i
      · subst hki; exact Nat.le_refl _
      · exact Nat.le_trans (hle k (by omega)) (Nat.le_of_lt hgt)
    · right
      refine ⟨Nat.lt_of_le_of_lt (Nat.zero_le _) hgt, Nat.lt_succ_self _, rfl, ?_⟩
      intro k hk
      exact Nat.lt_of_le_of_lt (hle k hk) hgt
  · refine ⟨_, by simp only [hgt, if_false]; rfl, ?_⟩
    refine ⟨by simp [hlen], hname _ hlen hnames, ?_, ?_⟩
    · intro k hk
      by_cases hki : k = i
      · subst hki; exact Nat.le_of_not_lt hgt
      · exact hle k (by omega)
    · rcases hmax with h0 | ⟨hp, hm, he, hlt⟩
      · left; exact h0
      · right; exact ⟨hp, Nat.lt_succ_of_lt hm, he, hlt⟩

/-- The scan loop never throws; its result satisfies the invariant at the end. -/
theorem scan_spec (streams : List Stream) :
    ∃ st, forLoop (scanBody streams) streams.length 0
        ⟨0, UINT64_MOD - 1, List.replicate streams.length ""⟩ = .ok st ∧
      ScanInv streams streams.length st := by
  have h := forLoop_inv (scanBody streams) (ScanInv streams) streams.length 0
    ⟨0, UINT64_MOD - 1, List.replicate streams.length ""⟩
    ⟨by simp, by intro k hk; omega, by intro k hk; omega, Or.inl ⟨rfl, rfl⟩⟩
    (fun i st _ hi hP => scanBody_inv streams i st (by omega) hP)
  simpa using h

theorem ScanInv.colnames_eq {streams : List Stream} {st : ScanState}
    (h : ScanInv streams streams.length st) : st.colnames = streams.map Stream.getName := by
  apply List.ext_getElem?
  intro k
  by_cases hk : k < streams.length
  · rw [h.2.1 k hk, List.getElem?_map]
  · rw [List.getElem?_eq_none (by rw [h.1]; omega),
      List.getElem?_eq_none (by rw [List.length_map]; omega)]

theorem ScanInv.rows_eq {streams : List Stream} {st : ScanState}
    (h : ScanInv streams streams.length st) : st.rows = maxSampleCount streams := by
  obtain ⟨_, _, hle, hmax⟩ := h
  apply Nat.le_antisymm
  · rcases hmax with ⟨h0, _⟩ | ⟨_, hm, he, _⟩
    · omega
    · rw [← he]
      exact le_maxSampleCount streams _ (getD_mem streams _ hm)
  · rcases maxSampleCount_attained streams with h0 | ⟨s, hs, he⟩
    · omega
    · obtain ⟨k, hk, rfl⟩ := List.getElem_of_mem hs
      rw [← he]
      have := hle k hk
      simpa [countAt, List.getD_eq_getElem?_getD, List.getElem?_eq_getElem hk] using this

/-! ## The timestamp copy (lines 156-158) and the allocation (lines 164-166) -/

theorem vec_at_eq_ok {α : Type} {v : List α} {i : Nat} {x : α} (h : v[i]? = some x) :
    vec_at v i = .ok x := by
  simp only [vec_at, h]

theorem vec_at_of_lt {α : Type} (v : List α) (i : Nat) (h : i < v.length) :
    vec_at v i = .ok v[i] :=
  vec_at_eq_ok (List.getElem?_eq_getElem h)

theorem vec_at_nil {α : Type} (i : Nat) : vec_at ([] : List α) i = .error Error.out_of_range := by
  simp [vec_at]

/-- Copying `ref.length` timestamps out of `ref` never throws and yields the
timestamps of `ref`, in order. -/
theorem copy_spec (ref : List Sample) :
    forLoop (copyBody ref) ref.length 0 (List.replicate ref.length 0)
      = .ok (ref.map Sample.getTimestamp) := by
  obtain ⟨out, hrun, hlen, hval⟩ := forLoop_inv (copyBody ref)
    (fun i out => out.length = ref.length ∧
      ∀ k, k < i → out[k]? = (ref[k]?).map Sample.getTimestamp)
    ref.length 0 (List.replicate ref.length 0)
    ⟨by simp, by intro k hk; omega⟩
    (by
      intro i out _ hi ⟨hl, hv⟩
      have hi' : i < ref.length := by omega
      refine ⟨out.set i (ref[i]).getTimestamp, ?_, by simp [hl], ?_⟩
      · simp only [copyBody, vec_at_of_lt ref i hi']
      · intro k hk
        by_cases hki : k = i
        · subst hki
          rw [List.getElem?_set_self (by omega), List.getElem?_eq_getElem hi']
          rfl
        · rw [List.getElem?_set_ne (fun e => hki e.symm)]
          exact hv k (by omega))
  rw [hrun]
  congr 1
  apply List.ext_getElem?
  intro k
  by_cases hk : k < ref.length
  · rw [hval k (by omega), List.getElem?_map]
  · rw [List.getElem?_eq_none (by omega), List.getElem?_eq_none (by rw [List.length_map]; omega)]

/-- The allocation loop yields `rows` rows of `cols` unassigned cells. -/
theorem alloc_spec (rows cols : Nat) :
    forLoop (allocBody cols) rows 0 (List.replicate rows [])
      = .ok (List.replicate rows (List.replicate cols none)) := by
  obtain ⟨out, hrun, hlen, hval⟩ := forLoop_inv (allocBody cols)
    (fun i out => out.length = rows ∧ ∀ k, k < i → out[k]? = some (List.replicate cols none))
    rows 0 (List.replicate rows [])
    ⟨by simp, by intro k hk; omega⟩
    (by
      intro i out _ hi ⟨hl, hv⟩
      refine ⟨out.set i (List.replicate cols none), rfl, by simp [hl], ?_⟩
      intro k hk
      by_cases hki : k = i
      · subst hki
        rw [List.getElem?_set_self (by omega)]
      · rw [List.getElem?_set_ne (fun e => hki e.symm)]
        exact hv k (by omega))
  rw [hrun]
  congr 1
  apply List.ext_getElem?
  intro k
  by_cases hk : k < rows
  · rw [hval k (by omega), List.getElem?_replicate_of_lt hk]
  · rw [List.getElem?_eq_none (by omega), List.getElem?_eq_none (by simp; omega)]

/-! ## The cursor loop (lines 179-186) -/

theorem sizeMinusOne_eq (samples : List Sample) (h0 : 0 < samples.length)
    (h : samples.length < UINT64_MOD) : sizeMinusOne samples = samples.length - 1 := by
  unfold sizeMinusOne
  have e : samples.length + UINT64_MOD - 1 = (samples.length - 1) + UINT64_MOD := by omega
  rw [e, Nat.add_mod_right, Nat.mod_eq_of_lt (by omega)]

/-- From a cursor `c` inside the vector, with enough iterations allowed, the
`while` loop ends normally at an index `k ≥ c`: the samples from `c` up to `k`
are before `t`, and sample `k` is the last one or is not before `t`. -/
theorem cursorLoop_spec (samples : List Sample) (t : Nat) (hlen : samples.length < UINT64_MOD) :
    ∀ (fuel c : Nat) (x : Sample), samples[c]? = some x → samples.length ≤ fuel + c + 1 →
      ∃ k y, cursorLoop samples t fuel c x.getTimestamp = .ok (k, y.getTimestamp) ∧
        samples[k]? = some y ∧ c ≤ k ∧
        (∀ m z, c ≤ m → m < k → samples[m]? = some z → z.getTimestamp < t) ∧
        (k + 1 = samples.length ∨ t ≤ y.getTimestamp) := by
  intro fuel
  induction fuel with
  | zero =>
    intro c x hx hf
    have hc : c < samples.length := (List.getElem?_eq_some.mp hx).1
    have hs := sizeMinusOne_eq samples (by omega) hlen
    refine ⟨c, x, ?_, hx, Nat.le_refl _, by intro m z h1 h2; omega, Or.inl (by omega)⟩
    rw [cursorLoop, if_neg (by rw [hs]; omega)]
  | succ fuel ih =>
    intro c x hx hf
    have hc : c < samples.length := (List.getElem?_eq_some.mp hx).1
    have hs := sizeMinusOne_eq samples (by omega) hlen
    by_cases hcond : c < sizeMinusOne samples ∧ t > x.getTimestamp
    · have hc1 : c + 1 < samples.length := by rw [hs] at hcond; omega
      have hmod : (c + 1) % UINT64_MOD = c + 1 := Nat.mod_eq_of_lt (by omega)
      obtain ⟨k, y, hrun, hy, hck, hpre, hstop⟩ :=
        ih (c + 1) samples[c + 1] (List.getElem?_eq_getElem hc1) (by omega)
      refine ⟨k, y, ?_, hy, by omega, ?_, hstop⟩
      · rw [cursorLoop, if_pos hcond]
        simp only [hmod, vec_at_of_lt samples (c + 1) hc1]
        exact hrun
      · intro m z h1 h2 hz
        by_cases hm : m = c
        · subst hm
          rw [hx] at hz
          cases hz
          exact hcond.2
        · exact hpre m z (by omega) h2 hz
    · refine ⟨c, x, ?_, hx, Nat.le_refl _, by intro m z h1 h2; omega, ?_⟩
      · rw [cursorLoop, if_neg hcond]
      · rw [hs] at hcond
        by_cases h1 : c + 1 = samples.length
        · exact Or.inl h1
        · right
          have : ¬ t > x.getTimestamp := fun h => hcond ⟨by omega, h⟩
          omega

/-- Where the loop stops from index 0 decides what `find?` returns. -/
theorem StopsAt.firstAtOrAfter_pos {samples : List Sample} {t k : Nat} {y : Sample}
    (h : StopsAt samples t k y) (hy : t ≤ y.getTimestamp) : firstAtOrAfter samples t = some y := by
  induction samples generalizing k with
  | nil => obtain ⟨h1, _, _⟩ := h; simp at h1
  | cons a l ih =>
    obtain ⟨h1, h2, h3⟩ := h
    cases k with
    | zero =>
      simp only [List.getElem?_cons_zero, Option.some.injEq] at h1
      subst h1
      simp [firstAtOrAfter, hy]
    | succ k =>
      have ha : a.getTimestamp < t := h2 0 a (Nat.succ_pos _) (by simp)
      have hl : StopsAt l t k y := by
        refine ⟨by simpa using h1, ?_, ?_⟩
        · intro m z hm hz
          exact h2 (m + 1) z (by omega) (by simpa using hz)
        · rcases h3 with h3 | h3
          · left; simpa using h3
          · right; exact h3
      have := ih hl
      simp only [firstAtOrAfter] at this ⊢
      rw [List.find?_cons_of_neg _ (by simpa using ha)]
      exact this

theorem StopsAt.firstAtOrAfter_neg {samples : List Sample} {t k : Nat} {y : Sample}
    (h : StopsAt samples t k y) (hy : ¬ t ≤ y.getTimestamp) : firstAtOrAfter samples t = none := by
  obtain ⟨h1, h2, h3⟩ := h
  have hk : k + 1 = samples.length := by
    rcases h3 with h3 | h3
    · exact h3
    · exact absurd h3 hy
  simp only [firstAtOrAfter, List.find?_eq_none, decide_eq_true_eq, Nat.not_le]
  intro z hz
  obtain ⟨m, hm, rfl⟩ := List.getElem_of_mem hz
  by_cases hmk : m = k
  · subst hmk
    rw [List.getElem?_eq_getElem hm] at h1
    cases h1
    omega
  · exact h2 m _ (by omega) (List.getElem?_eq_getElem hm)

/-! ## One row (lines 178-190) -/

/-- The row body, from a cursor that is inside the vector and has only earlier
samples behind it: the loop stops where it would stop from index 0, and the
cell is assigned exactly when the sample there is not before the row. -/
theorem syncRow_eq (timestamps : List Nat) (samples : List Sample) (j i : Nat) (st : SyncState)
    (hlen : samples.length < UINT64_MOD) (x : Sample) (hx : samples[st.stream_row]? = some x)
    (hpre : ∀ m z, m < st.stream_row → samples[m]? = some z →
      z.getTimestamp < timestamps.getD i 0) :
    ∃ k y, StopsAt samples (timestamps.getD i 0) k y ∧
      syncRow timestamps samples j i st =
        if timestamps.getD i 0 ≤ y.getTimestamp then
          match y.getFloatVal with
          | .error e => .error e
          | .ok v => .ok ⟨k, setCell st.arr i j v⟩
        else .ok ⟨k, st.arr⟩ := by
  obtain ⟨k, y, hrun, hy, hck, hmid, hstop⟩ :=
    cursorLoop_spec samples (timestamps.getD i 0) hlen samples.length st.stream_row x hx (by omega)
  refine ⟨k, y, ⟨hy, ?_, hstop⟩, ?_⟩
  · intro m z hm hz
    by_cases h : m < st.stream_row
    · exact hpre m z h hz
    · exact hmid m z (by omega) hm hz
  · simp only [syncRow, vec_at_eq_ok hx, hrun, vec_at_eq_ok hy]

theorem getFloatVal_of_numeric {samples : List Sample} (hnum : Numeric samples) {k : Nat}
    {y : Sample} (hy : samples[k]? = some y) :
    ∃ v, y.getFloatVal = .ok v ∧ y.float? = some v := by
  obtain ⟨hk, rfl⟩ := List.getElem?_eq_some.mp hy
  have h := hnum _ (List.getElem_mem hk)
  cases hv : (samples[k]).value with
  | float v => exact ⟨v, by simp [Sample.getFloatVal, hv], by simp [Sample.float?, hv]⟩
  | string v => simp [Sample.float?, hv] at h

/-- Assignment of `cellSpec` to the cell `(i, j)`. -/
theorem syncRow_numeric (timestamps : List Nat) (samples : List Sample) (j i : Nat)
    (st : SyncState) (hlen : samples.length < UINT64_MOD) (hnum : Numeric samples)
    (x : Sample) (hx : samples[st.stream_row]? = some x)
    (hpre : ∀ m z, m < st.stream_row → samples[m]? = some z →
      z.getTimestamp < timestamps.getD i 0) :
    ∃ k y, StopsAt samples (timestamps.getD i 0) k y ∧
      syncRow timestamps samples j i st = .ok ⟨k,
        match cellSpec samples (timestamps.getD i 0) with
        | some v => setCell st.arr i j v
        | none => st.arr⟩ := by
  obtain ⟨k, y, hstop, hrun⟩ := syncRow_eq timestamps samples j i st hlen x hx hpre
  refine ⟨k, y, hstop, ?_⟩
  rw [hrun]
  by_cases hty : timestamps.getD i 0 ≤ y.getTimestamp
  · obtain ⟨v, hv, hf⟩ := getFloatVal_of_numeric hnum hstop.1
    rw [if_pos hty, hv]
    simp only [cellSpec, hstop.firstAtOrAfter_pos hty, Option.some_bind, hf]
  · rw [if_neg hty]
    simp only [cellSpec, hstop.firstAtOrAfter_neg hty, Option.none_bind]

/-! ## Cells of the table -/

theorem getCell_setCell (arr : List (List (Option F32))) (i j i' j' : Nat) (v : F32)
    (hi : i < arr.length) (hj : j < (arr.getD i []).length) :
    getCell (setCell arr i j v) i' j' =
      if i' = i ∧ j' = j then some v else getCell arr i' j' := by
  unfold getCell setCell
  by_cases h1 : i' = i
  · subst h1
    simp only [List.getD_eq_getElem?_getD, List.getElem?_set_self hi, Option.getD_some]
    by_cases h2 : j' = j
    · subst h2
      have hj' : j' < ((arr[i']?).getD []).length := by simpa using hj
      simp [List.getElem?_set_self hj']
    · simp [h2, List.getElem?_set_ne (fun e => h2 e.symm)]
  · simp [h1, List.getElem?_set_ne (fun e => h1 e.symm)]

theorem setCell_shape (arr : List (List (Option F32))) (i j : Nat) (v : F32) (rows cols : Nat)
    (h : arr.length = rows ∧ ∀ r ∈ arr, r.length = cols) :
    (setCell arr i j v).length = rows ∧ ∀ r ∈ setCell arr i j v, r.length = cols := by
  refine ⟨by simp [setCell, h.1], ?_⟩
  intro r hr
  rcases List.mem_or_eq_of_mem_set hr with hm | rfl
  · exact h.2 r hm
  · rw [List.length_set, List.getD_eq_getElem?_getD]
    by_cases hi : i < arr.length
    · rw [List.getElem?_eq_getElem hi]
      exact h.2 _ (List.getElem_mem hi)
    · unfold setCell at hr
      rw [List.set_eq_of_length_le (by omega)] at hr
      have := h.2 _ hr
      simpa using this

/-! ## One column (lines 172-191) -/

theorem getCell_of_lt (arr : List (List (Option F32))) (i j : Nat) (hi : i < arr.length)
    (hj : j < arr[i].length) : getCell arr i j = arr[i][j] := by
  simp [getCell, List.getElem?_eq_getElem hi, List.getElem?_eq_getElem hj]

/-- A row loop whose body assigns `cellSpec` and keeps the cursor condition
fills column `j`. -/
theorem column_spec (streams : List Stream) (timestamps : List Nat) (j : Nat)
    (hj : j < streams.length) (body : Nat → SyncState → Except Error SyncState)
    (hne : (streams.getD j default).getSamples ≠ [])
    (hbody : ∀ i st, i < timestamps.length →
      CursorOk timestamps (streams.getD j default).getSamples i st.stream_row →
      ∃ k, body i st = .ok ⟨k,
          match cellSpec (streams.getD j default).getSamples (timestamps.getD i 0) with
          | some v => setCell st.arr i j v
          | none => st.arr⟩ ∧
        CursorOk timestamps (streams.getD j default).getSamples (i + 1) k)
    (arr : List (List (Option F32))) (harr : FilledUpTo streams timestamps j 0 arr) :
    ∃ st, forLoop body timestamps.length 0 ⟨0, arr⟩ = .ok st ∧
      FilledUpTo streams timestamps (j + 1) 0 st.arr := by
  obtain ⟨st, hrun, _, hfin⟩ := forLoop_inv body
    (fun i st => CursorOk timestamps (streams.getD j default).getSamples i st.stream_row ∧
      FilledUpTo streams timestamps j i st.arr)
    timestamps.length 0 ⟨0, arr⟩
    ⟨⟨by
        cases hs : (streams.getD j default).getSamples with
        | nil => exact absurd hs hne
        | cons a l => exact ⟨a, by simp⟩,
      by intro _ m z hm; exact absurd hm (Nat.not_lt_zero _)⟩, harr⟩
    (by
      intro i st _ hi ⟨hcur, hlen, hshape, hcells⟩
      have hi' : i < timestamps.length := by omega
      obtain ⟨k, hrun, hcur'⟩ := hbody i st hi' hcur
      refine ⟨_, hrun, hcur', ?_⟩
      cases hspec : cellSpec (streams.getD j default).getSamples (timestamps.getD i 0) with
      | none =>
        refine ⟨hlen, hshape, ?_⟩
        intro i' j' h1 h2
        rw [hcells i' j' h1 h2]
        by_cases hij : i' = i ∧ j' = j
        · obtain ⟨rfl, rfl⟩ := hij
          rw [if_neg (by omega), if_pos (Or.inr ⟨rfl, Nat.lt_succ_self _⟩), hspec]
        · have : (j' < j ∨ j' = j ∧ i' < i + 1) ↔ (j' < j ∨ j' = j ∧ i' < i) := by omega
          simp only [this]
      | some v =>
        have hia : i < st.arr.length := by omega
        have hrow : (st.arr.getD i []).length = streams.length := by
          rw [List.getD_eq_getElem?_getD, List.getElem?_eq_getElem hia]
          exact hshape _ (List.getElem_mem hia)
        obtain ⟨hl', hs'⟩ := setCell_shape st.arr i j v _ _ ⟨hlen, hshape⟩
        refine ⟨hl', hs', ?_⟩
        intro i' j' h1 h2
        rw [getCell_setCell st.arr i j i' j' v hia (by omega)]
        by_cases hij : i' = i ∧ j' = j
        · obtain ⟨rfl, rfl⟩ := hij
          rw [if_pos ⟨rfl, rfl⟩, if_pos (Or.inr ⟨rfl, Nat.lt_succ_self _⟩), hspec]
        · rw [if_neg hij, hcells i' j' h1 h2]
          have : (j' < j ∨ j' = j ∧ i' < i + 1) ↔ (j' < j ∨ j' = j ∧ i' < i) := by omega
          simp only [this])
  refine ⟨st, hrun, hfin.1, hfin.2.1, ?_⟩
  intro i' j' h1 h2
  rw [hfin.2.2 i' j' h1 h2]
  have : (j' < j ∨ j' = j ∧ i' < 0 + timestamps.length) ↔ (j' < j + 1 ∨ j' = j + 1 ∧ i' < 0) := by
    omega
  simp only [this]

theorem NonDecreasing.getD_le {l : List Nat} (h : NonDecreasing l) (i : Nat)
    (hi : i + 1 < l.length) : l.getD i 0 ≤ l.getD (i + 1) 0 := by
  have := (List.pairwise_iff_getElem.mp h) i (i + 1) (by omega) hi (Nat.lt_succ_self i)
  simpa [List.getElem?_eq_getElem hi, List.getElem?_eq_getElem (show i < l.length by omega)]
    using this

/-- The row body of the program meets the condition of `column_spec`. -/
theorem syncRow_body (timestamps : List Nat) (samples : List Sample) (j : Nat)
    (hlen : samples.length < UINT64_MOD) (hnum : Numeric samples)
    (hts : NonDecreasing timestamps) (i : Nat) (st : SyncState) (hi : i < timestamps.length)
    (hc : CursorOk timestamps samples i st.stream_row) :
    ∃ k, syncRow timestamps samples j i st = .ok ⟨k,
        match cellSpec samples (timestamps.getD i 0) with
        | some v => setCell st.arr i j v
        | none => st.arr⟩ ∧
      CursorOk timestamps samples (i + 1) k := by
  obtain ⟨⟨x, hx⟩, hpre⟩ := hc
  obtain ⟨k, y, hstop, hrun⟩ :=
    syncRow_numeric timestamps samples j i st hlen hnum x hx (hpre hi)
  refine ⟨k, hrun, ⟨y, hstop.1⟩, ?_⟩
  intro hi1 m z hm hz
  exact Nat.lt_of_lt_of_le (hstop.2.1 m z hm hz) (hts.getD_le i hi1)

/-- The row body with the cursor reset meets the condition of `column_spec`. -/
theorem syncRowReset_body (timestamps : List Nat) (samples : List Sample) (j : Nat)
    (hlen : samples.length < UINT64_MOD) (hnum : Numeric samples) (hne : samples ≠ [])
    (hts : NonDecreasing timestamps) (i : Nat) (st : SyncState) (hi : i < timestamps.length) :
    ∃ k, syncRowReset timestamps samples j i st = .ok ⟨k,
        match cellSpec samples (timestamps.getD i 0) with
        | some v => setCell st.arr i j v
        | none => st.arr⟩ ∧
      CursorOk timestamps samples (i + 1) k := by
  have h0 : CursorOk timestamps samples i 0 := by
    refine ⟨?_, by intro _ m z hm; exact absurd hm (Nat.not_lt_zero _)⟩
    cases samples with
    | nil => exact absurd rfl hne
    | cons a l => exact ⟨a, by simp⟩
  exact syncRow_body timestamps samples j hlen hnum hts i ⟨0, st.arr⟩ hi h0

/-! ## The phases before the alignment (lines 138-166) -/

theorem find?_first {α : Type} (p : α → Bool) (l : List α) (m : Nat) (a : α)
    (ha : l[m]? = some a) (hp : p a = true)
    (hnot : ∀ (k : Nat) (b : α), k < m → l[k]? = some b → p b = false) :
    l.find? p = some a := by
  induction l generalizing m with
  | nil => simp at ha
  | cons c l ih =>
    cases m with
    | zero =>
      simp only [List.getElem?_cons_zero, Option.some.injEq] at ha
      subst ha
      simp [hp]
    | succ m =>
      have hc : p c = false := hnot 0 c (Nat.succ_pos _) (by simp)
      rw [List.find?_cons_of_neg _ (by simp [hc])]
      exact ih m (by simpa using ha) (fun k b hk hb => hnot (k + 1) b (by omega) (by simpa using hb))

theorem refTimestamps_of_zero (streams : List Stream) (h : maxSampleCount streams = 0) :
    refTimestamps streams = [] := by
  unfold refTimestamps
  cases hr : referenceStream streams with
  | none => rfl
  | some r =>
    have hm : r ∈ streams := List.mem_of_find?_eq_some hr
    have := le_maxSampleCount streams r hm
    have h0 : r.getSamples.length = 0 := by omega
    simp [List.length_eq_zero.mp h0]

theorem refTimestamps_length (streams : List Stream) :
    (refTimestamps streams).length = maxSampleCount streams := by
  unfold refTimestamps
  cases hr : referenceStream streams with
  | none =>
    rcases maxSampleCount_attained streams with h0 | ⟨s, hs, he⟩
    · simp [h0]
    · have := List.find?_eq_none.mp hr s hs
      simp [he] at this
  | some r =>
    have := List.find?_some hr
    simpa using this

/-- The scan and the copy of the timestamps never throw: the row count is the
greatest sample count, the names are the names of the streams in their order,
and the row timestamps are the timestamps of the reference stream. -/
theorem phases_spec (streams : List Stream) :
    ∃ scan, forLoop (scanBody streams) streams.length 0
        ⟨0, UINT64_MOD - 1, List.replicate streams.length ""⟩ = .ok scan ∧
      scan.rows = maxSampleCount streams ∧ scan.colnames = streams.map Stream.getName ∧
      forLoop (copyBody (streams.getD scan.max_idx default).getSamples)
        (maxSampleCount streams) 0 (List.replicate (maxSampleCount streams) 0)
        = .ok (refTimestamps streams) := by
  obtain ⟨scan, hscan, hinv⟩ := scan_spec streams
  have hrows := hinv.rows_eq
  refine ⟨scan, hscan, hrows, hinv.colnames_eq, ?_⟩
  rw [← hrows]
  obtain ⟨_, _, hle, hmax⟩ := hinv
  rcases hmax with ⟨h0, _⟩ | ⟨hp, hm, he, hlt⟩
  · rw [h0, refTimestamps_of_zero streams (by omega)]
    rfl
  · have hcs := copy_spec (streams.getD scan.max_idx default).getSamples
    have he' : (streams.getD scan.max_idx default).getSamples.length = scan.rows := he
    rw [he'] at hcs
    rw [hcs]
    congr 1
    have hfind : referenceStream streams = some streams[scan.max_idx] := by
      apply find?_first _ _ scan.max_idx _ (List.getElem?_eq_getElem hm)
      · have : countAt streams scan.max_idx = maxSampleCount streams := by omega
        simpa [countAt, List.getD_eq_getElem?_getD, List.getElem?_eq_getElem hm] using this
      · intro k b hk hb
        have hk' : k < streams.length := by omega
        have := hlt k hk
        have hne : b.getSamples.length ≠ maxSampleCount streams := by
          simp only [countAt, List.getD_eq_getElem?_getD, hb, Option.getD_some] at this
          omega
        simp [hne]
    simp only [refTimestamps, hfind, List.getD_eq_getElem?_getD, List.getElem?_eq_getElem hm,
      Option.getD_some]

/-- The allocation never throws either: the result of `create_data_table` is
the result of the column loop, run on the timestamps of the reference stream
and an unassigned table, under the names of the streams. -/
theorem create_data_table_eq (streams : List Stream) :
    create_data_table streams =
      match forLoop (syncColumn streams (refTimestamps streams) (maxSampleCount streams))
          streams.length 0
          (List.replicate (maxSampleCount streams) (List.replicate streams.length none)) with
      | .error e => .error e
      | .ok arr => .ok ⟨streams.map Stream.getName, refTimestamps streams, arr⟩ := by
  obtain ⟨scan, hscan, hrows, hnames, hcopy⟩ := phases_spec streams
  unfold create_data_table
  simp only [hscan, hrows, hcopy, alloc_spec, hnames]

theorem create_data_table_reset_eq (streams : List Stream) :
    create_data_table_reset streams =
      match forLoop (syncColumnReset streams (refTimestamps streams) (maxSampleCount streams))
          streams.length 0
          (List.replicate (maxSampleCount streams) (List.replicate streams.length none)) with
      | .error e => .error e
      | .ok arr => .ok ⟨streams.map Stream.getName, refTimestamps streams, arr⟩ := by
  obtain ⟨scan, hscan, hrows, hnames, hcopy⟩ := phases_spec streams
  unfold create_data_table_reset
  simp only [hscan, hrows, hcopy, alloc_spec, hnames]

/-! ## The whole table (lines 170-192) -/

/-- A table that is filled up to the last column is `tableSpec`. -/
theorem FilledUpTo.eq_tableSpec {streams : List Stream} {timestamps : List Nat}
    {arr : List (List (Option F32))}
    (h : FilledUpTo streams timestamps streams.length 0 arr) :
    arr = tableSpec streams timestamps := by
  obtain ⟨hlen, hshape, hcells⟩ := h
  apply List.ext_getElem?
  intro i
  by_cases hi : i < timestamps.length
  · have hia : i < arr.length := by omega
    have hrow : arr[i].length = streams.length := hshape _ (List.getElem_mem hia)
    rw [List.getElem?_eq_getElem hia, tableSpec, List.getElem?_map,
      List.getElem?_eq_getElem hi, Option.map_some']
    congr 1
    apply List.ext_getElem?
    intro j
    by_cases hj : j < streams.length
    · have hja : j < arr[i].length := by omega
      have hc := hcells i j hi hj
      rw [getCell_of_lt arr i j hia hja, if_pos (Or.inl hj)] at hc
      rw [List.getElem?_eq_getElem hja, hc, List.getElem?_map, List.getElem?_eq_getElem hj]
      simp [List.getElem?_eq_getElem hi, List.getElem?_eq_getElem hj]
    · rw [List.getElem?_eq_none (by omega),
        List.getElem?_eq_none (by rw [List.length_map]; omega)]
  · rw [List.getElem?_eq_none (by omega),
      List.getElem?_eq_none (by rw [tableSpec, List.length_map]; omega)]

/-- A column loop whose body fills one column fills the table. -/
theorem table_of_columns (streams : List Stream) (timestamps : List Nat)
    (col : Nat → List (List (Option F32)) → Except Error (List (List (Option F32))))
    (hcol : ∀ j arr, j < streams.length → FilledUpTo streams timestamps j 0 arr →
      ∃ arr', col j arr = .ok arr' ∧ FilledUpTo streams timestamps (j + 1) 0 arr') :
    forLoop col streams.length 0
        (List.replicate timestamps.length (List.replicate streams.length none))
      = .ok (tableSpec streams timestamps) := by
  obtain ⟨arr, hrun, hfin⟩ := forLoop_inv col
    (fun j arr => FilledUpTo streams timestamps j 0 arr) streams.length 0
    (List.replicate timestamps.length (List.replicate streams.length none))
    (by
      refine ⟨by simp, ?_, ?_⟩
      · intro r hr
        rw [List.eq_of_mem_replicate hr, List.length_replicate]
      · intro i' j' h1 h2
        rw [if_neg (by omega)]
        simp [getCell, List.getElem?_replicate, h1, h2])
    (fun j arr _ hj hP => hcol j arr (by omega) hP)
  rw [hrun]
  congr 1
  rw [Nat.zero_add] at hfin
  exact hfin.eq_tableSpec

theorem refTimestamps_nonDecreasing (streams : List Stream)
    (hsorted : ∀ s ∈ streams, NonDecreasing (s.getSamples.map Sample.getTimestamp)) :
    NonDecreasing (refTimestamps streams) := by
  unfold refTimestamps
  cases hr : referenceStream streams with
  | none => exact List.Pairwise.nil
  | some r => exact hsorted r (List.mem_of_find?_eq_some hr)

/-- On non-empty numeric streams with non-decreasing timestamps the program
ends normally and writes `tableSpec`. -/
theorem create_data_table_spec (streams : List Stream)
    (hne : ∀ s ∈ streams, s.getSamples ≠ [])
    (hnum : ∀ s ∈ streams, Numeric s.getSamples)
    (hsize : ∀ s ∈ streams, s.getSamples.length < UINT64_MOD)
    (hsorted : ∀ s ∈ streams, NonDecreasing (s.getSamples.map Sample.getTimestamp)) :
    create_data_table streams = .ok ⟨streams.map Stream.getName, refTimestamps streams,
      tableSpec streams (refTimestamps streams)⟩ := by
  have hts := refTimestamps_nonDecreasing streams hsorted
  rw [create_data_table_eq, ← refTimestamps_length,
    table_of_columns streams (refTimestamps streams)]
  intro j arr hj harr
  have hmem := getD_mem streams j hj
  obtain ⟨st, hrun, hfin⟩ := column_spec streams (refTimestamps streams) j hj
    (syncRow (refTimestamps streams) (streams.getD j default).getSamples j) (hne _ hmem)
    (fun i st hi hc => syncRow_body _ _ j (hsize _ hmem) (hnum _ hmem) hts i st hi hc) arr harr
  exact ⟨st.arr, by simp only [syncColumn, hrun], hfin⟩

/-- The same table is written when the cursor restarts at index 0 in every row. -/
theorem create_data_table_reset_spec (streams : List Stream)
    (hne : ∀ s ∈ streams, s.getSamples ≠ [])
    (hnum : ∀ s ∈ streams, Numeric s.getSamples)
    (hsize : ∀ s ∈ streams, s.getSamples.length < UINT64_MOD)
    (hsorted : ∀ s ∈ streams, NonDecreasing (s.getSamples.map Sample.getTimestamp)) :
    create_data_table_reset streams = .ok ⟨streams.map Stream.getName, refTimestamps streams,
      tableSpec streams (refTimestamps streams)⟩ := by
  have hts := refTimestamps_nonDecreasing streams hsorted
  rw [create_data_table_reset_eq, ← refTimestamps_length,
    table_of_columns streams (refTimestamps streams)]
  intro j arr hj harr
  have hmem := getD_mem streams j hj
  obtain ⟨st, hrun, hfin⟩ := column_spec streams (refTimestamps streams) j hj
    (syncRowReset (refTimestamps streams) (streams.getD j default).getSamples j) (hne _ hmem)
    (fun i st hi _ =>
      syncRowReset_body _ _ j (hsize _ hmem) (hnum _ hmem) (hne _ hmem) hts i st hi) arr harr
  exact ⟨st.arr, by simp only [syncColumnReset, hrun], hfin⟩

/-- Cell `(i, j)` of `tableSpec`. -/
theorem getCell_tableSpec (streams : List Stream) (timestamps : List Nat) (i j t : Nat)
    (s : Stream) (ht : timestamps[i]? = some t) (hs : streams[j]? = some s) :
    getCell (tableSpec streams timestamps) i j = cellSpec s.getSamples t := by
  obtain ⟨hi, hti⟩ := List.getElem?_eq_some.mp ht
  obtain ⟨hj, hsj⟩ := List.getElem?_eq_some.mp hs
  simp only [getCell, tableSpec, List.getD_eq_getElem?_getD, List.getElem?_map,
    List.getElem?_eq_getElem hi, List.getElem?_eq_getElem hj, Option.map_some',
    Option.getD_some]
  rw [← hti, ← hsj]

theorem Numeric.map_float {samples : List Sample} (h : Numeric samples) {x : Sample}
    (hx : x ∈ samples) : x.float?.map Variant.float = some x.value := by
  have hn := h x hx
  cases hv : x.value with
  | float v => simp [Sample.float?, hv]
  | string v => simp [Sample.float?, hv] at hn

/-! ## C1: what a cell holds -/

set_option maxRecDepth 100000 in
/-- C1, the claim as stated fails: in the scenario of the spec the table has the
rows 0, 10, 20, 30 and column A = [1, 2, 3, 4], but column B is
[10, 20, hole, hole]; the cell of row 10 holds 20 although the latest sample of
B at or before 10 holds 10, and the cell of row 20 is a hole although B has a
sample at or before 20. -/
theorem C1_hold_last_value_fails :
    create_data_table [scenarioA, scenarioB] = .ok
      ⟨["A", "B"], [0, 10, 20, 30],
        [[some (F32.ofNat 1), some (F32.ofNat 10)], [some (F32.ofNat 2), some (F32.ofNat 20)],
         [some (F32.ofNat 3), none], [some (F32.ofNat 4), none]]⟩ ∧
    (lastAtOrBefore scenarioB.getSamples 10).bind Sample.float? = some (F32.ofNat 10) ∧
    (lastAtOrBefore scenarioB.getSamples 20).bind Sample.float? = some (F32.ofNat 20) ∧
    F32.ofNat 20 ≠ F32.ofNat 10 := by
  decide

set_option maxRecDepth 100000 in
/-- C1 (amended): for every list of non-empty numeric streams whose timestamps
are non-decreasing, `create_data_table` ends normally, and for every row `i`
with timestamp `t` and every column `j`, the cell `(i, j)` holds the value of
the first sample of stream `j` whose timestamp is at least `t`, and is a hole if
stream `j` has no such sample.  In the scenario of the spec the rows are at
0, 10, 20, 30, column A is 1, 2, 3, 4 and column B is 10, 20, hole, hole. -/
theorem C1_cell_is_first_sample_at_or_after (streams : List Stream)
    (hne : ∀ s ∈ streams, s.getSamples ≠ [])
    (hnum : ∀ s ∈ streams, Numeric s.getSamples)
    (hsize : ∀ s ∈ streams, s.getSamples.length < UINT64_MOD)
    (hsorted : ∀ s ∈ streams, NonDecreasing (s.getSamples.map Sample.getTimestamp)) :
    (∃ tbl, create_data_table streams = .ok tbl ∧
      ∀ i j t s, tbl.timestamps[i]? = some t → streams[j]? = some s →
        (getCell tbl.arr i j).map Variant.float
          = (firstAtOrAfter s.getSamples t).map Sample.value) ∧
    create_data_table [scenarioA, scenarioB] = .ok scenarioTable := by
  refine ⟨⟨_, create_data_table_spec streams hne hnum hsize hsorted, ?_⟩, by decide⟩
  intro i j t s ht hs
  show Option.map Variant.float (getCell (tableSpec streams (refTimestamps streams)) i j) = _
  rw [getCell_tableSpec streams _ i j t s ht hs, cellSpec]
  cases hf : firstAtOrAfter s.getSamples t with
  | none => rfl
  | some x =>
    exact (hnum s (List.getElem?_mem hs)).map_float (List.mem_of_find?_eq_some hf)

set_option maxRecDepth 100000 in
/-- Instance of the amended C1 at the scenario of the spec. -/
theorem C1_cell_is_first_sample_at_or_after_witness :
    (∀ s ∈ [scenarioA, scenarioB], s.getSamples ≠ []) ∧
    (∀ s ∈ [scenarioA, scenarioB], Numeric s.getSamples) ∧
    (∀ s ∈ [scenarioA, scenarioB], s.getSamples.length < UINT64_MOD) ∧
    (∀ s ∈ [scenarioA, scenarioB], NonDecreasing (s.getSamples.map Sample.getTimestamp)) ∧
    ((∃ tbl, create_data_table [scenarioA, scenarioB] = .ok tbl ∧
      ∀ i j t s, tbl.timestamps[i]? = some t → [scenarioA, scenarioB][j]? = some s →
        (getCell tbl.arr i j).map Variant.float
          = (firstAtOrAfter s.getSamples t).map Sample.value) ∧
    create_data_table [scenarioA, scenarioB] = .ok scenarioTable) :=
  ⟨by decide, by decide, by decide, by decide,
    C1_cell_is_first_sample_at_or_after [scenarioA, scenarioB]
      (by decide) (by decide) (by decide) (by decide)⟩

/-! ## C2: shape of the table -/

theorem syncRow_shape (timestamps : List Nat) (samples : List Sample) (j i : Nat)
    (st st' : SyncState) (h : syncRow timestamps samples j i st = .ok st') (rows cols : Nat)
    (hs : st.arr.length = rows ∧ ∀ r ∈ st.arr, r.length = cols) :
    st'.arr.length = rows ∧ ∀ r ∈ st'.arr, r.length = cols := by
  simp only [syncRow] at h
  split at h
  · cases h
  · split at h
    · cases h
    · split at h
      · split at h
        · cases h
        · split at h
          · cases h
          · cases h
            exact setCell_shape _ _ _ _ _ _ hs
      · cases h
        exact hs

theorem syncColumn_shape (streams : List Stream) (timestamps : List Nat) (n j : Nat)
    (arr arr' : List (List (Option F32))) (h : syncColumn streams timestamps n j arr = .ok arr')
    (rows cols : Nat) (hs : arr.length = rows ∧ ∀ r ∈ arr, r.length = cols) :
    arr'.length = rows ∧ ∀ r ∈ arr', r.length = cols := by
  simp only [syncColumn] at h
  split at h
  · cases h
  · rename_i st hrun
    cases h
    exact forLoop_ok_inv _ (fun _ st => st.arr.length = rows ∧ ∀ r ∈ st.arr, r.length = cols)
      n 0 ⟨0, arr⟩ st hs
      (fun i st st' _ _ hP hb => syncRow_shape _ _ _ _ _ _ hb rows cols hP) hrun

/-- C2: for every list of streams on which `create_data_table` ends normally,
the table has exactly as many rows (row timestamps and rows of cells) as the
greatest sample count of the streams, 0 rows for no stream, every row has
exactly one cell per stream, and the `k`-th column name is the name of the
`k`-th stream in the order the streams were passed. -/
theorem C2_shape (streams : List Stream) (tbl : Table)
    (h : create_data_table streams = .ok tbl) :
    tbl.timestamps.length = maxSampleCount streams ∧
    tbl.arr.length = maxSampleCount streams ∧
    (∀ r ∈ tbl.arr, r.length = streams.length) ∧
    (streams = [] → tbl.timestamps = [] ∧ tbl.arr = []) ∧
    tbl.colnames.length = streams.length ∧
    (∀ (k : Nat) (s : Stream), streams[k]? = some s → tbl.colnames[k]? = some s.getName) := by
  rw [create_data_table_eq] at h
  cases hrun : forLoop (syncColumn streams (refTimestamps streams) (maxSampleCount streams))
      streams.length 0
      (List.replicate (maxSampleCount streams) (List.replicate streams.length none)) with
  | error e => rw [hrun] at h; cases h
  | ok arr =>
    rw [hrun] at h
    cases h
    have hshape := forLoop_ok_inv _
      (fun _ (a : List (List (Option F32))) =>
        a.length = maxSampleCount streams ∧ ∀ r ∈ a, r.length = streams.length)
      streams.length 0 _ arr
      ⟨by simp, fun r hr => by rw [List.eq_of_mem_replicate hr, List.length_replicate]⟩
      (fun j a a' _ _ hP hb => syncColumn_shape _ _ _ _ _ _ hb _ _ hP) hrun
    refine ⟨refTimestamps_length streams, hshape.1, hshape.2, ?_, by simp, ?_⟩
    · intro he
      subst he
      have h0 : maxSampleCount ([] : List Stream) = 0 := rfl
      refine ⟨rfl, ?_⟩
      exact List.length_eq_zero.mp (by rw [hshape.1, h0])
    · intro k s hk
      simp [List.getElem?_map, hk]

set_option maxRecDepth 100000 in
/-- Instance of C2 at the scenario of the spec, on which the program ends normally. -/
theorem C2_shape_witness :
    create_data_table [scenarioA, scenarioB] = .ok scenarioTable ∧
    (scenarioTable.timestamps.length = maxSampleCount [scenarioA, scenarioB] ∧
    scenarioTable.arr.length = maxSampleCount [scenarioA, scenarioB] ∧
    (∀ r ∈ scenarioTable.arr, r.length = [scenarioA, scenarioB].length) ∧
    ([scenarioA, scenarioB] = [] → scenarioTable.timestamps = [] ∧ scenarioTable.arr = []) ∧
    scenarioTable.colnames.length = [scenarioA, scenarioB].length ∧
    (∀ (k : Nat) (s : Stream), [scenarioA, scenarioB][k]? = some s →
      scenarioTable.colnames[k]? = some s.getName)) :=
  ⟨by decide, C2_shape [scenarioA, scenarioB] scenarioTable (by decide)⟩

/-! ## C3: the reference stream gives the row timestamps -/

theorem referenceStream_isSome (streams : List Stream) (hne : streams ≠ []) :
    ∃ r, referenceStream streams = some r := by
  have : (referenceStream streams).isSome = true := by
    rw [referenceStream, List.find?_isSome]
    rcases maxSampleCount_attained streams with h0 | ⟨s, hs, he⟩
    · cases streams with
      | nil => exact absurd rfl hne
      | cons a l =>
        refine ⟨a, List.mem_cons_self _ _, ?_⟩
        have := le_maxSampleCount (a :: l) a (List.mem_cons_self _ _)
        simp only [decide_eq_true_eq]
        omega
    · exact ⟨s, hs, by simpa using he⟩
  exact Option.isSome_iff_exists.mp this

/-- C3: when `create_data_table` ends normally on at least one stream, there is
a stream `r`, at an index `k` of the list, that has the greatest sample count
and is the first with that count (every stream before `k` has fewer samples),
and the row timestamps are exactly the timestamps of `r` in their order: row
`i` carries the timestamp of sample `i` of `r`, unmodified. -/
theorem C3_rows_are_reference_timestamps (streams : List Stream) (tbl : Table)
    (h : create_data_table streams = .ok tbl) (hne : streams ≠ []) :
    ∃ (k : Nat) (r : Stream), streams[k]? = some r ∧
      (∀ s ∈ streams, s.getSamples.length ≤ r.getSamples.length) ∧
      (∀ (k' : Nat) (s : Stream), k' < k → streams[k']? = some s →
        s.getSamples.length < r.getSamples.length) ∧
      tbl.timestamps = r.getSamples.map Sample.getTimestamp ∧
      (∀ (i : Nat) (x : Sample), r.getSamples[i]? = some x →
        tbl.timestamps[i]? = some x.getTimestamp) := by
  have hts : tbl.timestamps = refTimestamps streams := by
    rw [create_data_table_eq] at h
    cases hrun : forLoop (syncColumn streams (refTimestamps streams) (maxSampleCount streams))
        streams.length 0
        (List.replicate (maxSampleCount streams) (List.replicate streams.length none)) with
    | error e => rw [hrun] at h; cases h
    | ok arr => rw [hrun] at h; cases h; rfl
  obtain ⟨r, hr⟩ := referenceStream_isSome streams hne
  have hts' : tbl.timestamps = r.getSamples.map Sample.getTimestamp := by
    rw [hts, refTimestamps, hr]
  obtain ⟨hp, front, back, hsplit, hfront⟩ := List.find?_eq_some.mp hr
  have hmax : r.getSamples.length = maxSampleCount streams := by simpa using hp
  refine ⟨front.length, r, ?_, ?_, ?_, hts', ?_⟩
  · rw [hsplit, List.getElem?_append_right (Nat.le_refl _)]
    simp
  · intro s hs
    rw [hmax]
    exact le_maxSampleCount streams s hs
  · intro k' s hk' hs
    have hsf : s ∈ front := by
      rw [hsplit, List.getElem?_append_left hk'] at hs
      exact List.getElem?_mem hs
    have h1 := hfront s hsf
    have h2 := le_maxSampleCount streams s (by rw [hsplit]; exact List.mem_append_left _ hsf)
    have h3 : s.getSamples.length ≠ maxSampleCount streams := by simpa using h1
    omega
  · intro i x hx
    rw [hts', List.getElem?_map, hx]
    rfl

set_option maxRecDepth 100000 in
/-- Instance of C3 with the longer stream in second place. -/
theorem C3_rows_are_reference_timestamps_witness :
    create_data_table [scenarioB, scenarioA] = .ok scenarioTableBA ∧
    [scenarioB, scenarioA] ≠ [] ∧
    ∃ (k : Nat) (r : Stream), [scenarioB, scenarioA][k]? = some r ∧
      (∀ s ∈ [scenarioB, scenarioA], s.getSamples.length ≤ r.getSamples.length) ∧
      (∀ (k' : Nat) (s : Stream), k' < k → [scenarioB, scenarioA][k']? = some s →
        s.getSamples.length < r.getSamples.length) ∧
      scenarioTableBA.timestamps = r.getSamples.map Sample.getTimestamp ∧
      (∀ (i : Nat) (x : Sample), r.getSamples[i]? = some x →
        scenarioTableBA.timestamps[i]? = some x.getTimestamp) :=
  ⟨by decide, by decide,
    C3_rows_are_reference_timestamps [scenarioB, scenarioA] scenarioTableBA
      (by decide) (by decide)⟩

/-! ## C4: the cursor may be kept across rows -/

/-- C4: for every list of non-empty numeric streams whose timestamps (those of
the reference stream among them) are non-decreasing, `create_data_table`, which
keeps one forward-only cursor per column across the rows, and the same loops
with the cursor reset to index 0 at the start of every row both end normally
and write the same table, cell for cell and hole for hole. -/
theorem C4_cursor_kept_equals_cursor_reset (streams : List Stream)
    (hne : ∀ s ∈ streams, s.getSamples ≠ [])
    (hnum : ∀ s ∈ streams, Numeric s.getSamples)
    (hsize : ∀ s ∈ streams, s.getSamples.length < UINT64_MOD)
    (hsorted : ∀ s ∈ streams, NonDecreasing (s.getSamples.map Sample.getTimestamp)) :
    ∃ tbl, create_data_table streams = .ok tbl ∧ create_data_table_reset streams = .ok tbl :=
  ⟨_, create_data_table_spec streams hne hnum hsize hsorted,
    create_data_table_reset_spec streams hne hnum hsize hsorted⟩

set_option maxRecDepth 100000 in
/-- Instance of C4 on two streams of different length. -/
theorem C4_cursor_kept_equals_cursor_reset_witness :
    (∀ s ∈ [scenarioA, scenarioLate], s.getSamples ≠ []) ∧
    (∀ s ∈ [scenarioA, scenarioLate], Numeric s.getSamples) ∧
    (∀ s ∈ [scenarioA, scenarioLate], s.getSamples.length < UINT64_MOD) ∧
    (∀ s ∈ [scenarioA, scenarioLate], NonDecreasing (s.getSamples.map Sample.getTimestamp)) ∧
    ∃ tbl, create_data_table [scenarioA, scenarioLate] = .ok tbl ∧
      create_data_table_reset [scenarioA, scenarioLate] = .ok tbl :=
  ⟨by decide, by decide, by decide, by decide,
    C4_cursor_kept_equals_cursor_reset [scenarioA, scenarioLate]
      (by decide) (by decide) (by decide) (by decide)⟩

/-! ## C5: where the holes are -/

set_option maxRecDepth 100000 in
/-- C5, the claim as stated fails: with A = (0, 10, 20, 30) and a second stream
whose samples are at 5 and 15, the first timestamp 5 of the second stream
exceeds the row timestamp 0, yet the cell of row 0 is assigned (it holds 10,
the value of the sample at 5); and the cells of rows 20 and 30 are holes
although the stream has samples at or before 20. -/
theorem C5_hole_at_start_fails :
    create_data_table [scenarioA, scenarioLate] = .ok
      ⟨["A", "B"], [0, 10, 20, 30],
        [[some (F32.ofNat 1), some (F32.ofNat 10)], [some (F32.ofNat 2), some (F32.ofNat 20)],
         [some (F32.ofNat 3), none], [some (F32.ofNat 4), none]]⟩ ∧
    scenarioLate.getSamples.head?.map Sample.getTimestamp = some 5 ∧
    (lastAtOrBefore scenarioLate.getSamples 0).isSome = false ∧
    (lastAtOrBefore scenarioLate.getSamples 20).isSome = true := by
  decide

/-- C5 (amended): for every list of non-empty numeric streams with
non-decreasing timestamps, and every column `j` and row `i` with row timestamp
`t`, the cell `(i, j)` is a hole exactly when every sample of stream `j` is
before `t`, that is when stream `j` has no sample at or after `t`; and if the
first sample of stream `j` is after `t`, the cell is assigned the value of that
first sample. -/
theorem C5_hole_iff_no_sample_at_or_after (streams : List Stream)
    (hne : ∀ s ∈ streams, s.getSamples ≠ [])
    (hnum : ∀ s ∈ streams, Numeric s.getSamples)
    (hsize : ∀ s ∈ streams, s.getSamples.length < UINT64_MOD)
    (hsorted : ∀ s ∈ streams, NonDecreasing (s.getSamples.map Sample.getTimestamp)) :
    ∃ tbl, create_data_table streams = .ok tbl ∧
      ∀ i j t s, tbl.timestamps[i]? = some t → streams[j]? = some s →
        (getCell tbl.arr i j = none ↔ ∀ x ∈ s.getSamples, x.getTimestamp < t) ∧
        (∀ x0, s.getSamples.head? = some x0 → t < x0.getTimestamp →
          (getCell tbl.arr i j).map Variant.float = some x0.value) := by
  refine ⟨_, create_data_table_spec streams hne hnum hsize hsorted, ?_⟩
  intro i j t s ht hs
  have hn := hnum s (List.getElem?_mem hs)
  show (getCell (tableSpec streams (refTimestamps streams)) i j = none ↔ _) ∧
    ∀ x0, _ → _ →
      Option.map Variant.float (getCell (tableSpec streams (refTimestamps streams)) i j) = _
  rw [getCell_tableSpec streams _ i j t s ht hs, cellSpec]
  constructor
  · cases hf : firstAtOrAfter s.getSamples t with
    | none =>
      simp only [Option.none_bind, true_iff]
      intro x hx
      have := List.find?_eq_none.mp hf x hx
      simpa using this
    | some x =>
      have hx : x ∈ s.getSamples := List.mem_of_find?_eq_some hf
      have hp : t ≤ x.getTimestamp := by simpa using List.find?_some hf
      have hm := hn.map_float hx
      constructor
      · intro h
        rw [Option.some_bind] at h
        rw [h] at hm
        cases hm
      · intro h
        have := h x hx
        omega
  · intro x0 hx0 hlt
    have hf : firstAtOrAfter s.getSamples t = some x0 := by
      cases hsam : s.getSamples with
      | nil => rw [hsam] at hx0; cases hx0
      | cons a l =>
        rw [hsam] at hx0
        simp only [List.head?_cons, Option.some.injEq] at hx0
        subst hx0
        simp [firstAtOrAfter, Nat.le_of_lt hlt]
    rw [hf, Option.some_bind]
    exact hn.map_float (List.mem_of_find?_eq_some hf)

set_option maxRecDepth 100000 in
/-- Instance of the amended C5 with the shorter stream first. -/
theorem C5_hole_iff_no_sample_at_or_after_witness :
    (∀ s ∈ [scenarioLate, scenarioA], s.getSamples ≠ []) ∧
    (∀ s ∈ [scenarioLate, scenarioA], Numeric s.getSamples) ∧
    (∀ s ∈ [scenarioLate, scenarioA], s.getSamples.length < UINT64_MOD) ∧
    (∀ s ∈ [scenarioLate, scenarioA], NonDecreasing (s.getSamples.map Sample.getTimestamp)) ∧
    ∃ tbl, create_data_table [scenarioLate, scenarioA] = .ok tbl ∧
      ∀ i j t s, tbl.timestamps[i]? = some t → [scenarioLate, scenarioA][j]? = some s →
        (getCell tbl.arr i j = none ↔ ∀ x ∈ s.getSamples, x.getTimestamp < t) ∧
        (∀ x0, s.getSamples.head? = some x0 → t < x0.getTimestamp →
          (getCell tbl.arr i j).map Variant.float = some x0.value) :=
  ⟨by decide, by decide, by decide, by decide,
    C5_hole_iff_no_sample_at_or_after [scenarioLate, scenarioA]
      (by decide) (by decide) (by decide) (by decide)⟩

/-! ## C6: no stream, or no sample -/

set_option maxRecDepth 100000 in
/-- C6, the claim as stated fails: for no stream at all, and for two streams
without samples, `create_data_table` ends normally with a table of zero rows. -/
theorem C6_empty_input_is_no_error :
    create_data_table [] = .ok ⟨[], [], []⟩ ∧
    create_data_table [numericStream "A" [], numericStream "B" []] = .ok ⟨["A", "B"], [], []⟩ := by
  decide

theorem maxSampleCount_of_all_empty (streams : List Stream)
    (h : ∀ s ∈ streams, s.getSamples = []) : maxSampleCount streams = 0 := by
  rcases maxSampleCount_attained streams with h0 | ⟨s, hs, he⟩
  · exact h0
  · rw [← he, h s hs]; rfl

/-- C6 (amended): `create_data_table` applied to no stream, or to streams none of
which has a sample (so that the reference stream has zero samples), raises no
error: it ends normally with the table of zero rows whose column names are the
names of the streams. -/
theorem C6_empty_input_gives_empty_table (streams : List Stream)
    (h : ∀ s ∈ streams, s.getSamples = []) :
    create_data_table streams = .ok ⟨streams.map Stream.getName, [], []⟩ := by
  have h0 := maxSampleCount_of_all_empty streams h
  rw [create_data_table_eq, refTimestamps_of_zero streams h0, h0]
  obtain ⟨arr, hrun, harr⟩ := forLoop_inv (syncColumn streams [] 0)
    (fun _ arr => arr = []) streams.length 0 [] rfl
    (by
      intro j arr _ _ ha
      subst ha
      exact ⟨[], rfl, rfl⟩)
  subst harr
  simp only [List.replicate_zero, hrun]

set_option maxRecDepth 100000 in
/-- Instance of the amended C6 on two streams without samples. -/
theorem C6_empty_input_gives_empty_table_witness :
    (∀ s ∈ [numericStream "A" [], textStream "T" []], s.getSamples = []) ∧
    create_data_table [numericStream "A" [], textStream "T" []] = .ok
      ⟨[numericStream "A" [], textStream "T" []].map Stream.getName, [], []⟩ :=
  ⟨by decide, C6_empty_input_gives_empty_table [numericStream "A" [], textStream "T" []]
    (by decide)⟩

/-! ## C7: text-valued streams -/

set_option maxRecDepth 100000 in
/-- C7, the claim as stated fails: a text-valued stream whose only sample is
before every row is aligned without any error; its column is left unassigned. -/
theorem C7_text_stream_is_no_error :
    create_data_table [scenarioNumeric, scenarioText] = .ok
      ⟨["A", "T"], [10, 20], [[some (F32.ofNat 1), none], [some (F32.ofNat 2), none]]⟩ ∧
    TextValued scenarioText.getSamples ∧ scenarioText.getSamples ≠ [] := by
  decide

theorem getFloatVal_of_text {samples : List Sample} (h : TextValued samples) {y : Sample}
    (hy : y ∈ samples) : y.getFloatVal = .error Error.bad_variant_access := by
  have := h y hy
  cases hv : y.value with
  | float v => simp [Sample.float?, hv] at this
  | string v => simp [Sample.getFloatVal, hv]

/-- The column of a text-valued stream throws when one of its samples is at or
after the first row timestamp. -/
theorem syncColumn_text_error (streams : List Stream) (timestamps : List Nat) (rows j : Nat)
    (s : Stream) (x : Sample) (hs : streams[j]? = some s) (htext : TextValued s.getSamples)
    (hsize : s.getSamples.length < UINT64_MOD) (hrows : 0 < rows) (hx : x ∈ s.getSamples)
    (hxt : timestamps.getD 0 0 ≤ x.getTimestamp) (arr : List (List (Option F32))) :
    ∃ e, syncColumn streams timestamps rows j arr = .error e := by
  have hsj : (streams.getD j default) = s := by
    rw [List.getD_eq_getElem?_getD, hs]; rfl
  obtain ⟨m, hm, hxm⟩ := List.getElem_of_mem hx
  obtain ⟨a, ha⟩ : ∃ a, s.getSamples[0]? = some a :=
    ⟨s.getSamples[0], List.getElem?_eq_getElem (by omega)⟩
  obtain ⟨k, y, hstop, hrun⟩ := syncRow_eq timestamps s.getSamples j 0 ⟨0, arr⟩ hsize a ha
    (by intro m z hm; exact absurd hm (Nat.not_lt_zero _))
  have hk : k < s.getSamples.length := (List.getElem?_eq_some.mp hstop.1).1
  have hty : timestamps.getD 0 0 ≤ y.getTimestamp := by
    rcases hstop.2.2 with hlast | hle
    · by_cases hmk : m = k
      · subst hmk
        have := hstop.1
        rw [List.getElem?_eq_getElem hm, hxm] at this
        cases this
        exact hxt
      · have := hstop.2.1 m x (by omega) (by rw [List.getElem?_eq_getElem hm, hxm])
        omega
    · exact hle
  have hyerr := getFloatVal_of_text htext (List.getElem?_mem hstop.1)
  rw [if_pos hty, hyerr] at hrun
  obtain ⟨n, rfl⟩ : ∃ n, rows = n + 1 := ⟨rows - 1, by omega⟩
  refine ⟨Error.bad_variant_access, ?_⟩
  simp only [syncColumn, forLoop, hsj, hrun]

/-- C7 (amended): for every input to `create_data_table` in which some stream is
text-valued and holds a sample whose timestamp is at or after the first row
timestamp (the timestamp of the first sample of the reference stream), the
alignment raises an error and produces no table. -/
theorem C7_text_sample_at_or_after_first_row_is_error (streams : List Stream) (j : Nat)
    (s r : Stream) (x y : Sample) (hs : streams[j]? = some s)
    (htext : TextValued s.getSamples) (hsize : s.getSamples.length < UINT64_MOD)
    (hr : referenceStream streams = some r) (hy : r.getSamples.head? = some y)
    (hx : x ∈ s.getSamples) (hxy : y.getTimestamp ≤ x.getTimestamp) :
    ∃ e, create_data_table streams = .error e := by
  have hj : j < streams.length := (List.getElem?_eq_some.mp hs).1
  have hrows : 0 < maxSampleCount streams := by
    have h1 := le_maxSampleCount streams s (List.getElem?_mem hs)
    have h2 : 0 < s.getSamples.length := List.length_pos_of_mem hx
    omega
  have ht0 : (refTimestamps streams).getD 0 0 = y.getTimestamp := by
    rw [refTimestamps, hr]
    cases hsam : r.getSamples with
    | nil => rw [hsam] at hy; cases hy
    | cons a l =>
      rw [hsam] at hy
      simp only [List.head?_cons, Option.some.injEq] at hy
      subst hy
      simp only [hsam, List.map_cons, List.getD_cons_zero]
  obtain ⟨e, he⟩ := forLoop_error
    (syncColumn streams (refTimestamps streams) (maxSampleCount streams)) j
    (fun arr => syncColumn_text_error streams _ _ j s x hs htext hsize hrows hx
      (by rw [ht0]; exact hxy) arr)
    streams.length 0
    (List.replicate (maxSampleCount streams) (List.replicate streams.length none))
    (Nat.zero_le _) (by omega)
  exact ⟨e, by rw [create_data_table_eq, he]⟩

set_option maxRecDepth 100000 in
/-- Instance of the amended C7: a text sample at 40 after the first row at 0. -/
theorem C7_text_sample_at_or_after_first_row_is_error_witness :
    [scenarioA, textStream "T" [(5, "x"), (40, "y")]][1]?
      = some (textStream "T" [(5, "x"), (40, "y")]) ∧
    TextValued (textStream "T" [(5, "x"), (40, "y")]).getSamples ∧
    (textStream "T" [(5, "x"), (40, "y")]).getSamples.length < UINT64_MOD ∧
    referenceStream [scenarioA, textStream "T" [(5, "x"), (40, "y")]] = some scenarioA ∧
    scenarioA.getSamples.head? = some (Sample.ofFloat 0 (F32.ofNat 1)) ∧
    Sample.ofString 40 "y" ∈ (textStream "T" [(5, "x"), (40, "y")]).getSamples ∧
    (Sample.ofFloat 0 (F32.ofNat 1)).getTimestamp ≤ (Sample.ofString 40 "y").getTimestamp ∧
    ∃ e, create_data_table [scenarioA, textStream "T" [(5, "x"), (40, "y")]] = .error e :=
  ⟨by decide, by decide, by decide, by decide, by decide, by decide, by decide,
    C7_text_sample_at_or_after_first_row_is_error
      [scenarioA, textStream "T" [(5, "x"), (40, "y")]] 1
      (textStream "T" [(5, "x"), (40, "y")]) scenarioA (Sample.ofString 40 "y")
      (Sample.ofFloat 0 (F32.ofNat 1))
      (by decide) (by decide) (by decide) (by decide) (by decide) (by decide) (by decide)⟩

/-! ## C8: the two accessors of `Sample` -/

/-- C8: a `Sample` whose value holds the float alternative gives the stored
number to `getFloatVal` and an error to `getStringVal`; a `Sample` whose value
holds the string alternative gives the stored text to `getStringVal` and an
error to `getFloatVal`; no accessor returns a value made from the other
alternative.  The alternative held is the one given to the constructor, or to
the most recent `setVal`, and `setTimestamp` does not touch it. -/
theorem C8_variant_discipline (t u : Nat) (v w : F32) (a b : String) (s : Sample) :
    ((⟨Variant.float v, t⟩ : Sample).getFloatVal = .ok v ∧
      (⟨Variant.float v, t⟩ : Sample).getStringVal = .error Error.bad_variant_access) ∧
    ((⟨Variant.string a, t⟩ : Sample).getStringVal = .ok a ∧
      (⟨Variant.string a, t⟩ : Sample).getFloatVal = .error Error.bad_variant_access) ∧
    ((Sample.ofFloat t v).getFloatVal = .ok v ∧
      (Sample.ofFloat t v).getStringVal = .error Error.bad_variant_access) ∧
    ((Sample.ofString t a).getStringVal = .ok a ∧
      (Sample.ofString t a).getFloatVal = .error Error.bad_variant_access) ∧
    ((s.setValFloat v).getFloatVal = .ok v ∧
      (s.setValFloat v).getStringVal = .error Error.bad_variant_access) ∧
    ((s.setValString a).getStringVal = .ok a ∧
      (s.setValString a).getFloatVal = .error Error.bad_variant_access) ∧
    (((s.setValString a).setValFloat w).getFloatVal = .ok w ∧
      ((s.setValFloat v).setValString b).getStringVal = .ok b ∧
      ((s.setValFloat v).setValFloat w).getFloatVal = .ok w ∧
      ((s.setValString a).setValString b).getStringVal = .ok b) ∧
    ((s.setTimestamp u).getFloatVal = s.getFloatVal ∧
      (s.setTimestamp u).getStringVal = s.getStringVal ∧
      (s.setValFloat v).getTimestamp = s.getTimestamp ∧
      (s.setValString a).getTimestamp = s.getTimestamp) := by
  refine ⟨⟨rfl, rfl⟩, ⟨rfl, rfl⟩, ⟨rfl, rfl⟩, ⟨rfl, rfl⟩, ⟨rfl, rfl⟩, ⟨rfl, rfl⟩,
    ⟨rfl, rfl, rfl, rfl⟩, ⟨rfl, rfl, rfl, rfl⟩⟩

/-! ## C9: `total_zero_count` -/

theorem isZero_eq_isZeroFloat (v : F32) : v.isZero = (Variant.float v).isZeroFloat := by
  cases v with
  | nan => simp [F32.isZero, Variant.isZeroFloat]
  | inf neg => simp [F32.isZero, Variant.isZeroFloat]
  | fin neg m =>
    cases neg <;> simp [F32.isZero, Variant.isZeroFloat]

/-- The counting loop on numeric samples, while the counter cannot wrap. -/
theorem zeroCountLoop_spec (samples : List Sample) (hnum : Numeric samples) :
    ∀ c, c + samples.length < UINT64_MOD →
      zeroCountLoop samples c
        = .ok (c + ((samples.map Sample.value).filter Variant.isZeroFloat).length) := by
  induction samples with
  | nil => intro c _; rfl
  | cons x l ih =>
    intro c hc
    have hl : Numeric l := fun y hy => hnum y (List.mem_cons_of_mem _ hy)
    have hx := hnum x (List.mem_cons_self _ _)
    simp only [List.length_cons] at hc
    cases hv : x.value with
    | string v => simp [Sample.float?, hv] at hx
    | float v =>
      simp only [zeroCountLoop, Sample.getFloatVal, hv, List.map_cons, List.filter_cons,
        ← isZero_eq_isZeroFloat]
      cases hz : v.isZero with
      | true =>
        simp only [if_true, List.length_cons]
        rw [Nat.mod_eq_of_lt (by omega), ih hl (c + 1) (by omega)]
        congr 1
        omega
      | false =>
        simp only [Bool.false_eq_true, if_false]
        exact ih hl c (by omega)

set_option maxRecDepth 100000 in
/-- C9: for every stream whose samples are all numeric, `total_zero_count`
returns exactly the number of samples whose value equals zero (a float that
compares equal to `0.f`), which is 0 for a stream without samples and never
more than the sample count, and leaves the stream as it was; on the values
0.0, 1.0, 0.0, 2.0 it returns 2. -/
theorem C9_total_zero_count (s : Stream) (hnum : Numeric s.getSamples)
    (hsize : s.getSamples.length < UINT64_MOD) :
    ∃ c, total_zero_count s = .ok (c, s) ∧
      c = ((s.getSamples.map Sample.value).filter Variant.isZeroFloat).length ∧
      c ≤ s.getSamples.length ∧
      (s.getSamples = [] → c = 0) ∧
      (s.getSamples.map Sample.value
          = [Variant.float (F32.ofNat 0), Variant.float (F32.ofNat 1),
             Variant.float (F32.ofNat 0), Variant.float (F32.ofNat 2)] → c = 2) := by
  have h := zeroCountLoop_spec s.getSamples hnum 0 (by omega)
  rw [Nat.zero_add] at h
  refine ⟨_, by simp only [total_zero_count, h], rfl, ?_, ?_, ?_⟩
  · have := List.length_filter_le Variant.isZeroFloat (s.getSamples.map Sample.value)
    simpa using this
  · intro he
    rw [he]
    rfl
  · intro he
    rw [he]
    decide

set_option maxRecDepth 100000 in
/-- Instance of C9 on the values 0.0, 1.0, 0.0, 2.0. -/
theorem C9_total_zero_count_witness :
    Numeric (numericStream "Z" [(0, 0), (1, 1), (2, 0), (3, 2)]).getSamples ∧
    (numericStream "Z" [(0, 0), (1, 1), (2, 0), (3, 2)]).getSamples.length < UINT64_MOD ∧
    total_zero_count (numericStream "Z" [(0, 0), (1, 1), (2, 0), (3, 2)])
      = .ok (2, numericStream "Z" [(0, 0), (1, 1), (2, 0), (3, 2)]) ∧
    ∃ c, total_zero_count (numericStream "Z" [(0, 0), (1, 1), (2, 0), (3, 2)])
        = .ok (c, numericStream "Z" [(0, 0), (1, 1), (2, 0), (3, 2)]) ∧
      c = (((numericStream "Z" [(0, 0), (1, 1), (2, 0), (3, 2)]).getSamples.map
        Sample.value).filter Variant.isZeroFloat).length ∧
      c ≤ (numericStream "Z" [(0, 0), (1, 1), (2, 0), (3, 2)]).getSamples.length ∧
      ((numericStream "Z" [(0, 0), (1, 1), (2, 0), (3, 2)]).getSamples = [] → c = 0) ∧
      ((numericStream "Z" [(0, 0), (1, 1), (2, 0), (3, 2)]).getSamples.map Sample.value
          = [Variant.float (F32.ofNat 0), Variant.float (F32.ofNat 1),
             Variant.float (F32.ofNat 0), Variant.float (F32.ofNat 2)] → c = 2) :=
  ⟨by decide, by decide, by decide,
    C9_total_zero_count (numericStream "Z" [(0, 0), (1, 1), (2, 0), (3, 2)])
      (by decide) (by decide)⟩

/-! ## Rounding to binary32 is monotone -/

theorem halfEvenDiv_ge (p d : Nat) : p / d ≤ halfEvenDiv p d := by
  unfold halfEvenDiv
  simp only []
  split_ifs <;> omega

theorem halfEvenDiv_le (p d : Nat) : halfEvenDiv p d ≤ p / d + 1 := by
  unfold halfEvenDiv
  simp only []
  split_ifs <;> omega

theorem halfEvenDiv_mono (p p' d : Nat) (h : p ≤ p') :
    halfEvenDiv p d ≤ halfEvenDiv p' d := by
  have hk : p / d ≤ p' / d := Nat.div_le_div_right h
  rcases Nat.lt_or_eq_of_le hk with hlt | heq
  · exact Nat.le_trans (halfEvenDiv_le p d) (Nat.le_trans hlt (halfEvenDiv_ge p' d))
  · have h1 := Nat.div_add_mod p d
    have h2 := Nat.div_add_mod p' d
    rw [heq] at h1
    have hr : p % d ≤ p' % d := by omega
    unfold halfEvenDiv
    simp only []
    rw [heq]
    split_ifs <;> omega

/-- The shift found for `k` brackets `k`: `k < 2 ^ (24 + s)`, and
`2 ^ (23 + s) ≤ k` unless `s = 0`. -/
theorem ulpShift_spec : ∀ (fuel k : Nat), k ≤ fuel →
    k < 2 ^ (24 + ulpShift fuel k) ∧
      (ulpShift fuel k = 0 ∨ 2 ^ (23 + ulpShift fuel k) ≤ k) := by
  intro fuel
  induction fuel with
  | zero =>
    intro k hk
    have : k = 0 := by omega
    subst this
    exact ⟨Nat.pow_pos (by decide), Or.inl rfl⟩
  | succ fuel ih =>
    intro k hk
    by_cases hlt : k < 2 ^ 24
    · rw [ulpShift, if_pos hlt]
      exact ⟨hlt, Or.inl rfl⟩
    · rw [ulpShift, if_neg hlt]
      have hge : 2 ^ 24 ≤ k := Nat.le_of_not_lt hlt
      have hpos : 0 < k := Nat.lt_of_lt_of_le (Nat.pow_pos (by decide)) hge
      obtain ⟨h1, h2⟩ := ih (k / 2) (by omega)
      have e1 : 2 ^ (24 + (ulpShift fuel (k / 2) + 1)) = 2 * 2 ^ (24 + ulpShift fuel (k / 2)) := by
        rw [← Nat.add_assoc, Nat.pow_succ, Nat.mul_comm]
      have e2 : 2 ^ (23 + (ulpShift fuel (k / 2) + 1)) = 2 * 2 ^ (23 + ulpShift fuel (k / 2)) := by
        rw [← Nat.add_assoc, Nat.pow_succ, Nat.mul_comm]
      have e3 : 2 ^ (23 + (ulpShift fuel (k / 2) + 1)) = 2 ^ (24 + ulpShift fuel (k / 2)) := by
        congr 1; omega
      refine ⟨by rw [e1]; omega, Or.inr ?_⟩
      rcases h2 with h0 | h2
      · rw [e3, h0]; exact hge
      · rw [e2]; omega

theorem ulpShift_mono (k k' : Nat) (h : k ≤ k') : ulpShift k k ≤ ulpShift k' k' := by
  by_contra hcon
  have hlt : ulpShift k' k' < ulpShift k k := Nat.lt_of_not_le hcon
  obtain ⟨_, h2⟩ := ulpShift_spec k k (Nat.le_refl _)
  obtain ⟨h3, _⟩ := ulpShift_spec k' k' (Nat.le_refl _)
  rcases h2 with h0 | h2
  · omega
  · have : 2 ^ (24 + ulpShift k' k') ≤ 2 ^ (23 + ulpShift k k) :=
      Nat.pow_le_pow_right (by decide) (by omega)
    omega

/-- Rounding to the binary32 grid is monotone in the numerator. -/
theorem roundQ_mono (p p' q : Nat) (hq : 0 < q) (h : p ≤ p') : roundQ p q ≤ roundQ p' q := by
  have hk : p / q ≤ p' / q := Nat.div_le_div_right h
  have hs := ulpShift_mono _ _ hk
  obtain ⟨hA, _⟩ := ulpShift_spec (p / q) (p / q) (Nat.le_refl _)
  obtain ⟨_, hB⟩ := ulpShift_spec (p' / q) (p' / q) (Nat.le_refl _)
  unfold roundQ
  simp only []
  generalize ulpShift (p / q) (p / q) = s at hs hA
  generalize ulpShift (p' / q) (p' / q) = s' at hs hB
  rcases Nat.lt_or_eq_of_le hs with hlt | heq
  · -- different binades: the two results are separated by `2 ^ (23 + s')`
    have hB' : 2 ^ (23 + s') ≤ p' / q := by
      rcases hB with h0 | hB
      · omega
      · exact hB
    have hd : 0 < q * 2 ^ s := Nat.mul_pos hq (Nat.pow_pos (by decide))
    have hd' : 0 < q * 2 ^ s' := Nat.mul_pos hq (Nat.pow_pos (by decide))
    have hup : halfEvenDiv p (q * 2 ^ s) ≤ 2 ^ 24 := by
      have h1 : p < 2 ^ (24 + s) * q := (Nat.div_lt_iff_lt_mul hq).mp hA
      have h2 : p / (q * 2 ^ s) < 2 ^ 24 := by
        rw [Nat.div_lt_iff_lt_mul hd]
        calc p < 2 ^ (24 + s) * q := h1
          _ = 2 ^ 24 * (q * 2 ^ s) := by rw [Nat.pow_add]; ring
      have := halfEvenDiv_le p (q * 2 ^ s)
      omega
    have hlo : 2 ^ 23 ≤ halfEvenDiv p' (q * 2 ^ s') := by
      have h1 : 2 ^ (23 + s') * q ≤ p' := (Nat.le_div_iff_mul_le hq).mp hB'
      have h2 : 2 ^ 23 ≤ p' / (q * 2 ^ s') := by
        rw [Nat.le_div_iff_mul_le hd']
        calc 2 ^ 23 * (q * 2 ^ s') = 2 ^ (23 + s') * q := by rw [Nat.pow_add]; ring
          _ ≤ p' := h1
      exact Nat.le_trans h2 (halfEvenDiv_ge p' (q * 2 ^ s'))
    calc halfEvenDiv p (q * 2 ^ s) * 2 ^ s ≤ 2 ^ 24 * 2 ^ s := Nat.mul_le_mul_right _ hup
      _ = 2 ^ (23 + (s + 1)) := by rw [← Nat.pow_add]; congr 1; omega
      _ ≤ 2 ^ (23 + s') := Nat.pow_le_pow_right (by decide) (by omega)
      _ = 2 ^ 23 * 2 ^ s' := Nat.pow_add _ _ _
      _ ≤ halfEvenDiv p' (q * 2 ^ s') * 2 ^ s' := Nat.mul_le_mul_right _ hlo
  · subst heq
    exact Nat.mul_le_mul_right _ (halfEvenDiv_mono p p' _ h)

/-! ## C10: the timestamps `read_float_stream` makes -/

/-- A defined offset comes from a finite time step: it is 0 for a negative
step, and the truncated rounded product otherwise. -/
theorem timeOffset_some (tau : F32) (i o : Nat) (h : timeOffset tau i = some o) :
    ∃ neg a, tau = F32.fin neg a ∧
      ((neg = true ∧ o = 0) ∨
        (neg = false ∧ o = roundQ (a * roundQ (i * F32_ONE) 1) F32_ONE / F32_ONE)) := by
  unfold timeOffset F32.ofNat F32.round at h
  simp only [] at h
  cases tau with
  | nan => simp [F32.mul, F32.toUInt64] at h
  | inf s =>
    by_cases h1 : roundQ (i * F32_ONE) 1 < F32_OVERFLOW
    · rw [if_pos h1] at h
      by_cases h2 : roundQ (i * F32_ONE) 1 = 0 <;> simp [F32.mul, F32.toUInt64, h2] at h
    · rw [if_neg h1] at h
      simp [F32.mul, F32.toUInt64] at h
  | fin s a =>
    refine ⟨s, a, rfl, ?_⟩
    by_cases h1 : roundQ (i * F32_ONE) 1 < F32_OVERFLOW
    · rw [if_pos h1] at h
      simp only [F32.mul, F32.round, Bool.xor_false] at h
      by_cases h3 : roundQ (a * roundQ (i * F32_ONE) 1) F32_ONE < F32_OVERFLOW
      · rw [if_pos h3] at h
        cases s with
        | true =>
          left
          simp only [F32.toUInt64, if_true] at h
          split_ifs at h
          · exact ⟨rfl, by cases h; rfl⟩
        | false =>
          right
          simp only [F32.toUInt64, Bool.false_eq_true, if_false] at h
          split_ifs at h
          · exact ⟨rfl, by cases h; rfl⟩
      · rw [if_neg h3] at h
        simp [F32.toUInt64] at h
    · rw [if_neg h1] at h
      by_cases h2 : a = 0 <;> simp [F32.mul, F32.toUInt64, h2] at h

/-- The offsets never decrease with the line index. -/
theorem timeOffset_mono (tau : F32) (i k o o' : Nat) (hik : i ≤ k)
    (h : timeOffset tau i = some o) (h' : timeOffset tau k = some o') : o ≤ o' := by
  obtain ⟨neg, a, ht, hc⟩ := timeOffset_some tau i o h
  obtain ⟨neg', a', ht', hc'⟩ := timeOffset_some tau k o' h'
  rw [ht] at ht'
  cases ht'
  rcases hc with ⟨hn, ho⟩ | ⟨hn, ho⟩
  · omega
  · rcases hc' with ⟨hn', _⟩ | ⟨_, ho'⟩
    · rw [hn] at hn'; cases hn'
    · rw [ho, ho']
      apply Nat.div_le_div_right
      apply roundQ_mono _ _ _ (Nat.pow_pos (by decide))
      apply Nat.mul_le_mul_left
      exact roundQ_mono _ _ _ (by decide) (Nat.mul_le_mul_right _ hik)

/-- The reading loop appends one sample per line; the sample of the line with
counter `i + idx` carries `start_time` plus the offset of that counter. -/
theorem readLoop_spec (stof : List Char → Except Error F32) (tau : F32)
    (start_time dims dimsel : Nat) :
    ∀ (lines : List (List Char)) (i : Nat) (s s' : Stream),
      readLoop stof tau start_time dims dimsel lines i s = .ok s' →
      i + lines.length ≤ UINT64_MOD →
      ∃ news, s'.getSamples = s.getSamples ++ news ∧ news.length = lines.length ∧
        ∀ (idx : Nat) (x : Sample), news[idx]? = some x →
          ∃ o, timeOffset tau (i + idx) = some o ∧
            x.getTimestamp = (start_time + o) % UINT64_MOD := by
  intro lines
  induction lines with
  | nil =>
    intro i s s' h _
    simp only [readLoop, Except.ok.injEq] at h
    subst h
    exact ⟨[], by simp, rfl, by intro idx x hx; simp at hx⟩
  | cons line rest ih =>
    intro i s s' h hi
    rw [readLoop] at h
    cases hv : lineValue stof dims dimsel line with
    | error e => rw [hv] at h; cases h
    | ok val =>
      cases ho : timeOffset tau i with
      | none => rw [hv, ho] at h; cases h
      | some off =>
        rw [hv, ho] at h
        simp only [] at h
        have hnext : ∃ i', readLoop stof tau start_time dims dimsel rest i'
            (s.appendSample (Sample.ofFloat ((start_time + off) % UINT64_MOD) val)) = .ok s' ∧
            (rest ≠ [] → i' = i + 1) ∧ i' + rest.length ≤ UINT64_MOD := by
          cases rest with
          | nil =>
            refine ⟨0, ?_, by intro hne; exact absurd rfl hne, by simp [UINT64_MOD]⟩
            simpa [readLoop] using h
          | cons l2 r2 =>
            simp only [List.length_cons] at hi
            rw [Nat.mod_eq_of_lt (by omega)] at h
            exact ⟨i + 1, h, fun _ => rfl, by simp only [List.length_cons]; omega⟩
        obtain ⟨i', hrun, hi', hle⟩ := hnext
        obtain ⟨news, hs, hlen, hidx⟩ := ih i' _ s' hrun hle
        refine ⟨Sample.ofFloat ((start_time + off) % UINT64_MOD) val :: news, ?_, ?_, ?_⟩
        · rw [hs]
          simp [Stream.appendSample, Stream.getSamples]
        · simp [hlen]
        · intro idx x hx
          cases idx with
          | zero =>
            simp only [List.getElem?_cons_zero, Option.some.injEq] at hx
            subst hx
            exact ⟨off, ho, rfl⟩
          | succ idx =>
            simp only [List.getElem?_cons_succ] at hx
            have hne : rest ≠ [] := by
              intro he
              rw [he] at hlen
              rw [List.length_eq_zero.mp hlen] at hx
              simp at hx
            obtain ⟨o, h1, h2⟩ := hidx idx x hx
            rw [hi' hne] at h1
            exact ⟨o, by rw [← h1]; congr 1; omega, h2⟩

/-- C10: for every start time, every sample rate (in particular every
positive one) and every number of lines, when `read_float_stream` ends normally
and no 64-bit value overflows (the line counter does not wrap and
`start_time` plus an offset stays below `2 ^ 64`), it appends one sample per
line and the timestamps of the appended samples never decrease with the line
index: sample `i + 1` is not before sample `i`.  A stream built from a stream
without samples therefore has non-decreasing timestamps, the ordering the
synchronizer depends on. -/
theorem C10_ingested_timestamps_non_decreasing (stof : List Char → Except Error F32)
    (s0 s : Stream) (lines : List (List Char)) (start_time : Nat) (name : String) (sr : F32)
    (dims dimsel : Nat)
    (hrun : read_float_stream stof s0 (some lines) start_time name sr dims dimsel = .ok (true, s))
    (hlines : lines.length ≤ UINT64_MOD)
    (hsum : ∀ i, i < lines.length → ∀ o, timeOffset (timestepMs sr) i = some o →
      start_time + o < UINT64_MOD) :
    ∃ news, s.getSamples = s0.getSamples ++ news ∧ news.length = lines.length ∧
      NonDecreasing (news.map Sample.getTimestamp) ∧
      (∀ (i : Nat) (x y : Sample), news[i]? = some x → news[i + 1]? = some y →
        x.getTimestamp ≤ y.getTimestamp) ∧
      (s0.getSamples = [] → NonDecreasing (s.getSamples.map Sample.getTimestamp)) := by
  simp only [read_float_stream] at hrun
  cases hloop : readLoop stof (timestepMs sr) start_time dims dimsel lines 0
      ((s0.setName name).setSR sr) with
  | error e => rw [hloop] at hrun; cases hrun
  | ok s1 =>
    rw [hloop] at hrun
    simp only [Except.ok.injEq, Prod.mk.injEq, true_and] at hrun
    subst hrun
    obtain ⟨news, hs, hlen, hidx⟩ :=
      readLoop_spec stof (timestepMs sr) start_time dims dimsel lines 0 _ s1 hloop (by omega)
    have hle : ∀ (a b : Nat) (x y : Sample), a ≤ b → news[a]? = some x → news[b]? = some y →
        x.getTimestamp ≤ y.getTimestamp := by
      intro a b x y hab hx hy
      obtain ⟨oa, h1, h2⟩ := hidx a x hx
      obtain ⟨ob, h3, h4⟩ := hidx b y hy
      rw [Nat.zero_add] at h1 h3
      have ha : a < lines.length := by rw [← hlen]; exact (List.getElem?_eq_some.mp hx).1
      have hb : b < lines.length := by rw [← hlen]; exact (List.getElem?_eq_some.mp hy).1
      rw [h2, h4, Nat.mod_eq_of_lt (hsum a ha oa h1), Nat.mod_eq_of_lt (hsum b hb ob h3)]
      exact Nat.add_le_add_left (timeOffset_mono _ a b oa ob hab h1 h3) _
    have hnd : NonDecreasing (news.map Sample.getTimestamp) := by
      unfold NonDecreasing
      rw [List.pairwise_map, List.pairwise_iff_getElem]
      intro a b ha hb hab
      exact hle a b _ _ (Nat.le_of_lt hab) (List.getElem?_eq_getElem ha)
        (List.getElem?_eq_getElem hb)
    refine ⟨news, hs, hlen, hnd, ?_, ?_⟩
    · intro i x y hx hy
      exact hle i (i + 1) x y (Nat.le_succ _) hx hy
    · intro h0
      have hs' : s1.getSamples = news := by
        rw [hs]
        show s0.getSamples ++ news = news
        rw [h0, List.nil_append]
      rw [hs']
      exact hnd

set_option maxRecDepth 100000 in
/-- Instance of C10: four lines at 3 Hz from the start time 1000. -/
theorem C10_ingested_timestamps_non_decreasing_witness :
    read_float_stream (stofConst (F32.ofNat 7)) Stream.new (some scenarioLines) 1000 "S"
      (F32.ofNat 3) 1 0 = .ok (true, scenarioRead) ∧
    scenarioLines.length ≤ UINT64_MOD ∧
    (∀ i, i < scenarioLines.length → ∀ o, timeOffset (timestepMs (F32.ofNat 3)) i = some o →
      1000 + o < UINT64_MOD) ∧
    ∃ news, scenarioRead.getSamples = Stream.new.getSamples ++ news ∧
      news.length = scenarioLines.length ∧
      NonDecreasing (news.map Sample.getTimestamp) ∧
      (∀ (i : Nat) (x y : Sample), news[i]? = some x → news[i + 1]? = some y →
        x.getTimestamp ≤ y.getTimestamp) ∧
      (Stream.new.getSamples = [] →
        NonDecreasing (scenarioRead.getSamples.map Sample.getTimestamp)) :=
  ⟨by decide, by decide, by decide,
    C10_ingested_timestamps_non_decreasing (stofConst (F32.ofNat 7)) Stream.new scenarioRead
      scenarioLines 1000 "S" (F32.ofNat 3) 1 0 (by decide) (by decide) (by decide)⟩

/-! ## C15: what the cursor loop computes -/

theorem cellSpec_eq_none_iff {samples : List Sample} (hn : Numeric samples) (t : Nat) :
    cellSpec samples t = none ↔ ∀ x ∈ samples, x.getTimestamp < t := by
  rw [cellSpec]
  cases hf : firstAtOrAfter samples t with
  | none =>
    simp only [Option.none_bind, true_iff]
    intro x hx
    have := List.find?_eq_none.mp hf x hx
    simpa using this
  | some x =>
    have hx : x ∈ samples := List.mem_of_find?_eq_some hf
    have hp : t ≤ x.getTimestamp := by simpa using List.find?_some hf
    have hm := hn.map_float hx
    constructor
    · intro h
      rw [Option.some_bind] at h
      rw [h] at hm
      cases hm
    · intro h
      have := h x hx
      omega

/-- C15: for every list of non-empty numeric streams with non-decreasing
timestamps, `create_data_table` ends normally and, for every row `i` with
timestamp `t` and every column `j`: if sample `k` of stream `j` is at or after
`t` and every sample of lower index is before `t`, the cell `(i, j)` holds the
value of sample `k`; the cell is a hole exactly when every sample of stream `j`
is before `t`; and once the cell is a hole, the cell of every later row of
column `j` is a hole. -/
theorem C15_cell_is_lowest_index_sample_at_or_after (streams : List Stream)
    (hne : ∀ s ∈ streams, s.getSamples ≠ [])
    (hnum : ∀ s ∈ streams, Numeric s.getSamples)
    (hsize : ∀ s ∈ streams, s.getSamples.length < UINT64_MOD)
    (hsorted : ∀ s ∈ streams, NonDecreasing (s.getSamples.map Sample.getTimestamp)) :
    ∃ tbl, create_data_table streams = .ok tbl ∧
      ∀ (i j t : Nat) (s : Stream), tbl.timestamps[i]? = some t → streams[j]? = some s →
        (∀ (k : Nat) (x : Sample), s.getSamples[k]? = some x → t ≤ x.getTimestamp →
          (∀ (m : Nat) (y : Sample), m < k → s.getSamples[m]? = some y → y.getTimestamp < t) →
          (getCell tbl.arr i j).map Variant.float = some x.value) ∧
        (getCell tbl.arr i j = none ↔ ∀ x ∈ s.getSamples, x.getTimestamp < t) ∧
        (getCell tbl.arr i j = none →
          ∀ (i' : Nat), i ≤ i' → i' < tbl.timestamps.length → getCell tbl.arr i' j = none) := by
  refine ⟨_, create_data_table_spec streams hne hnum hsize hsorted, ?_⟩
  intro i j t s ht hs
  have hn := hnum s (List.getElem?_mem hs)
  have hts := refTimestamps_nonDecreasing streams hsorted
  show (∀ (k : Nat) (x : Sample), _ → _ → _ →
      Option.map Variant.float (getCell (tableSpec streams (refTimestamps streams)) i j) = _) ∧
    (getCell (tableSpec streams (refTimestamps streams)) i j = none ↔ _) ∧
    (getCell (tableSpec streams (refTimestamps streams)) i j = none →
      ∀ (i' : Nat), i ≤ i' → i' < (refTimestamps streams).length →
        getCell (tableSpec streams (refTimestamps streams)) i' j = none)
  rw [getCell_tableSpec streams _ i j t s ht hs]
  refine ⟨?_, cellSpec_eq_none_iff hn t, ?_⟩
  · intro k x hx hle hbefore
    have hf : firstAtOrAfter s.getSamples t = some x :=
      find?_first _ _ k x hx (by simpa using hle)
        (fun m y hm hy => by simpa using hbefore m y hm hy)
    rw [cellSpec, hf, Option.some_bind]
    exact hn.map_float (List.getElem?_mem hx)
  · intro hnone i' hii' hi'
    rw [getCell_tableSpec streams _ i' j _ s (List.getElem?_eq_getElem hi') hs]
    rw [cellSpec_eq_none_iff hn] at hnone ⊢
    intro x hx
    have hi : i < (refTimestamps streams).length := (List.getElem?_eq_some.mp ht).1
    have hti : (refTimestamps streams)[i] = t := (List.getElem?_eq_some.mp ht).2
    have hle : t ≤ (refTimestamps streams)[i'] := by
      rcases Nat.lt_or_eq_of_le hii' with hlt | heq
      · rw [← hti]
        exact (List.pairwise_iff_getElem.mp hts) i i' hi hi' hlt
      · subst heq
        rw [hti]
    exact Nat.lt_of_lt_of_le (hnone x hx) hle

set_option maxRecDepth 100000 in
/-- Instance of C15 at the scenario of the spec. -/
theorem C15_cell_is_lowest_index_sample_at_or_after_witness :
    (∀ s ∈ [scenarioA, scenarioB], s.getSamples ≠ []) ∧
    (∀ s ∈ [scenarioA, scenarioB], Numeric s.getSamples) ∧
    (∀ s ∈ [scenarioA, scenarioB], s.getSamples.length < UINT64_MOD) ∧
    (∀ s ∈ [scenarioA, scenarioB], NonDecreasing (s.getSamples.map Sample.getTimestamp)) ∧
    ∃ tbl, create_data_table [scenarioA, scenarioB] = .ok tbl ∧
      ∀ (i j t : Nat) (s : Stream), tbl.timestamps[i]? = some t →
        [scenarioA, scenarioB][j]? = some s →
        (∀ (k : Nat) (x : Sample), s.getSamples[k]? = some x → t ≤ x.getTimestamp →
          (∀ (m : Nat) (y : Sample), m < k → s.getSamples[m]? = some y → y.getTimestamp < t) →
          (getCell tbl.arr i j).map Variant.float = some x.value) ∧
        (getCell tbl.arr i j = none ↔ ∀ x ∈ s.getSamples, x.getTimestamp < t) ∧
        (getCell tbl.arr i j = none →
          ∀ (i' : Nat), i ≤ i' → i' < tbl.timestamps.length → getCell tbl.arr i' j = none) :=
  ⟨by decide, by decide, by decide, by decide,
    C15_cell_is_lowest_index_sample_at_or_after [scenarioA, scenarioB]
      (by decide) (by decide) (by decide) (by decide)⟩

/-! ## Columns of streams in any order -/

theorem getCell_setCell_ne (arr : List (List (Option F32))) (i j i' j' : Nat) (v : F32)
    (h : j' ≠ j) : getCell (setCell arr i j v) i' j' = getCell arr i' j' := by
  unfold getCell setCell
  by_cases h1 : i' = i
  · subst h1
    by_cases hi : i' < arr.length
    · simp [List.getElem?_set_self hi, List.getElem?_eq_getElem hi,
        List.getElem?_set_ne (fun e => h e.symm)]
    · rw [List.set_eq_of_length_le (by omega)]
  · simp [List.getElem?_set_ne (fun e => h1 e.symm)]

/-- The row body on a numeric stream, from any cursor inside the vector: it
ends normally, the cursor moves forward and stays inside the vector, and the
table is unchanged or assigned at `(i, j)`. -/
theorem syncRow_any (timestamps : List Nat) (samples : List Sample) (j i : Nat)
    (st : SyncState) (hlen : samples.length < UINT64_MOD) (hnum : Numeric samples)
    (hc : st.stream_row < samples.length) :
    ∃ st', syncRow timestamps samples j i st = .ok st' ∧
      st.stream_row ≤ st'.stream_row ∧ st'.stream_row < samples.length ∧
      (st'.arr = st.arr ∨ ∃ v, st'.arr = setCell st.arr i j v) := by
  obtain ⟨k, y, hrun, hy, hck, _, _⟩ :=
    cursorLoop_spec samples (timestamps.getD i 0) hlen samples.length st.stream_row
      samples[st.stream_row] (List.getElem?_eq_getElem hc) (by omega)
  have hk : k < samples.length := (List.getElem?_eq_some.mp hy).1
  obtain ⟨v, hv, _⟩ := getFloatVal_of_numeric hnum hy
  by_cases hty : timestamps.getD i 0 ≤ y.getTimestamp
  · refine ⟨⟨k, setCell st.arr i j v⟩, ?_, hck, hk, Or.inr ⟨v, rfl⟩⟩
    simp only [syncRow, vec_at_of_lt samples _ hc, hrun, vec_at_eq_ok hy, if_pos hty, hv]
  · refine ⟨⟨k, st.arr⟩, ?_, hck, hk, Or.inl rfl⟩
    simp only [syncRow, vec_at_of_lt samples _ hc, hrun, if_neg hty]

/-- The column of a non-empty numeric stream ends normally and leaves every
other column as it was. -/
theorem syncColumn_frame (streams : List Stream) (timestamps : List Nat) (rows j : Nat)
    (hne : (streams.getD j default).getSamples ≠ [])
    (hnum : Numeric (streams.getD j default).getSamples)
    (hlen : (streams.getD j default).getSamples.length < UINT64_MOD)
    (arr : List (List (Option F32))) :
    ∃ arr', syncColumn streams timestamps rows j arr = .ok arr' ∧
      ∀ i' j', j' ≠ j → getCell arr' i' j' = getCell arr i' j' := by
  obtain ⟨st, hrun, _, hframe⟩ := forLoop_inv
    (syncRow timestamps (streams.getD j default).getSamples j)
    (fun _ st => st.stream_row < (streams.getD j default).getSamples.length ∧
      ∀ i' j', j' ≠ j → getCell st.arr i' j' = getCell arr i' j')
    rows 0 ⟨0, arr⟩
    ⟨List.length_pos.mpr hne, fun _ _ _ => rfl⟩
    (by
      intro i st _ _ ⟨hc, hf⟩
      obtain ⟨st', hrun, _, hc', harr⟩ := syncRow_any timestamps _ j i st hlen hnum hc
      refine ⟨st', hrun, hc', ?_⟩
      intro i' j' hj'
      rcases harr with h | ⟨v, h⟩
      · rw [h]; exact hf i' j' hj'
      · rw [h, getCell_setCell_ne _ _ _ _ _ _ hj']; exact hf i' j' hj')
  exact ⟨st.arr, by simp only [syncColumn, hrun], hframe⟩

/-- The column of a stream without samples throws `out_of_range` at its first
row. -/
theorem syncColumn_empty_error (streams : List Stream) (timestamps : List Nat) (rows j : Nat)
    (he : (streams.getD j default).getSamples = []) (hrows : 0 < rows)
    (arr : List (List (Option F32))) :
    syncColumn streams timestamps rows j arr = .error Error.out_of_range := by
  obtain ⟨n, rfl⟩ : ∃ n, rows = n + 1 := ⟨rows - 1, by omega⟩
  simp only [syncColumn, forLoop, syncRow, he, vec_at_nil]

/-- A counted loop whose iterations either end normally or throw `e`, and one
of which throws `e` from every state, throws `e`. -/
theorem forLoop_error_kind {σ : Type} (body : Nat → σ → Except Error σ) (e : Error) (j : Nat)
    (hj : ∀ st, body j st = .error e) :
    ∀ (n lo : Nat) (st : σ), lo ≤ j → j < lo + n →
      (∀ i st, lo ≤ i → i < lo + n → (∃ st', body i st = .ok st') ∨ body i st = .error e) →
      forLoop body n lo st = .error e := by
  intro n
  induction n with
  | zero => intro lo st h1 h2; omega
  | succ n ih =>
    intro lo st h1 h2 hall
    simp only [forLoop]
    rcases hall lo st (Nat.le_refl _) (by omega) with ⟨st1, hb⟩ | hb
    · rw [hb]
      by_cases hlo : lo = j
      · subst hlo
        rw [hj st] at hb; cases hb
      · exact ih (lo + 1) st1 (by omega) (by omega)
          (fun i st hi hlt => hall i st (by omega) (by omega))
    · rw [hb]

/-! ## C16: index safety of the alignment -/

theorem create_data_table_all_empty (streams : List Stream)
    (h : ∀ s ∈ streams, s.getSamples = []) :
    create_data_table streams = .ok ⟨streams.map Stream.getName, [], []⟩ := by
  have h0 := maxSampleCount_of_all_empty streams h
  rw [create_data_table_eq, refTimestamps_of_zero streams h0, h0]
  obtain ⟨arr, hrun, harr⟩ := forLoop_inv (syncColumn streams [] 0)
    (fun _ arr => arr = []) streams.length 0 [] rfl
    (by
      intro j arr _ _ ha
      subst ha
      exact ⟨[], rfl, rfl⟩)
  subst harr
  simp only [List.replicate_zero, hrun]

/-- On numeric streams none of which is empty the program ends normally,
whatever the order of the timestamps. -/
theorem create_data_table_ok_of_nonempty (streams : List Stream)
    (hne : ∀ s ∈ streams, s.getSamples ≠ [])
    (hnum : ∀ s ∈ streams, Numeric s.getSamples)
    (hsize : ∀ s ∈ streams, s.getSamples.length < UINT64_MOD) :
    ∃ tbl, create_data_table streams = .ok tbl := by
  obtain ⟨arr, hrun, _⟩ := forLoop_inv
    (syncColumn streams (refTimestamps streams) (maxSampleCount streams))
    (fun _ _ => True) streams.length 0
    (List.replicate (maxSampleCount streams) (List.replicate streams.length none)) trivial
    (by
      intro j arr _ hj _
      have hmem := getD_mem streams j (by omega)
      obtain ⟨arr', h, _⟩ := syncColumn_frame streams (refTimestamps streams)
        (maxSampleCount streams) j (hne _ hmem) (hnum _ hmem) (hsize _ hmem) arr
      exact ⟨arr', h, trivial⟩)
  exact ⟨_, by rw [create_data_table_eq, hrun]⟩

/-- On numeric streams, an empty stream next to a non-empty one makes the
program throw `out_of_range`. -/
theorem create_data_table_error_of_empty (streams : List Stream)
    (hnum : ∀ s ∈ streams, Numeric s.getSamples)
    (hsize : ∀ s ∈ streams, s.getSamples.length < UINT64_MOD)
    (hrows : 0 < maxSampleCount streams) (s : Stream) (hs : s ∈ streams)
    (he : s.getSamples = []) :
    create_data_table streams = .error Error.out_of_range := by
  obtain ⟨j, hj, hsj⟩ := List.getElem_of_mem hs
  have hgetD : streams.getD j default = s := by
    rw [List.getD_eq_getElem?_getD, List.getElem?_eq_getElem hj, hsj]; rfl
  have hloop := forLoop_error_kind
    (syncColumn streams (refTimestamps streams) (maxSampleCount streams)) Error.out_of_range j
    (fun arr => syncColumn_empty_error streams _ _ j (by rw [hgetD]; exact he) hrows arr)
    streams.length 0
    (List.replicate (maxSampleCount streams) (List.replicate streams.length none))
    (Nat.zero_le _) (by omega)
    (by
      intro i arr _ hi
      have hi' : i < streams.length := by omega
      have hmem := getD_mem streams i hi'
      by_cases hemp : (streams.getD i default).getSamples = []
      · right
        exact syncColumn_empty_error streams _ _ i hemp hrows arr
      · left
        obtain ⟨arr', h, _⟩ := syncColumn_frame streams (refTimestamps streams)
          (maxSampleCount streams) i hemp (hnum _ hmem) (hsize _ hmem) arr
        exact ⟨arr', h⟩)
  rw [create_data_table_eq, hloop]

/-- C16: for streams whose samples are all numeric, `create_data_table` throws
`out_of_range` if and only if the table has at least one row and some stream has
no samples, and it throws nothing else.  When every stream is non-empty it ends
normally: the reference index found by the scan is an index of the list when
there is a row, and the row body, entered with the cursor inside the vector,
ends normally with the cursor inside the vector. -/
theorem C16_out_of_range_iff_row_and_empty_stream (streams : List Stream)
    (hnum : ∀ s ∈ streams, Numeric s.getSamples)
    (hsize : ∀ s ∈ streams, s.getSamples.length < UINT64_MOD) :
    (create_data_table streams = .error Error.out_of_range ↔
      (0 < maxSampleCount streams ∧ ∃ s ∈ streams, s.getSamples = [])) ∧
    (∀ e, create_data_table streams = .error e → e = Error.out_of_range) ∧
    ((∀ s ∈ streams, s.getSamples ≠ []) →
      (∃ tbl, create_data_table streams = .ok tbl) ∧
      (∃ scan, forLoop (scanBody streams) streams.length 0
          ⟨0, UINT64_MOD - 1, List.replicate streams.length ""⟩ = .ok scan ∧
        (0 < scan.rows → scan.max_idx < streams.length)) ∧
      (∀ (timestamps : List Nat) (j i : Nat) (s : Stream) (st : SyncState), s ∈ streams →
        st.stream_row < s.getSamples.length →
        ∃ st', syncRow timestamps s.getSamples j i st = .ok st' ∧
          st'.stream_row < s.getSamples.length)) := by
  have hsafe : (∀ s ∈ streams, s.getSamples ≠ []) →
      (∃ tbl, create_data_table streams = .ok tbl) ∧
      (∃ scan, forLoop (scanBody streams) streams.length 0
          ⟨0, UINT64_MOD - 1, List.replicate streams.length ""⟩ = .ok scan ∧
        (0 < scan.rows → scan.max_idx < streams.length)) ∧
      (∀ (timestamps : List Nat) (j i : Nat) (s : Stream) (st : SyncState), s ∈ streams →
        st.stream_row < s.getSamples.length →
        ∃ st', syncRow timestamps s.getSamples j i st = .ok st' ∧
          st'.stream_row < s.getSamples.length) := by
    intro hne
    refine ⟨create_data_table_ok_of_nonempty streams hne hnum hsize, ?_, ?_⟩
    · obtain ⟨scan, hscan, _, _, _, hmax⟩ := scan_spec streams
      refine ⟨scan, hscan, ?_⟩
      intro hpos
      rcases hmax with ⟨h0, _⟩ | ⟨_, hm, _, _⟩
      · omega
      · exact hm
    · intro timestamps j i s st hs hc
      obtain ⟨st', hrun, _, hc', _⟩ :=
        syncRow_any timestamps s.getSamples j i st (hsize s hs) (hnum s hs) hc
      exact ⟨st', hrun, hc'⟩
  by_cases hE : 0 < maxSampleCount streams ∧ ∃ s ∈ streams, s.getSamples = []
  · obtain ⟨hrows, s, hs, he⟩ := hE
    have herr := create_data_table_error_of_empty streams hnum hsize hrows s hs he
    refine ⟨⟨fun _ => ⟨hrows, s, hs, he⟩, fun _ => herr⟩, ?_, hsafe⟩
    intro e h
    rw [herr] at h
    cases h
    rfl
  · have hok : ∃ tbl, create_data_table streams = .ok tbl := by
      by_cases h0 : maxSampleCount streams = 0
      · refine ⟨_, create_data_table_all_empty streams ?_⟩
        intro s hs
        have := le_maxSampleCount streams s hs
        exact List.length_eq_zero.mp (by omega)
      · refine create_data_table_ok_of_nonempty streams ?_ hnum hsize
        intro s hs he
        exact hE ⟨by omega, s, hs, he⟩
    obtain ⟨tbl, htbl⟩ := hok
    refine ⟨⟨fun h => ?_, fun h => absurd h hE⟩, ?_, hsafe⟩
    · rw [htbl] at h; cases h
    · intro e h
      rw [htbl] at h; cases h

set_option maxRecDepth 100000 in
/-- Instance of C16: a stream without samples next to stream A. -/
theorem C16_out_of_range_iff_row_and_empty_stream_witness :
    (∀ s ∈ [scenarioA, numericStream "E" []], Numeric s.getSamples) ∧
    (∀ s ∈ [scenarioA, numericStream "E" []], s.getSamples.length < UINT64_MOD) ∧
    create_data_table [scenarioA, numericStream "E" []] = .error Error.out_of_range ∧
    0 < maxSampleCount [scenarioA, numericStream "E" []] ∧
    ((create_data_table [scenarioA, numericStream "E" []] = .error Error.out_of_range ↔
      (0 < maxSampleCount [scenarioA, numericStream "E" []] ∧
        ∃ s ∈ [scenarioA, numericStream "E" []], s.getSamples = [])) ∧
    (∀ e, create_data_table [scenarioA, numericStream "E" []] = .error e →
      e = Error.out_of_range) ∧
    ((∀ s ∈ [scenarioA, numericStream "E" []], s.getSamples ≠ []) →
      (∃ tbl, create_data_table [scenarioA, numericStream "E" []] = .ok tbl) ∧
      (∃ scan, forLoop (scanBody [scenarioA, numericStream "E" []])
          [scenarioA, numericStream "E" []].length 0
          ⟨0, UINT64_MOD - 1, List.replicate [scenarioA, numericStream "E" []].length ""⟩
            = .ok scan ∧
        (0 < scan.rows → scan.max_idx < [scenarioA, numericStream "E" []].length)) ∧
      (∀ (timestamps : List Nat) (j i : Nat) (s : Stream) (st : SyncState),
        s ∈ [scenarioA, numericStream "E" []] →
        st.stream_row < s.getSamples.length →
        ∃ st', syncRow timestamps s.getSamples j i st = .ok st' ∧
          st'.stream_row < s.getSamples.length))) :=
  ⟨by decide, by decide, by decide, by decide,
    C16_out_of_range_iff_row_and_empty_stream [scenarioA, numericStream "E" []]
      (by decide) (by decide)⟩

/-! ## C17: the column of the reference stream -/

theorem StrictlyIncreasing.lt_of_lt {samples : List Sample}
    (h : StrictlyIncreasing (samples.map Sample.getTimestamp)) {a b : Nat} {xa xb : Sample}
    (hab : a < b) (ha : samples[a]? = some xa) (hb : samples[b]? = some xb) :
    xa.getTimestamp < xb.getTimestamp := by
  obtain ⟨ha1, ha2⟩ := List.getElem?_eq_some.mp ha
  obtain ⟨hb1, hb2⟩ := List.getElem?_eq_some.mp hb
  have := (List.pairwise_iff_getElem.mp h) a b (by simpa using ha1) (by simpa using hb1) hab
  simpa [ha2, hb2] using this

/-- One row of a column whose stream gives the row timestamps and has strictly
increasing timestamps: from a cursor at or before `i`, the loop stops exactly at
index `i` and the cell is assigned the value of sample `i`. -/
theorem syncRow_reference (samples : List Sample) (k i : Nat) (st : SyncState)
    (hlen : samples.length < UINT64_MOD) (hnum : Numeric samples)
    (hstrict : StrictlyIncreasing (samples.map Sample.getTimestamp))
    (x : Sample) (hx : samples[i]? = some x) (hc : st.stream_row ≤ i) :
    ∃ v, x.float? = some v ∧
      syncRow (samples.map Sample.getTimestamp) samples k i st
        = .ok ⟨i, setCell st.arr i k v⟩ := by
  have hi : i < samples.length := (List.getElem?_eq_some.mp hx).1
  have hti : (samples.map Sample.getTimestamp).getD i 0 = x.getTimestamp := by
    simp [List.getElem?_map, hx]
  obtain ⟨k', y, hstop, hrun⟩ := syncRow_numeric (samples.map Sample.getTimestamp) samples k i st
    hlen hnum samples[st.stream_row] (List.getElem?_eq_getElem (by omega))
    (by
      intro m z hm hz
      rw [hti]
      exact hstrict.lt_of_lt (by omega) hz hx)
  rw [hti] at hstop hrun
  have hk' : k' = i := by
    obtain ⟨hy, hbefore, hend⟩ := hstop
    have hk'len : k' < samples.length := (List.getElem?_eq_some.mp hy).1
    rcases Nat.lt_trichotomy k' i with hlt | heq | hgt
    · have : y.getTimestamp < x.getTimestamp := hstrict.lt_of_lt hlt hy hx
      rcases hend with h | h <;> omega
    · exact heq
    · have := hbefore i x hgt hx
      omega
  subst hk'
  have hyx : y = x := by
    have := hstop.1
    rw [hx] at this
    cases this
    rfl
  subst hyx
  obtain ⟨v, _, hv⟩ := getFloatVal_of_numeric hnum hx
  refine ⟨v, hv, ?_⟩
  rw [hrun]
  simp only [cellSpec, hstop.firstAtOrAfter_pos (Nat.le_refl _), Option.some_bind, hv]

/-- The column of the stream that gives the row timestamps, when its timestamps
strictly increase: row `i` is assigned the value of sample `i`. -/
theorem syncColumn_reference (streams : List Stream) (samples : List Sample) (k : Nat)
    (hk : (streams.getD k default).getSamples = samples) (hkc : k < streams.length)
    (hlen : samples.length < UINT64_MOD) (hnum : Numeric samples)
    (hstrict : StrictlyIncreasing (samples.map Sample.getTimestamp))
    (arr : List (List (Option F32)))
    (hshape : arr.length = samples.length ∧ ∀ r ∈ arr, r.length = streams.length) :
    ∃ arr', syncColumn streams (samples.map Sample.getTimestamp) samples.length k arr = .ok arr' ∧
      ∀ (i : Nat) (x : Sample), samples[i]? = some x → getCell arr' i k = x.float? := by
  obtain ⟨st, hrun, _, _, hcells⟩ := forLoop_inv
    (syncRow (samples.map Sample.getTimestamp) samples k)
    (fun i st => st.stream_row ≤ i ∧
      (st.arr.length = samples.length ∧ ∀ r ∈ st.arr, r.length = streams.length) ∧
      ∀ (i' : Nat) (x : Sample), i' < i → samples[i']? = some x →
        getCell st.arr i' k = x.float?)
    samples.length 0 ⟨0, arr⟩
    ⟨Nat.le_refl _, hshape, by intro i' x hi'; omega⟩
    (by
      intro i st _ hi ⟨hc, hsh, hcell⟩
      have hi' : i < samples.length := by omega
      obtain ⟨v, hv, hrun⟩ := syncRow_reference samples k i st hlen hnum hstrict samples[i]
        (List.getElem?_eq_getElem hi') hc
      refine ⟨_, hrun, Nat.le_succ _, setCell_shape _ _ _ _ _ _ hsh, ?_⟩
      intro i' x hlt hx
      have hia : i < st.arr.length := by omega
      have hrow : (st.arr.getD i []).length = streams.length := by
        rw [List.getD_eq_getElem?_getD, List.getElem?_eq_getElem hia]
        exact hsh.2 _ (List.getElem_mem hia)
      show getCell (setCell st.arr i k v) i' k = _
      rw [getCell_setCell st.arr i k i' k v hia (by omega)]
      by_cases hii : i' = i
      · subst hii
        rw [if_pos ⟨rfl, rfl⟩]
        rw [List.getElem?_eq_getElem hi'] at hx
        cases hx
        exact hv.symm
      · rw [if_neg (fun h => hii h.1)]
        exact hcell i' x (by omega) hx)
  refine ⟨st.arr, by simp only [syncColumn, hk, hrun], ?_⟩
  intro i x hx
  exact hcells i x (by
    have := (List.getElem?_eq_some.mp hx).1
    omega) hx

/-- C17: for every list of non-empty numeric streams whose reference stream `r`
has strictly increasing timestamps, `create_data_table` ends normally, the table
has one row per sample of `r`, and in every column `k` whose stream is `r` the
cell of row `i` holds the value of sample `i` of `r`, so the column has no hole;
in that column the row body for row `i`, entered with the cursor at or before
`i`, leaves the cursor exactly at `i`. -/
theorem C17_reference_column_reproduces_reference (streams : List Stream)
    (hne : ∀ s ∈ streams, s.getSamples ≠ [])
    (hnum : ∀ s ∈ streams, Numeric s.getSamples)
    (hsize : ∀ s ∈ streams, s.getSamples.length < UINT64_MOD)
    (r : Stream) (hr : referenceStream streams = some r)
    (hstrict : StrictlyIncreasing (r.getSamples.map Sample.getTimestamp)) :
    ∃ tbl, create_data_table streams = .ok tbl ∧
      tbl.timestamps.length = r.getSamples.length ∧
      (∀ (k : Nat), streams[k]? = some r → ∀ (i : Nat) (x : Sample),
        r.getSamples[i]? = some x →
          (getCell tbl.arr i k).map Variant.float = some x.value) ∧
      (∀ (k i : Nat) (st : SyncState), i < r.getSamples.length → st.stream_row ≤ i →
        ∃ arr', syncRow tbl.timestamps r.getSamples k i st = .ok ⟨i, arr'⟩) := by
  have hrmem : r ∈ streams := List.mem_of_find?_eq_some hr
  have hts : refTimestamps streams = r.getSamples.map Sample.getTimestamp := by
    rw [refTimestamps, hr]
  have hrows : maxSampleCount streams = r.getSamples.length := by
    rw [← refTimestamps_length, hts, List.length_map]
  obtain ⟨arr, hrun, hshape, hcells⟩ := forLoop_inv
    (syncColumn streams (refTimestamps streams) (maxSampleCount streams))
    (fun j arr => (arr.length = r.getSamples.length ∧ ∀ row ∈ arr, row.length = streams.length) ∧
      ∀ (k : Nat), k < j → streams[k]? = some r → ∀ (i : Nat) (x : Sample),
        r.getSamples[i]? = some x → getCell arr i k = x.float?)
    streams.length 0
    (List.replicate (maxSampleCount streams) (List.replicate streams.length none))
    ⟨⟨by simp [hrows], fun row hrow => by
        rw [List.eq_of_mem_replicate hrow, List.length_replicate]⟩,
      by intro k hk; omega⟩
    (by
      intro j arr _ hj ⟨hsh, hcell⟩
      have hj' : j < streams.length := by omega
      have hmem := getD_mem streams j hj'
      obtain ⟨arr', hcol, hframe⟩ := syncColumn_frame streams (refTimestamps streams)
        (maxSampleCount streams) j (hne _ hmem) (hnum _ hmem) (hsize _ hmem) arr
      refine ⟨arr', hcol, syncColumn_shape _ _ _ _ _ _ hcol _ _ hsh, ?_⟩
      intro k hk hkr i x hx
      by_cases hkj : k = j
      · subst hkj
        have hgetD : (streams.getD k default).getSamples = r.getSamples := by
          rw [List.getD_eq_getElem?_getD, hkr]; rfl
        obtain ⟨arr'', hcol', hcells'⟩ := syncColumn_reference streams r.getSamples k hgetD hj'
          (hsize r hrmem) (hnum r hrmem) hstrict arr hsh
        rw [hts, hrows, hcol'] at hcol
        cases hcol
        exact hcells' i x hx
      · rw [hframe i k hkj]
        exact hcell k (by omega) hkr i x hx)
  refine ⟨_, by rw [create_data_table_eq, hrun], by rw [hts, List.length_map], ?_, ?_⟩
  · intro k hkr i x hx
    have hk : k < streams.length := (List.getElem?_eq_some.mp hkr).1
    show Option.map Variant.float (getCell arr i k) = _
    rw [hcells k (by omega) hkr i x hx]
    exact (hnum r hrmem).map_float (List.getElem?_mem hx)
  · intro k i st hi hc
    obtain ⟨v, _, hrow⟩ := syncRow_reference r.getSamples k i st (hsize r hrmem) (hnum r hrmem)
      hstrict r.getSamples[i] (List.getElem?_eq_getElem hi) hc
    exact ⟨_, by rw [hts]; exact hrow⟩

set_option maxRecDepth 100000 in
/-- Instance of C17: stream A as reference, next to a stream out of order. -/
theorem C17_reference_column_reproduces_reference_witness :
    (∀ s ∈ [scenarioUnordered, scenarioA], s.getSamples ≠ []) ∧
    (∀ s ∈ [scenarioUnordered, scenarioA], Numeric s.getSamples) ∧
    (∀ s ∈ [scenarioUnordered, scenarioA], s.getSamples.length < UINT64_MOD) ∧
    referenceStream [scenarioUnordered, scenarioA] = some scenarioA ∧
    StrictlyIncreasing (scenarioA.getSamples.map Sample.getTimestamp) ∧
    ∃ tbl, create_data_table [scenarioUnordered, scenarioA] = .ok tbl ∧
      tbl.timestamps.length = scenarioA.getSamples.length ∧
      (∀ (k : Nat), [scenarioUnordered, scenarioA][k]? = some scenarioA →
        ∀ (i : Nat) (x : Sample), scenarioA.getSamples[i]? = some x →
          (getCell tbl.arr i k).map Variant.float = some x.value) ∧
      (∀ (k i : Nat) (st : SyncState), i < scenarioA.getSamples.length → st.stream_row ≤ i →
        ∃ arr', syncRow tbl.timestamps scenarioA.getSamples k i st = .ok ⟨i, arr'⟩) :=
  ⟨by decide, by decide, by decide, by decide, by decide,
    C17_reference_column_reproduces_reference [scenarioUnordered, scenarioA]
      (by decide) (by decide) (by decide) scenarioA (by decide) (by decide)⟩

/-! ## C18: `stringsplit` -/

/-- The search either fails, when the delimiter does not occur in `l`, or returns
`pos + k` for the first index `k` of `l` at which the delimiter starts. -/
theorem findFrom_spec (del : List Char) (hdel : del ≠ []) : ∀ (l : List Char) (pos : Nat),
    (findFrom del l pos = NPOS ∧ ¬ del <:+: l) ∨
    (∃ k, findFrom del l pos = pos + k ∧ del <+: l.drop k ∧ k + del.length ≤ l.length ∧
      ¬ del <:+: l.take (k + del.length - 1)) := by
  have hdl : 0 < del.length := List.length_pos.mpr hdel
  intro l
  induction l with
  | nil =>
    intro pos
    left
    have hp : del.isPrefixOf [] = false := by
      cases del with
      | nil => exact absurd rfl hdel
      | cons a r => rfl
    exact ⟨by simp [findFrom, hp], by simpa using hdel⟩
  | cons c rest ih =>
    intro pos
    by_cases hp : del.isPrefixOf (c :: rest) = true
    · right
      have hpre : del <+: c :: rest := List.isPrefixOf_iff_prefix.mp hp
      refine ⟨0, by simp [findFrom, hp], by simpa using hpre, by
        have := hpre.length_le; omega, ?_⟩
      intro hin
      have := hin.length_le
      rw [List.length_take] at this
      omega
    · have hnpre : ¬ del <+: c :: rest := fun h => hp (List.isPrefixOf_iff_prefix.mpr h)
      have hf : findFrom del (c :: rest) pos = findFrom del rest (pos + 1) := by
        simp [findFrom, hp]
      rcases ih (pos + 1) with ⟨h1, h2⟩ | ⟨k, h1, h2, h3, h4⟩
      · left
        refine ⟨by rw [hf, h1], ?_⟩
        intro hin
        rcases List.infix_cons_iff.mp hin with h | h
        · exact hnpre h
        · exact h2 h
      · right
        refine ⟨k + 1, by rw [hf, h1]; omega, by simpa using h2, by
          simp only [List.length_cons]; omega, ?_⟩
        have e : k + 1 + del.length - 1 = (k + del.length - 1) + 1 := by omega
        rw [e, List.take_succ_cons]
        intro hin
        rcases List.infix_cons_iff.mp hin with h | h
        · apply hnpre
          exact h.trans ((List.prefix_cons_inj c).mpr (List.take_prefix _ rest))
        · exact h4 h

theorem toInt32_of_lt (k : Nat) (h : k < 2 ^ 31) : toInt32 (k : Int) = (k : Int) := by
  unfold toInt32; omega

theorem toSizeT_of_nat (k : Nat) (h : k < 2 ^ 64) : toSizeT (k : Int) = k := by
  unfold toSizeT; omega

theorem intercalate_cons_of_ne_nil (del a : List Char) (rest : List (List Char))
    (h : rest ≠ []) :
    List.intercalate del (a :: rest) = a ++ del ++ List.intercalate del rest := by
  cases rest with
  | nil => exact absurd rfl h
  | cons b r => simp [List.intercalate, List.intersperse]

theorem stringsplitBody_eq (s del : List Char) (start : Nat) (end_ : Int)
    (strvec : List (List Char)) (hs : s.length < 2 ^ 64) (hstart : start ≤ s.length)
    (hend : toInt32 (((toSizeT end_ + del.length) % UINT64_MOD : Nat) : Int) = (start : Int)) :
    stringsplitBody s del (end_, strvec) =
      .ok ((toInt32 ((findFrom del (s.drop start) start : Nat) : Int),
          strvec ++ [(s.drop start).take (toSizeT (toInt32
            (toInt32 ((findFrom del (s.drop start) start : Nat) : Int) - (start : Int))))]),
        decide (toInt32 ((findFrom del (s.drop start) start : Nat) : Int) ≠ -1)) := by
  have hsz : toSizeT (start : Int) = start := toSizeT_of_nat start (by omega)
  have hfind : std_find s del start = findFrom del (s.drop start) start := by
    simp only [std_find, if_neg (Nat.not_lt.mpr hstart)]
  have hsub : ∀ cnt, std_substr s start cnt = .ok ((s.drop start).take cnt) := by
    intro cnt
    simp only [std_substr, if_neg (Nat.not_lt.mpr hstart)]
  unfold stringsplitBody
  simp only []
  rw [hend, hsz, hfind, hsub]
  rfl

theorem doWhile_again {σ : Type} (body : σ → Except Error (σ × Bool)) (fuel : Nat) (st st' : σ)
    (h : body st = .ok (st', true)) : doWhile body (fuel + 1) st = doWhile body fuel st' := by
  rw [doWhile, h]
  rfl

theorem doWhile_done {σ : Type} (body : σ → Except Error (σ × Bool)) (fuel : Nat) (st st' : σ)
    (h : body st = .ok (st', false)) : doWhile body (fuel + 1) st = .ok st' := by
  rw [doWhile, h]
  rfl

theorem toInt32_npos : toInt32 ((NPOS : Nat) : Int) = -1 := by
  unfold toInt32 NPOS UINT64_MOD; omega

theorem toSizeT_rest (start : Nat) (h : start < 2 ^ 31) :
    toSizeT (toInt32 (-1 - (start : Int))) = 2 ^ 64 - 1 - start := by
  have h1 : toInt32 (-1 - (start : Int)) = -1 - (start : Int) := by
    unfold toInt32; omega
  rw [h1]
  unfold toSizeT; omega

theorem toSizeT_count (start k : Nat) (h : start + k < 2 ^ 31) :
    toSizeT (toInt32 (((start + k : Nat) : Int) - (start : Int))) = k := by
  have h1 : toInt32 (((start + k : Nat) : Int) - (start : Int)) = (k : Int) := by
    unfold toInt32; omega
  rw [h1]
  unfold toSizeT; omega

theorem next_start (start k d : Nat) (h : start + k + d < 2 ^ 31) :
    toInt32 (((toSizeT ((start + k : Nat) : Int) + d) % UINT64_MOD : Nat) : Int)
      = ((start + k + d : Nat) : Int) := by
  rw [toSizeT_of_nat _ (by omega), Nat.mod_eq_of_lt (by unfold UINT64_MOD; omega)]
  exact toInt32_of_lt _ h

theorem first_start_aux (d D : Nat) (x : Int) (y : Nat) (hD : D = (2 ^ 64 - 1) * d % 2 ^ 64)
    (hx : x = ((D : Int) + 2 ^ 31) % 2 ^ 32 - 2 ^ 31) (hy : y = (x % 2 ^ 64).toNat) :
    ((((y + d) % 2 ^ 64 : Nat) : Int) + 2 ^ 31) % 2 ^ 32 - 2 ^ 31 = 0 := by
  omega

/-- The first `start` is 0, whatever the length of the delimiter. -/
theorem first_start (d : Nat) :
    toInt32 (((toSizeT (toInt32 ((((UINT64_MOD - 1) * d % UINT64_MOD : Nat)) : Int)) + d)
      % UINT64_MOD : Nat) : Int) = ((0 : Nat) : Int) := by
  unfold toInt32 toSizeT UINT64_MOD
  exact first_start_aux d _ _ _ rfl rfl rfl

/-- The loop, entered with `end` such that the next `start` is the index
`start` of a string shorter than `2 ^ 31`, ends normally and appends the pieces
of the rest of the string from `start`. -/
theorem stringsplitLoop_spec (s del : List Char) (hs : s.length < 2 ^ 31) (hdel : del ≠ []) :
    ∀ (fuel start : Nat) (end_ : Int) (strvec : List (List Char)),
      start ≤ s.length → s.length < fuel + start →
      toInt32 (((toSizeT end_ + del.length) % UINT64_MOD : Nat) : Int) = (start : Int) →
      ∃ pieces, stringsplitLoop s del fuel end_ strvec = .ok (strvec ++ pieces) ∧
        pieces ≠ [] ∧ List.intercalate del pieces = s.drop start ∧
        (∀ p ∈ pieces, ¬ del <:+: p) ∧
        (¬ del <:+: s.drop start → pieces = [s.drop start]) := by
  have hdl : 0 < del.length := List.length_pos.mpr hdel
  intro fuel
  induction fuel with
  | zero => intro start end_ strvec h1 h2; omega
  | succ fuel ih =>
    intro start end_ strvec hstart hfuel hend
    have hbody := stringsplitBody_eq s del start end_ strvec (by omega) hstart hend
    rcases findFrom_spec del hdel (s.drop start) start with
      ⟨hnot, hnin⟩ | ⟨k, hk, hpre, hklen, hbefore⟩
    · -- the delimiter does not occur any more
      have hcnt : (s.drop start).length ≤ toSizeT (toInt32 (-1 - (start : Int))) := by
        rw [toSizeT_rest start (by omega), List.length_drop]; omega
      rw [hnot, toInt32_npos, List.take_of_length_le hcnt] at hbody
      refine ⟨[s.drop start], ?_, by simp, by simp [List.intercalate], ?_, fun _ => rfl⟩
      · unfold stringsplitLoop
        rw [doWhile_done _ _ _ _ hbody]
        rfl
      · intro p hp
        simp only [List.mem_singleton] at hp
        subst hp
        exact hnin
    · -- the delimiter starts at index `k` of the rest
      rw [List.length_drop] at hklen
      have hne : ((start + k : Nat) : Int) ≠ -1 := by omega
      rw [hk, toInt32_of_lt _ (by omega), toSizeT_count start k (by omega),
        decide_eq_true hne] at hbody
      obtain ⟨pieces, hrun, hnn, hjoin, hno, _⟩ := ih (start + k + del.length)
        ((start + k : Nat) : Int) (strvec ++ [(s.drop start).take k]) (by omega) (by omega)
        (next_start start k del.length (by omega))
      refine ⟨(s.drop start).take k :: pieces, ?_, by simp, ?_, ?_, ?_⟩
      · unfold stringsplitLoop at hrun ⊢
        rw [doWhile_again _ _ _ _ hbody, hrun]
        simp
      · rw [intercalate_cons_of_ne_nil _ _ _ hnn, hjoin]
        have h1 := List.prefix_iff_eq_append.mp hpre
        rw [List.drop_drop] at h1
        have h2 : List.drop (start + k + del.length) s
            = List.drop (k + del.length) (List.drop start s) := by
          rw [List.drop_drop]; congr 1; omega
        rw [h2, List.append_assoc, h1, List.take_append_drop]
      · intro p hp
        rcases List.mem_cons.mp hp with rfl | hp'
        · intro hin
          exact hbefore (hin.trans
            (List.take_prefix_take_left _ (by omega)).isInfix)
        · exact hno p hp'
      · intro hnin
        exact absurd (hpre.isInfix.trans (List.drop_suffix k _).isInfix) hnin

/-- The split of a string shorter than `2 ^ 31` by a non-empty delimiter. -/
theorem stringsplit_spec (s del : List Char) (strvec : List (List Char))
    (hs : s.length < 2 ^ 31) (hdel : del ≠ []) :
    ∃ pieces, stringsplit s del strvec = .ok (strvec ++ pieces) ∧
      pieces ≠ [] ∧ List.intercalate del pieces = s ∧
      (∀ p ∈ pieces, ¬ del <:+: p) ∧ (¬ del <:+: s → pieces = [s]) := by
  have h := stringsplitLoop_spec s del hs hdel (s.length + 1) 0
    (toInt32 ((((UINT64_MOD - 1) * del.length % UINT64_MOD : Nat)) : Int)) strvec
    (Nat.zero_le _) (by omega) (first_start del.length)
  unfold stringsplit
  rw [List.drop_zero] at h
  exact h

theorem doWhile_error {σ : Type} (body : σ → Except Error (σ × Bool)) (fuel : Nat) (st : σ)
    (e : Error) (h : body st = .error e) : doWhile body (fuel + 1) st = .error e := by
  rw [doWhile, h]

/-- When the next `start` converts to a position beyond the end of the string,
`substr` throws and the exception leaves the body. -/
theorem stringsplitBody_error (s del : List Char) (end_ : Int) (strvec : List (List Char))
    (pos : Nat)
    (hpos : toSizeT (toInt32 (((toSizeT end_ + del.length) % UINT64_MOD : Nat) : Int)) = pos)
    (h : s.length < pos) :
    stringsplitBody s del (end_, strvec) = .error Error.out_of_range := by
  have hsub : ∀ cnt, std_substr s pos cnt = .error Error.out_of_range := by
    intro cnt
    simp only [std_substr, if_pos h]
  unfold stringsplitBody
  simp only []
  rw [hpos, hsub]
  rfl

theorem findFrom_replicate (a b : Char) (hab : a ≠ b) (n : Nat) : ∀ pos : Nat,
    findFrom [b] (List.replicate n a ++ [b]) pos = pos + n := by
  induction n with
  | zero =>
    intro pos
    simp [findFrom, List.isPrefixOf]
  | succ n ih =>
    intro pos
    have hp : List.isPrefixOf [b] (a :: (List.replicate n a ++ [b])) = false := by
      simp [List.isPrefixOf, Ne.symm hab]
    rw [List.replicate_succ, List.cons_append, findFrom, hp, ih]
    simp only [Bool.false_eq_true, if_false]
    omega

theorem wrapped_start_aux (n : Nat) (x : Int) (y : Nat) (hn : n + 1 = 2 ^ 31)
    (hx : x = ((((y + 1) % 2 ^ 64 : Nat) : Int) + 2 ^ 31) % 2 ^ 32 - 2 ^ 31)
    (hy : y = ((n : Int) % 2 ^ 64).toNat) :
    (x % 2 ^ 64).toNat = 2 ^ 64 - 2 ^ 31 := by
  omega

/-- After a delimiter found at index `2 ^ 31 - 1` the next `start` wraps to
`-2 ^ 31`, which as a `size_t` is `2 ^ 64 - 2 ^ 31`. -/
theorem wrapped_start (n : Nat) (hn : n + 1 = 2 ^ 31) :
    toSizeT (toInt32 (((toSizeT (n : Int) + 1) % UINT64_MOD : Nat) : Int))
      = 2 ^ 64 - 2 ^ 31 := by
  unfold toInt32 toSizeT UINT64_MOD
  exact wrapped_start_aux n _ _ hn rfl rfl

/-- A string of `n + 1 = 2 ^ 31` characters whose only delimiter is the last
character: the second pass of the loop throws. -/
theorem stringsplit_long (a b : Char) (hab : a ≠ b) (n : Nat) (hn : n + 1 = 2 ^ 31) :
    stringsplit (List.replicate n a ++ [b]) [b] [] = .error Error.out_of_range := by
  have hlen : (List.replicate n a ++ [b]).length = n + 1 := by simp
  have hfind : findFrom [b] (List.replicate n a ++ [b]) 0 = n := by
    rw [findFrom_replicate a b hab]; omega
  have hne : ((n : Nat) : Int) ≠ -1 := by omega
  have h1 := stringsplitBody_eq (List.replicate n a ++ [b]) [b] 0
    (toInt32 ((((UINT64_MOD - 1) * [b].length % UINT64_MOD : Nat)) : Int)) []
    (by rw [hlen, hn]; norm_num) (Nat.zero_le _) (first_start [b].length)
  rw [List.drop_zero, hfind, toInt32_of_lt n (by omega), decide_eq_true hne] at h1
  have h2 := stringsplitBody_error (List.replicate n a ++ [b]) [b] (n : Int)
    ([] ++ [List.take (toSizeT (toInt32 ((n : Int) - ((0 : Nat) : Int))))
      (List.replicate n a ++ [b])]) (2 ^ 64 - 2 ^ 31) (wrapped_start n hn)
    (by rw [hlen, hn]; norm_num)
  unfold stringsplit stringsplitLoop
  rw [hlen, doWhile_again _ _ _ _ h1, doWhile_error _ _ _ _ h2]
  rfl

/-- C18, as stated, fails beyond the range of `int`: for the string of
`2 ^ 31 - 1` letters `a` followed by one `b` and the delimiter `b`, the first
pass finds the delimiter at index `2 ^ 31 - 1`, the next `start` wraps to
`-2 ^ 31`, and `substr` throws `out_of_range`: no list of pieces is produced. -/
theorem C18_stringsplit_throws_beyond_int_range :
    stringsplit (List.replicate (2 ^ 31 - 1) 'a' ++ ['b']) ['b'] []
      = .error Error.out_of_range :=
  stringsplit_long 'a' 'b' (by decide) (2 ^ 31 - 1) (by norm_num)

/-- C18 (amended): for every string `s` shorter than `2 ^ 31` characters and
every non-empty delimiter `del`, `stringsplit` ends normally and appends to the
vector, whose earlier elements stay, a non-empty list of pieces; joining the
pieces with `del` gives back `s`, no piece contains `del`, and when `del` does
not occur in `s` the single piece is `s`. -/
theorem C18_stringsplit_splits_strings_in_int_range (s del : List Char)
    (strvec : List (List Char)) (hs : s.length < 2 ^ 31) (hdel : del ≠ []) :
    ∃ pieces, stringsplit s del strvec = .ok (strvec ++ pieces) ∧
      pieces ≠ [] ∧ List.intercalate del pieces = s ∧
      (∀ p ∈ pieces, ¬ del <:+: p) ∧ (¬ del <:+: s → pieces = [s]) := by
  have h := stringsplitLoop_spec s del hs hdel (s.length + 1) 0
    (toInt32 ((((UINT64_MOD - 1) * del.length % UINT64_MOD : Nat)) : Int)) strvec
    (Nat.zero_le _) (by omega) (first_start del.length)
  unfold stringsplit
  rw [List.drop_zero] at h
  exact h

theorem C18_stringsplit_splits_strings_in_int_range_witness :
    ['a', ' ', 'b', ' ', ' ', 'c'].length < 2 ^ 31 ∧ [' '] ≠ ([] : List Char) ∧
    (∃ pieces, stringsplit ['a', ' ', 'b', ' ', ' ', 'c'] [' '] [['x']]
        = .ok ([['x']] ++ pieces) ∧
      pieces ≠ [] ∧ List.intercalate [' '] pieces = ['a', ' ', 'b', ' ', ' ', 'c'] ∧
      (∀ p ∈ pieces, ¬ [' '] <:+: p) ∧
      (¬ [' '] <:+: ['a', ' ', 'b', ' ', ' ', 'c'] →
        pieces = [['a', ' ', 'b', ' ', ' ', 'c']])) ∧
    stringsplit ['a', ' ', 'b', ' ', ' ', 'c'] [' '] [['x']]
      = .ok [['x'], ['a'], ['b'], [], ['c']] :=
  ⟨by decide, by decide,
    C18_stringsplit_splits_strings_in_int_range ['a', ' ', 'b', ' ', ' ', 'c'] [' '] [['x']]
      (by decide) (by decide),
    by with_unfolding_all decide⟩


/-! ## C12: the text parsed from a line -/

theorem singleton_infix_iff_mem (x : Char) (p : List Char) : [x] <:+: p ↔ x ∈ p := by
  constructor
  · intro h
    exact h.subset (List.mem_singleton_self x)
  · intro h
    obtain ⟨s, t, rfl⟩ := List.append_of_mem h
    exact ⟨s, t, by simp⟩

/-- Refinement of the split at single characters: on a string shorter than
`2 ^ 31`, `stringsplit` with a one-character delimiter computes `List.splitOn`. -/
theorem stringsplit_eq_splitOn (s : List Char) (x : Char) (hs : s.length < 2 ^ 31) :
    stringsplit s [x] [] = .ok (s.splitOn x) := by
  obtain ⟨pieces, hrun, hne, hjoin, hno, _⟩ := stringsplit_spec s [x] [] hs (by simp)
  have hsplit : s.splitOn x = pieces := by
    rw [← hjoin]
    exact List.splitOn_intercalate pieces x
      (fun l hl hx => hno l hl ((singleton_infix_iff_mem x l).mpr hx)) hne
  rw [hrun, hsplit, List.nil_append]

theorem eraseIndex_eq (line : List Char) (h2 : 2 ≤ line.length) (h : line.length < 2 ^ 64) :
    eraseIndex line = line.length - 2 := by
  unfold eraseIndex UINT64_MOD; omega

theorem eraseIndex_short (line : List Char) (h : line.length < 2) :
    line.length < eraseIndex line := by
  unfold eraseIndex UINT64_MOD; omega

theorem bind_ok {α β : Type} (a : α) (f : α → Except Error β) :
    (Except.ok a : Except Error α).bind f = f a := rfl

theorem bind_error {α β : Type} (e : Error) (f : α → Except Error β) :
    (Except.error e : Except Error α).bind f = .error e := rfl

/-- With more than one dimension, the value of a line is parsed from the field
`dimsel` of what `stringsplit` makes of the line without its last two
characters. -/
theorem lineValue_dims (stof : List Char → Except Error F32) (dims dimsel : Nat)
    (line : List Char) (strs : List (List Char)) (field : List Char) (hd : dims > 1)
    (h2 : 2 ≤ line.length) (h : line.length < 2 ^ 64)
    (hsplit : stringsplit (line.take (line.length - 2)) [' '] [] = .ok strs)
    (hfield : strs[dimsel]? = some field) :
    lineValue stof dims dimsel line = stof field := by
  have herase : std_erase line (eraseIndex line) = .ok (line.take (line.length - 2)) := by
    rw [eraseIndex_eq line h2 h]
    simp only [std_erase, if_neg (Nat.not_lt.mpr (Nat.sub_le _ _))]
  have hat : vec_at strs dimsel = .ok field := by
    rw [vec_at, hfield]
  unfold lineValue
  rw [if_neg (by omega), if_pos hd, herase, bind_ok, hsplit, bind_ok, hat, bind_ok]

/-- With more than one dimension, an exception of `stringsplit` on the line
without its last two characters leaves `read_float_stream`. -/
theorem lineValue_split_error (stof : List Char → Except Error F32) (dims dimsel : Nat)
    (line : List Char) (e : Error) (hd : dims > 1)
    (h2 : 2 ≤ line.length) (h : line.length < 2 ^ 64)
    (hsplit : stringsplit (line.take (line.length - 2)) [' '] [] = .error e) :
    lineValue stof dims dimsel line = .error e := by
  have herase : std_erase line (eraseIndex line) = .ok (line.take (line.length - 2)) := by
    rw [eraseIndex_eq line h2 h]
    simp only [std_erase, if_neg (Nat.not_lt.mpr (Nat.sub_le _ _))]
  unfold lineValue
  rw [if_neg (by omega), if_pos hd, herase, bind_ok, hsplit, bind_error]

/-- With more than one dimension, a line of fewer than two characters makes
`erase` throw. -/
theorem lineValue_short (stof : List Char → Except Error F32) (dims dimsel : Nat)
    (line : List Char) (hd : dims > 1) (h : line.length < 2) :
    lineValue stof dims dimsel line = .error Error.out_of_range := by
  have herase : std_erase line (eraseIndex line) = .error Error.out_of_range := by
    simp only [std_erase, if_pos (eraseIndex_short line h)]
  unfold lineValue
  rw [if_neg (by omega), if_pos hd, herase, bind_error]


/-- A line of `n + 3 = 2 ^ 31 + 2` characters whose first space is at index
`n`: the split of the line without its last two characters throws. -/
theorem lineValue_long (stof : List Char → Except Error F32) (dimsel n : Nat)
    (hn : n + 1 = 2 ^ 31) :
    lineValue stof 2 dimsel (List.replicate n 'a' ++ [' '] ++ ['b', 'c'])
      = .error Error.out_of_range := by
  have hlen : (List.replicate n 'a' ++ [' '] ++ ['b', 'c']).length = n + 3 := by simp
  have htake : (List.replicate n 'a' ++ [' '] ++ ['b', 'c']).take
      ((List.replicate n 'a' ++ [' '] ++ ['b', 'c']).length - 2)
      = List.replicate n 'a' ++ [' '] := by
    rw [hlen]
    exact List.take_left' (by simp)
  apply lineValue_split_error stof 2 dimsel _ _ (by omega) (by rw [hlen]; omega)
    (by rw [hlen]; omega)
  rw [htake]
  exact stringsplit_long 'a' ' ' (by decide) n hn

/-- The text the code parses: with one dimension the whole line; with more
than one dimension, for a line of at least two and fewer than `2 ^ 31 + 2`
characters, the field `dimsel` of the line without its last two characters,
split on single spaces. -/
theorem lineValue_field_of_trimmed_line (stof : List Char → Except Error F32)
    (dims dimsel : Nat) (line : List Char) :
    (dims = 1 → lineValue stof dims dimsel line = stof line) ∧
    (dims > 1 → 2 ≤ line.length → line.length < 2 ^ 31 + 2 →
      ∀ field, ((line.take (line.length - 2)).splitOn ' ')[dimsel]? = some field →
        lineValue stof dims dimsel line = stof field) := by
  constructor
  · intro hd
    unfold lineValue
    rw [if_pos hd]
  · intro hd h2 hlen field hfield
    have hs : (line.take (line.length - 2)).length < 2 ^ 31 := by
      rw [List.length_take]; omega
    exact lineValue_dims stof dims dimsel line _ field hd h2 (by omega)
      (stringsplit_eq_splitOn _ ' ' hs) hfield

set_option maxRecDepth 100000 in
/-- C12 (divergence of the code): line 80, commented `remove new line and
space`, erases the last two characters of the line whatever they are, so the
text parsed is the `dimsel`-th field of the line only when the line ends in
these two characters.  With two dimensions and `dimsel` 1: (1) for the line
`10 20`, whose fields are `10` and `20`, the digits `20` are erased, the field
parsed is empty and the parser throws; (2) for the line `10 20 ` with a space at
the end, the space and the last digit are erased and the value read is 2, not
20; (3) for the line `7` and `dimsel` 0, `erase` throws; (4) for the line
`10 20` followed by a space and a carriage return the text parsed is `20`. -/
theorem C12_erase_drops_data_characters :
    (['1', '0', ' ', '2', '0'].splitOn ' ' = [['1', '0'], ['2', '0']] ∧
      scenarioStofTwo ['2', '0'] = .ok (F32.ofNat 20) ∧
      lineValue scenarioStofTwo 2 1 ['1', '0', ' ', '2', '0']
        = .error Error.invalid_argument) ∧
    (['1', '0', ' ', '2', '0', ' '].splitOn ' ' = [['1', '0'], ['2', '0'], []] ∧
      lineValue scenarioStofTwo 2 1 ['1', '0', ' ', '2', '0', ' '] = .ok (F32.ofNat 2)) ∧
    (['7'].splitOn ' ' = [['7']] ∧
      lineValue scenarioStofTwo 2 0 ['7'] = .error Error.out_of_range) ∧
    lineValue scenarioStofTwo 2 1 ['1', '0', ' ', '2', '0', ' ', '\r']
      = .ok (F32.ofNat 20) :=
  ⟨⟨by decide, by decide,
      (lineValue_dims scenarioStofTwo 2 1 ['1', '0', ' ', '2', '0'] [['1', '0'], []] []
        (by decide) (by decide) (by decide) (by with_unfolding_all decide)
        (by decide)).trans (by decide)⟩,
    ⟨by decide,
      (lineValue_dims scenarioStofTwo 2 1 ['1', '0', ' ', '2', '0', ' '] [['1', '0'], ['2']]
        ['2'] (by decide) (by decide) (by decide) (by with_unfolding_all decide)
        (by decide)).trans (by decide)⟩,
    ⟨by decide, lineValue_short _ 2 0 ['7'] (by decide) (by decide)⟩,
    (lineValue_dims scenarioStofTwo 2 1 ['1', '0', ' ', '2', '0', ' ', '\r']
      [['1', '0'], ['2', '0']] ['2', '0'] (by decide) (by decide) (by decide)
      (by with_unfolding_all decide) (by decide)).trans (by decide)⟩

/-! ## C11: the synthesized timestamps -/

/-- The time step of a positive sample rate is a finite value without sign, or
`+inf`. -/
theorem timestepMs_of_positive (sr : F32) (hsr : F32.isPositive sr = true) :
    (∃ t, timestepMs sr = F32.fin false t) ∨ timestepMs sr = F32.inf false := by
  have hk : (1000 * F32_ONE = 0) = False := by
    simp [F32_ONE]
  cases sr with
  | nan => simp [F32.isPositive] at hsr
  | inf s =>
    cases s with
    | true => simp [F32.isPositive] at hsr
    | false =>
      simp only [timestepMs, F32.div, F32.one, F32.thousand, F32.mul, F32.round, Bool.xor_false]
      split_ifs
      · exact Or.inl ⟨_, rfl⟩
      · exact Or.inr rfl
  | fin s a =>
    cases s with
    | true => simp [F32.isPositive] at hsr
    | false =>
      have ha : a ≠ 0 := by
        simp [F32.isPositive] at hsr
        omega
      simp only [timestepMs, F32.div, F32.one, F32.thousand, if_neg ha, F32.round,
        Bool.xor_false]
      by_cases h1 : roundQ (F32_ONE * F32_ONE) a < F32_OVERFLOW
      · rw [if_pos h1]
        simp only [F32.mul, F32.round, Bool.xor_false]
        split_ifs
        · exact Or.inl ⟨_, rfl⟩
        · exact Or.inr rfl
      · rw [if_neg h1]
        simp only [F32.mul, hk, if_false, Bool.xor_false]
        exact Or.inr trivial

/-- A product of a time step without sign and a converted line counter that
converts to `uint64_t` is a finite value without sign, and the conversion is
its integer part. -/
theorem timeOffset_of_nonneg (tau : F32) (i o : Nat)
    (htau : (∃ t, tau = F32.fin false t) ∨ tau = F32.inf false)
    (h : timeOffset tau i = some o) :
    ∃ m, F32.mul tau (F32.ofNat i) = F32.fin false m ∧ o = m / F32_ONE ∧
      m / F32_ONE < UINT64_MOD := by
  unfold timeOffset at h
  have hof : (∃ n, F32.ofNat i = F32.fin false n) ∨ F32.ofNat i = F32.inf false := by
    unfold F32.ofNat F32.round
    simp only []
    split_ifs
    · exact Or.inl ⟨_, rfl⟩
    · exact Or.inr rfl
  have hprod : (∃ m, F32.mul tau (F32.ofNat i) = F32.fin false m) ∨
      F32.mul tau (F32.ofNat i) = F32.inf false ∨ F32.mul tau (F32.ofNat i) = F32.nan := by
    rcases htau with ⟨t, rfl⟩ | rfl <;> rcases hof with ⟨n, hn⟩ | hn <;> rw [hn]
    · simp only [F32.mul, F32.round, Bool.xor_false]
      split_ifs
      · exact Or.inl ⟨_, rfl⟩
      · exact Or.inr (Or.inl rfl)
    · simp only [F32.mul, Bool.xor_false]
      split_ifs
      · exact Or.inr (Or.inr rfl)
      · exact Or.inr (Or.inl rfl)
    · simp only [F32.mul, Bool.xor_false]
      split_ifs
      · exact Or.inr (Or.inr rfl)
      · exact Or.inr (Or.inl rfl)
    · simp only [F32.mul, Bool.xor_false]
      exact Or.inr (Or.inl trivial)
  rcases hprod with ⟨m, hm⟩ | hm | hm
  · rw [hm] at h
    refine ⟨m, hm, ?_⟩
    simp only [F32.toUInt64, Bool.false_eq_true, if_false] at h
    split_ifs at h with hlt
    simp only [Option.some.injEq] at h
    exact ⟨h.symm, hlt⟩
  · rw [hm] at h
    simp [F32.toUInt64] at h
  · rw [hm] at h
    simp [F32.toUInt64] at h


set_option maxRecDepth 1000000 in
/-- C11, as stated, fails: the offset is the binary32 product of the time step
and the line counter, truncated, not the nearest integer to `(1000/sr) * i`.
(1) At 3 Hz from the start time 1000 the sample of line 2 gets the timestamp
1666, where the rounded offset is 667.  (2) At 47 Hz from the start time 0 the
sample of line 47 gets the timestamp 999, where `(1000/47) * 47` is 1000. -/
theorem C11_offset_is_truncated_not_rounded :
    (read_float_stream (stofConst (F32.ofNat 7)) Stream.new (some scenarioLines) 1000 "S"
        (F32.ofNat 3) 1 0 = .ok (true, scenarioRead) ∧
      scenarioRead.getSamples.map Sample.getTimestamp = [1000, 1333, 1666, 2000] ∧
      specOffset (F32.ofNat 3) 2 = some 667) ∧
    ((read_float_stream (stofConst (F32.ofNat 7)) Stream.new (some scenarioManyLines) 0 "S"
        (F32.ofNat 47) 1 0).map
        (fun r => (r.2.getSamples.map Sample.getTimestamp)[47]?) = .ok (some 999) ∧
      specOffset (F32.ofNat 47) 47 = some 1000) := by
  refine ⟨⟨by decide, by decide, by decide⟩, by decide, by decide⟩

/-- C11 (amended): for every start time, positive sample rate `sr` and
zero-based line index `i` (below `2 ^ 64`), when `read_float_stream` ends
normally the timestamp it gives the sample of line `i` is `start_time` plus the
binary32 product `timestep_ms * (float)i`, with `timestep_ms = (1.f/sr) * 1000.f`,
truncated to an integer millisecond (the sum taken modulo `2 ^ 64`): the product
is a finite value without sign and the offset is its integer part, not the
nearest integer. -/
theorem C11_timestamp_is_start_plus_truncated_product
    (stof : List Char → Except Error F32) (s0 s : Stream) (lines : List (List Char))
    (start_time : Nat) (name : String) (sr : F32) (dims dimsel : Nat)
    (hsr : F32.isPositive sr = true)
    (hrun : read_float_stream stof s0 (some lines) start_time name sr dims dimsel = .ok (true, s))
    (hlines : lines.length ≤ UINT64_MOD) :
    ∃ news, s.getSamples = s0.getSamples ++ news ∧ news.length = lines.length ∧
      ∀ (i : Nat) (x : Sample), news[i]? = some x →
        ∃ m, F32.mul (timestepMs sr) (F32.ofNat i) = F32.fin false m ∧
          m / F32_ONE < UINT64_MOD ∧
          x.getTimestamp = (start_time + m / F32_ONE) % UINT64_MOD := by
  simp only [read_float_stream] at hrun
  cases hloop : readLoop stof (timestepMs sr) start_time dims dimsel lines 0
      ((s0.setName name).setSR sr) with
  | error e => rw [hloop] at hrun; cases hrun
  | ok s1 =>
    rw [hloop] at hrun
    simp only [Except.ok.injEq, Prod.mk.injEq, true_and] at hrun
    subst hrun
    obtain ⟨news, hs, hlen, hidx⟩ :=
      readLoop_spec stof (timestepMs sr) start_time dims dimsel lines 0 _ s1 hloop (by omega)
    refine ⟨news, hs, hlen, ?_⟩
    intro i x hx
    obtain ⟨o, h1, h2⟩ := hidx i x hx
    rw [Nat.zero_add] at h1
    obtain ⟨m, hm, ho, hlt⟩ :=
      timeOffset_of_nonneg (timestepMs sr) i o (timestepMs_of_positive sr hsr) h1
    exact ⟨m, hm, hlt, by rw [h2, ho]⟩

set_option maxRecDepth 1000000 in
theorem C11_timestamp_is_start_plus_truncated_product_witness :
    F32.isPositive (F32.ofNat 3) = true ∧
    read_float_stream (stofConst (F32.ofNat 7)) Stream.new (some scenarioLines) 1000 "S"
      (F32.ofNat 3) 1 0 = .ok (true, scenarioRead) ∧
    scenarioLines.length ≤ UINT64_MOD ∧
    ∃ news, scenarioRead.getSamples = Stream.new.getSamples ++ news ∧
      news.length = scenarioLines.length ∧
      ∀ (i : Nat) (x : Sample), news[i]? = some x →
        ∃ m, F32.mul (timestepMs (F32.ofNat 3)) (F32.ofNat i) = F32.fin false m ∧
          m / F32_ONE < UINT64_MOD ∧
          x.getTimestamp = (1000 + m / F32_ONE) % UINT64_MOD :=
  ⟨by decide, by decide, by decide,
    C11_timestamp_is_start_plus_truncated_product (stofConst (F32.ofNat 7)) Stream.new
      scenarioRead scenarioLines 1000 "S" (F32.ofNat 3) 1 0 (by decide) (by decide)
      (by decide)⟩


/-! ## C14: the reported duration -/

/-- The quotient of a converted count and a positive sample rate is a finite
value without sign, `+inf` or NaN. -/
theorem div_ofNat_of_positive (n : Nat) (sr : F32) (hsr : F32.isPositive sr = true) :
    (∃ m, F32.div (F32.ofNat n) sr = F32.fin false m) ∨
      F32.div (F32.ofNat n) sr = F32.inf false ∨ F32.div (F32.ofNat n) sr = F32.nan := by
  have hof : (∃ p, F32.ofNat n = F32.fin false p) ∨ F32.ofNat n = F32.inf false := by
    unfold F32.ofNat F32.round
    simp only []
    split_ifs
    · exact Or.inl ⟨_, rfl⟩
    · exact Or.inr rfl
  cases sr with
  | nan => simp [F32.isPositive] at hsr
  | inf s =>
    cases s with
    | true => simp [F32.isPositive] at hsr
    | false =>
      rcases hof with ⟨p, hp⟩ | hp <;> rw [hp]
      · exact Or.inl ⟨0, rfl⟩
      · exact Or.inr (Or.inr rfl)
  | fin s a =>
    cases s with
    | true => simp [F32.isPositive] at hsr
    | false =>
      have ha : a ≠ 0 := by
        simp [F32.isPositive] at hsr
        omega
      rcases hof with ⟨p, hp⟩ | hp <;> rw [hp]
      · simp only [F32.div, if_neg ha, F32.round, Bool.xor_false]
        split_ifs
        · exact Or.inl ⟨_, rfl⟩
        · exact Or.inr (Or.inl rfl)
      · exact Or.inr (Or.inl rfl)

/-- The line of a stream of numeric samples whose binary32 quotient `size / sr`
is a finite value without sign with an integer part below `2 ^ 31`. -/
theorem print_stream_info_ok (s : Stream) (hnum : Numeric s.getSamples)
    (hsize : s.getSamples.length < UINT64_MOD) (m : Nat)
    (hq : F32.div (F32.ofNat s.getSamples.length) s.getSR = F32.fin false m)
    (hlt : m / F32_ONE < INT_RANGE) :
    print_stream_info s = .ok ⟨s.getName, s.getSamples.length, ((m / F32_ONE : Nat) : Int),
      ((s.getSamples.map Sample.value).filter Variant.isZeroFloat).length⟩ := by
  have hz := zeroCountLoop_spec s.getSamples hnum 0 (by omega)
  rw [Nat.zero_add] at hz
  unfold print_stream_info
  rw [hq]
  simp only [F32.toInt, Bool.false_eq_true, if_false, if_pos hlt, total_zero_count, hz]

/-- The conversion `(int)(size / sr)` is undefined: nothing is written. -/
theorem print_stream_info_undefined (s : Stream)
    (h : (F32.div (F32.ofNat s.getSamples.length) s.getSR).toInt = none) :
    print_stream_info s = .error Error.undefined_behaviour := by
  unfold print_stream_info
  rw [h]

theorem scenarioRecording_length (n rate : Nat) :
    (scenarioRecording n rate).getSamples.length = n :=
  List.length_replicate n _

set_option maxRecDepth 100000 in
/-- The line written for a recording of `n` samples whose quotient has the
integer part `sec`. -/
theorem print_stream_info_recording (n rate m sec : Nat) (hn : n < UINT64_MOD)
    (hq : F32.div (F32.ofNat n) (F32.ofNat rate) = F32.fin false m)
    (hsec : m / F32_ONE = sec) (hlt : sec < INT_RANGE) :
    print_stream_info (scenarioRecording n rate) = .ok ⟨"PCM", n, (sec : Int), 0⟩ := by
  have hnum : Numeric (scenarioRecording n rate).getSamples := by
    intro x hx
    rw [List.eq_of_mem_replicate hx]
    rfl
  have hzero : (((scenarioRecording n rate).getSamples.map Sample.value).filter
      Variant.isZeroFloat).length = 0 := by
    show (((List.replicate n (Sample.ofFloat 0 (F32.ofNat 7))).map Sample.value).filter
      Variant.isZeroFloat).length = 0
    rw [List.map_replicate, List.filter_replicate]
    have hv : Variant.isZeroFloat (Sample.ofFloat 0 (F32.ofNat 7)).value = false := by decide
    rw [hv]
    rfl
  have h := print_stream_info_ok (scenarioRecording n rate) hnum
    (by rw [scenarioRecording_length]; exact hn) m
    (by rw [scenarioRecording_length]; exact hq) (by rw [hsec]; exact hlt)
  rw [hzero, scenarioRecording_length, hsec] at h
  exact h

set_option maxRecDepth 100000 in
/-- C14, as stated, fails: the seconds reported are the integer part of the
binary32 quotient `(float)size / sr`, not of the exact `sampleCount /
sampleRate`, and nothing defined is reported when that integer part does not
fit an `int`.  (1) For 17639999 samples at 44100 Hz the count converts to
17640000.f and the report is 400, where the exact quotient truncates to 399.
(2) For 16777217 samples at 1 Hz the report is 16777216.  (3) For `2 ^ 31`
samples at 1 Hz the conversion to `int` is undefined. -/
theorem C14_binary32_quotient_differs_from_exact :
    (print_stream_info (scenarioRecording 17639999 44100)
        = .ok ⟨"PCM", 17639999, 400, 0⟩ ∧
      specSeconds 17639999 (F32.ofNat 44100) = some 399) ∧
    (print_stream_info (scenarioRecording 16777217 1)
        = .ok ⟨"PCM", 16777217, 16777216, 0⟩ ∧
      specSeconds 16777217 (F32.ofNat 1) = some 16777217) ∧
    (F32.isPositive (scenarioRecording 2147483648 1).getSR = true ∧
      print_stream_info (scenarioRecording 2147483648 1)
        = .error Error.undefined_behaviour) :=
  ⟨⟨print_stream_info_recording 17639999 44100 (400 * F32_ONE) 400 (by decide) (by decide)
      (by decide) (by decide), by decide⟩,
    ⟨print_stream_info_recording 16777217 1 (16777216 * F32_ONE) 16777216 (by decide)
      (by decide) (by decide) (by decide), by decide⟩,
    ⟨by decide, print_stream_info_undefined _ (by
      rw [scenarioRecording_length]
      decide)⟩⟩

set_option maxRecDepth 100000 in
/-- C14 (amended): for every stream with a positive sample rate, the duration
in seconds that `print_stream_info` reports is the binary32 quotient
`(float)size / sr` truncated toward zero to an integer, whenever that integer
is below `2 ^ 31`: (a) every line that is written reports the integer part of
this quotient, which is a finite value without sign; (b) for numeric samples
the line is written when the integer part is below `2 ^ 31`; (c) otherwise the
conversion to `int` is undefined and nothing is written; (d) for 130 samples at
130.0 Hz the report is 1. -/
theorem C14_reported_duration_is_truncated_binary32_quotient (s : Stream)
    (hsr : F32.isPositive s.getSR = true) :
    (∀ info, print_stream_info s = .ok info →
      ∃ m, F32.div (F32.ofNat s.getSamples.length) s.getSR = F32.fin false m ∧
        m / F32_ONE < INT_RANGE ∧ info.seconds = ((m / F32_ONE : Nat) : Int)) ∧
    (Numeric s.getSamples → s.getSamples.length < UINT64_MOD →
      ∀ m, F32.div (F32.ofNat s.getSamples.length) s.getSR = F32.fin false m →
        m / F32_ONE < INT_RANGE →
        ∃ zeros, print_stream_info s
          = .ok ⟨s.getName, s.getSamples.length, ((m / F32_ONE : Nat) : Int), zeros⟩) ∧
    ((∀ m, F32.div (F32.ofNat s.getSamples.length) s.getSR = F32.fin false m →
        INT_RANGE ≤ m / F32_ONE) →
      print_stream_info s = .error Error.undefined_behaviour) ∧
    (Numeric s.getSamples → s.getSamples.length = 130 → s.getSR = F32.ofNat 130 →
      ∃ zeros, print_stream_info s = .ok ⟨s.getName, 130, 1, zeros⟩) := by
  have hone : 0 < F32_ONE := by unfold F32_ONE; exact Nat.pow_pos (by decide)
  refine ⟨?_, ?_, ?_, ?_⟩
  · intro info hrun
    unfold print_stream_info at hrun
    rcases div_ofNat_of_positive s.getSamples.length s.getSR hsr with ⟨m, hm⟩ | hm | hm
    · rw [hm] at hrun
      simp only [F32.toInt, Bool.false_eq_true, if_false] at hrun
      split_ifs at hrun with hlt
      refine ⟨m, hm, hlt, ?_⟩
      simp only [] at hrun
      cases hz : total_zero_count s with
      | error e => rw [hz] at hrun; cases hrun
      | ok r =>
        rw [hz] at hrun
        simp only [Except.ok.injEq] at hrun
        rw [← hrun]
    · rw [hm] at hrun
      cases hrun
    · rw [hm] at hrun
      cases hrun
  · intro hnum hsize m hq hlt
    exact ⟨_, print_stream_info_ok s hnum hsize m hq hlt⟩
  · intro hbig
    apply print_stream_info_undefined
    rcases div_ofNat_of_positive s.getSamples.length s.getSR hsr with ⟨m, hm⟩ | hm | hm
    · have := hbig m hm
      rw [hm]
      simp only [F32.toInt, Bool.false_eq_true, if_false, if_neg (Nat.not_lt.mpr this)]
    · rw [hm]; rfl
    · rw [hm]; rfl
  · intro hnum hlen hrate
    have h130 : F32.div (F32.ofNat 130) (F32.ofNat 130) = F32.fin false F32_ONE := by decide
    have h := print_stream_info_ok s hnum (by rw [hlen]; decide) F32_ONE
      (by rw [hlen, hrate]; exact h130) (by rw [Nat.div_self hone]; decide)
    rw [Nat.div_self hone, hlen] at h
    exact ⟨_, h⟩

set_option maxRecDepth 100000 in
theorem C14_reported_duration_is_truncated_binary32_quotient_witness :
    F32.isPositive scenarioSecond.getSR = true ∧
    print_stream_info scenarioSecond = .ok ⟨"ECG_1", 130, 1, 0⟩ ∧
    ((∀ info, print_stream_info scenarioSecond = .ok info →
      ∃ m, F32.div (F32.ofNat scenarioSecond.getSamples.length) scenarioSecond.getSR
          = F32.fin false m ∧
        m / F32_ONE < INT_RANGE ∧ info.seconds = ((m / F32_ONE : Nat) : Int)) ∧
    (Numeric scenarioSecond.getSamples → scenarioSecond.getSamples.length < UINT64_MOD →
      ∀ m, F32.div (F32.ofNat scenarioSecond.getSamples.length) scenarioSecond.getSR
          = F32.fin false m →
        m / F32_ONE < INT_RANGE →
        ∃ zeros, print_stream_info scenarioSecond
          = .ok ⟨scenarioSecond.getName, scenarioSecond.getSamples.length,
              ((m / F32_ONE : Nat) : Int), zeros⟩) ∧
    ((∀ m, F32.div (F32.ofNat scenarioSecond.getSamples.length) scenarioSecond.getSR
          = F32.fin false m → INT_RANGE ≤ m / F32_ONE) →
      print_stream_info scenarioSecond = .error Error.undefined_behaviour) ∧
    (Numeric scenarioSecond.getSamples → scenarioSecond.getSamples.length = 130 →
      scenarioSecond.getSR = F32.ofNat 130 →
      ∃ zeros, print_stream_info scenarioSecond
        = .ok ⟨scenarioSecond.getName, 130, 1, zeros⟩)) :=
  ⟨by decide, by decide,
    C14_reported_duration_is_truncated_binary32_quotient scenarioSecond (by decide)⟩

/-! ## C13: a name that is declared twice -/

theorem mapFind_mapAssign (m : List (String × Stream)) (k : String) (v : Stream) (n : String) :
    mapFind (mapAssign m k v) n = if n = k then some v else mapFind m n := by
  induction m with
  | nil => simp [mapAssign, mapFind]
  | cons e rest ih =>
    obtain ⟨k', v'⟩ := e
    unfold mapAssign
    by_cases h1 : k = k'
    · rw [if_pos h1]
      subst h1
      by_cases hn : n = k <;> simp [mapFind, hn]
    · rw [if_neg h1]
      by_cases h3 : k.data < k'.data
      · rw [if_pos h3]
        by_cases hn : n = k <;> simp [mapFind, hn]
      · rw [if_neg h3]
        by_cases hn : n = k
        · subst hn
          simp [mapFind, h1, ih]
        · simp [mapFind, hn, ih]

theorem lastDecl_name : ∀ (config : List StreamDecl) (n : String) (dl : StreamDecl),
    lastDecl config n = some dl → dl.name = n := by
  intro config
  induction config with
  | nil => intro n dl h; cases h
  | cons d rest ih =>
    intro n dl h
    unfold lastDecl at h
    cases hr : lastDecl rest n with
    | some x =>
      rw [hr] at h
      simp only [Option.some.injEq] at h
      subst h
      exact ih n x hr
    | none =>
      rw [hr] at h
      simp only [] at h
      split_ifs at h with hn
      simp only [Option.some.injEq] at h
      subst h
      exact hn

theorem lastDecl_none : ∀ (config : List StreamDecl) (n : String),
    (∀ d ∈ config, d.name ≠ n) → lastDecl config n = none := by
  intro config
  induction config with
  | nil => intro n _; rfl
  | cons d rest ih =>
    intro n h
    unfold lastDecl
    rw [ih n (fun x hx => h x (List.mem_cons_of_mem _ hx))]
    simp only []
    rw [if_neg (h d (List.mem_cons_self _ _))]

/-- A declaration after which no declaration has the same name is the last
declaration of its name. -/
theorem lastDecl_of_last : ∀ (config : List StreamDecl) (k : Nat) (dl : StreamDecl),
    config[k]? = some dl →
    (∀ j dj, k < j → config[j]? = some dj → dj.name ≠ dl.name) →
    lastDecl config dl.name = some dl := by
  intro config
  induction config with
  | nil => intro k dl h; simp at h
  | cons d rest ih =>
    intro k dl h hlast
    cases k with
    | zero =>
      simp only [List.getElem?_cons_zero, Option.some.injEq] at h
      subst h
      have hnone : lastDecl rest d.name = none := by
        apply lastDecl_none
        intro x hx
        obtain ⟨j, hj⟩ := List.getElem?_of_mem hx
        exact hlast (j + 1) x (Nat.succ_pos j) (by simpa using hj)
      unfold lastDecl
      rw [hnone]
      simp
    | succ k =>
      simp only [List.getElem?_cons_succ] at h
      have := ih k dl h (fun j dj hj hdj => hlast (j + 1) dj (by omega) (by simpa using hdj))
      unfold lastDecl
      rw [this]

/-- The loop that reads the streams: the names are appended in the order of
the declarations, and the map holds under every declared name the stream that
`read_float_stream` builds from a new `Stream` and the last declaration of the
name. -/
theorem ingestLoop_spec (stof : List Char → Except Error F32)
    (fs : String → Option (List (List Char))) (start : Nat) :
    ∀ (config : List StreamDecl) (names : List String) (m : List (String × Stream))
      (names' : List String) (m' : List (String × Stream)),
      ingestLoop stof fs start config names m = .ok (some (names', m')) →
      names' = names ++ config.map StreamDecl.name ∧
      ∀ n, (∀ dl, lastDecl config n = some dl →
          ∃ s, read_float_stream stof Stream.new (fs dl.filename) start dl.name dl.sr
              dl.dims dl.dim_sel = .ok (true, s) ∧ mapFind m' n = some s) ∧
        (lastDecl config n = none → mapFind m' n = mapFind m n) := by
  intro config
  induction config with
  | nil =>
    intro names m names' m' h
    simp only [ingestLoop, Except.ok.injEq, Option.some.injEq, Prod.mk.injEq] at h
    obtain ⟨h1, h2⟩ := h
    subst h1 h2
    refine ⟨by simp, ?_⟩
    intro n
    constructor
    · intro dl hdl
      cases hdl
    · intro _
      rfl
  | cons d rest ih =>
    intro names m names' m' h
    rw [ingestLoop] at h
    simp only [mapFind_mapAssign, if_true] at h
    cases hr : read_float_stream stof Stream.new (fs d.filename) start d.name d.sr
        d.dims d.dim_sel with
    | error e => rw [hr] at h; cases h
    | ok r =>
      obtain ⟨result, s⟩ := r
      rw [hr] at h
      simp only [] at h
      cases result with
      | false => simp at h
      | true =>
        simp only [if_true] at h
        obtain ⟨hn, hm⟩ := ih _ _ names' m' h
        refine ⟨by rw [hn]; simp, fun n => ?_⟩
        obtain ⟨hsome, hnone⟩ := hm n
        constructor
        · intro dl hdl
          unfold lastDecl at hdl
          cases hl : lastDecl rest n with
          | some x =>
            rw [hl] at hdl
            simp only [Option.some.injEq] at hdl
            subst hdl
            exact hsome x hl
          | none =>
            rw [hl] at hdl
            simp only [] at hdl
            split_ifs at hdl with hdn
            simp only [Option.some.injEq] at hdl
            subst hdl
            refine ⟨s, hr, ?_⟩
            rw [hnone hl, mapFind_mapAssign, if_pos hdn.symm]
        · intro hdl
          unfold lastDecl at hdl
          cases hl : lastDecl rest n with
          | some x => rw [hl] at hdl; cases hdl
          | none =>
            rw [hl] at hdl
            simp only [] at hdl
            split_ifs at hdl with hdn
            rw [hnone hl, mapFind_mapAssign, if_neg (fun e => hdn e.symm),
              mapFind_mapAssign, if_neg (fun e => hdn e.symm)]

/-- The loop that fills the array of pointers, while the counter does not wrap:
the entries below the counter stay, the entry of each name is the pointer
`m_streams[n].get()`, and the length stays. -/
theorem selectLoop_spec (m : List (String × Stream)) :
    ∀ (names : List String) (i : Nat) (arr : List (Option Stream)),
      i + names.length < UINT32_MOD →
      (selectLoop m names i arr).length = arr.length ∧
      (∀ p, p < i → (selectLoop m names i arr)[p]? = arr[p]?) ∧
      (∀ j n, names[j]? = some n → i + j < arr.length →
        (selectLoop m names i arr)[i + j]? = some (mapFind m n)) := by
  intro names
  induction names with
  | nil =>
    intro i arr _
    refine ⟨rfl, fun p _ => rfl, ?_⟩
    intro j n h
    simp at h
  | cons n0 rest ih =>
    intro i arr hi
    simp only [List.length_cons] at hi
    have hmod : (i + 1) % UINT32_MOD = i + 1 := Nat.mod_eq_of_lt (by omega)
    obtain ⟨hlen, hlow, hset⟩ := ih (i + 1) (arr.set i (mapFind m n0)) (by omega)
    rw [selectLoop, hmod]
    refine ⟨by rw [hlen, List.length_set], ?_, ?_⟩
    · intro p hp
      rw [hlow p (by omega), List.getElem?_set_ne (by omega)]
    · intro j n hj hlt
      cases j with
      | zero =>
        simp only [List.getElem?_cons_zero, Option.some.injEq] at hj
        subst hj
        show (selectLoop m rest (i + 1) (arr.set i (mapFind m n0)))[i]? = _
        rw [hlow i (by omega), List.getElem?_set_self (by omega)]
      | succ j =>
        simp only [List.getElem?_cons_succ] at hj
        have := hset j n hj (by rw [List.length_set]; omega)
        rw [← this]
        congr 1
        omega

theorem pointees_eq_some : ∀ (l : List (Option Stream)) (xs : List Stream),
    pointees l = some xs → l = xs.map some := by
  intro l
  induction l with
  | nil =>
    intro xs h
    simp only [pointees, Option.some.injEq] at h
    subst h
    rfl
  | cons a rest ih =>
    intro xs h
    cases a with
    | none => simp [pointees] at h
    | some s =>
      unfold pointees at h
      cases hr : pointees rest with
      | none => rw [hr] at h; cases h
      | some l =>
        rw [hr] at h
        simp only [Option.some.injEq] at h
        subst h
        rw [ih l hr]
        rfl

/-- C13: when `main` reads every file and writes the table for a configuration
of fewer than `2 ^ 32` declarations, the stream kept in the map under a name is
the one `read_float_stream` builds from a new, empty `Stream` and the last
declaration of that name alone (its file, rate and dimensions; no sample of an
earlier declaration of the name is in it), and the stream handed to
`create_data_table` for every column whose declaration has that name is this
stream, so the column carries the samples of the later declaration. -/
theorem C13_later_declaration_wins (stof : List Char → Except Error F32)
    (fs : String → Option (List (List Char))) (start : Nat) (config : List StreamDecl)
    (result : MainResult) (hlen : config.length < UINT32_MOD)
    (hrun : main stof fs start config = .ok result) (hcode : result.code = 0) :
    ∃ m_streams streams table,
      ingestLoop stof fs start config [] []
        = .ok (some (config.map StreamDecl.name, m_streams)) ∧
      streams.length = config.length ∧
      create_data_table streams = .ok table ∧ result.table = some table ∧
      ∀ (k : Nat) (dl : StreamDecl), config[k]? = some dl →
        (∀ (j : Nat) (dj : StreamDecl), k < j → config[j]? = some dj → dj.name ≠ dl.name) →
        ∃ s, read_float_stream stof Stream.new (fs dl.filename) start dl.name dl.sr
            dl.dims dl.dim_sel = .ok (true, s) ∧
          mapFind m_streams dl.name = some s ∧
          ∀ (j : Nat) (dj : StreamDecl), config[j]? = some dj → dj.name = dl.name →
            streams[j]? = some s := by
  unfold main at hrun
  cases hing : ingestLoop stof fs start config [] [] with
  | error e => rw [hing] at hrun; cases hrun
  | ok r =>
    rw [hing] at hrun
    cases r with
    | none =>
      simp only [Except.ok.injEq] at hrun
      rw [← hrun] at hcode
      cases hcode
    | some st =>
      obtain ⟨names, m⟩ := st
      simp only [] at hrun
      obtain ⟨hnames, hmap⟩ := ingestLoop_spec stof fs start config [] [] names m hing
      rw [List.nil_append] at hnames
      have hnl : names.length = config.length := by rw [hnames, List.length_map]
      cases hp : printLoop m with
      | error e => rw [hp] at hrun; cases hrun
      | ok infos =>
        rw [hp] at hrun
        simp only [] at hrun
        rw [hnl, Nat.mod_eq_of_lt hlen] at hrun
        obtain ⟨hslen, _, hsel⟩ := selectLoop_spec m names 0
          (List.replicate config.length none) (by omega)
        rw [List.length_replicate] at hslen
        rw [List.take_of_length_le (Nat.le_of_eq hslen)] at hrun
        cases hpt : pointees (selectLoop m names 0 (List.replicate config.length none)) with
        | none => rw [hpt] at hrun; cases hrun
        | some streams =>
          rw [hpt] at hrun
          simp only [] at hrun
          have hmapped := pointees_eq_some _ _ hpt
          cases hc : create_data_table streams with
          | error e => rw [hc] at hrun; cases hrun
          | ok table =>
            rw [hc] at hrun
            simp only [Except.ok.injEq] at hrun
            refine ⟨m, streams, table, by rw [hnames], ?_, hc, by rw [← hrun], ?_⟩
            · have := congrArg List.length hmapped
              rw [List.length_map, hslen] at this
              exact this.symm
            · intro k dl hk hlast
              have hl := lastDecl_of_last config k dl hk hlast
              obtain ⟨s, hs, hfind⟩ := (hmap dl.name).1 dl hl
              refine ⟨s, hs, hfind, ?_⟩
              intro j dj hj hname
              have hjn : names[j]? = some dj.name := by
                rw [hnames, List.getElem?_map, hj]
                rfl
              have hjlt : j < config.length := (List.getElem?_eq_some.mp hj).1
              have h1 := hsel j dj.name hjn (by rw [List.length_replicate]; omega)
              rw [Nat.zero_add, hmapped, List.getElem?_map, hname, hfind] at h1
              cases hx : streams[j]? with
              | none => rw [hx] at h1; cases h1
              | some x =>
                rw [hx] at h1
                simp only [Option.map_some', Option.some.injEq] at h1
                rw [h1]

theorem pointees_map_some : ∀ xs : List Stream, pointees (xs.map some) = some xs := by
  intro xs
  induction xs with
  | nil => rfl
  | cons x rest ih =>
    rw [List.map_cons, pointees, ih]

/-- The run of `main` from the results of its steps, for fewer than `2 ^ 32`
names. -/
theorem main_ok (stof : List Char → Except Error F32)
    (fs : String → Option (List (List Char))) (start : Nat) (config : List StreamDecl)
    (names : List String) (m : List (String × Stream)) (infos : List StreamInfo)
    (streams : List Stream) (table : Table)
    (hing : ingestLoop stof fs start config [] [] = .ok (some (names, m)))
    (hprint : printLoop m = .ok infos)
    (hlen : names.length < UINT32_MOD)
    (hsel : selectLoop m names 0 (List.replicate names.length none) = streams.map some)
    (htable : create_data_table streams = .ok table) :
    main stof fs start config = .ok ⟨0, infos, some table⟩ := by
  have hl : streams.length = names.length := by
    have h1 := congrArg List.length hsel
    have h2 := (selectLoop_spec m names 0 (List.replicate names.length none) (by omega)).1
    rw [h2, List.length_replicate, List.length_map] at h1
    exact h1.symm
  unfold main
  rw [hing]
  simp only []
  rw [hprint]
  simp only []
  rw [hsel, Nat.mod_eq_of_lt hlen,
    List.take_of_length_le (by rw [List.length_map, hl]), pointees_map_some]
  simp only []
  rw [htable]

set_option maxRecDepth 1000000 in
theorem C13_later_declaration_wins_witness :
    scenarioConfig.length < UINT32_MOD ∧
    main scenarioStof scenarioFiles 1000 scenarioConfig = .ok scenarioMainResult ∧
    scenarioMainResult.code = 0 ∧
    read_float_stream scenarioStof Stream.new (scenarioFiles "late") 1000 "A" (F32.ofNat 3) 1 0
      = .ok (true, scenarioKept) ∧
    ∃ m_streams streams table,
      ingestLoop scenarioStof scenarioFiles 1000 scenarioConfig [] []
        = .ok (some (scenarioConfig.map StreamDecl.name, m_streams)) ∧
      streams.length = scenarioConfig.length ∧
      create_data_table streams = .ok table ∧ scenarioMainResult.table = some table ∧
      ∀ (k : Nat) (dl : StreamDecl), scenarioConfig[k]? = some dl →
        (∀ (j : Nat) (dj : StreamDecl), k < j → scenarioConfig[j]? = some dj →
          dj.name ≠ dl.name) →
        ∃ s, read_float_stream scenarioStof Stream.new (scenarioFiles dl.filename) 1000 dl.name
            dl.sr dl.dims dl.dim_sel = .ok (true, s) ∧
          mapFind m_streams dl.name = some s ∧
          ∀ (j : Nat) (dj : StreamDecl), scenarioConfig[j]? = some dj → dj.name = dl.name →
            streams[j]? = some s :=
  ⟨by decide,
    main_ok scenarioStof scenarioFiles 1000 scenarioConfig ["A", "B", "A"]
      [("A", scenarioKept), ("B", scenarioOther)] [⟨"A", 4, 1, 0⟩, ⟨"B", 2, 2, 0⟩]
      [scenarioKept, scenarioOther, scenarioKept]
      ⟨["A", "B", "A"], [1000, 1333, 1666, 2000],
        [[some (F32.ofNat 20), some (F32.ofNat 10), some (F32.ofNat 20)],
         [some (F32.ofNat 20), some (F32.ofNat 10), some (F32.ofNat 20)],
         [some (F32.ofNat 20), some (F32.ofNat 10), some (F32.ofNat 20)],
         [some (F32.ofNat 20), some (F32.ofNat 10), some (F32.ofNat 20)]]⟩
      (by decide) (by decide) (by decide) (by decide) (by decide!),
    rfl, by decide,
    C13_later_declaration_wins scenarioStof scenarioFiles 1000 scenarioConfig
      scenarioMainResult (by decide)
      (main_ok scenarioStof scenarioFiles 1000 scenarioConfig ["A", "B", "A"]
        [("A", scenarioKept), ("B", scenarioOther)] [⟨"A", 4, 1, 0⟩, ⟨"B", 2, 2, 0⟩]
        [scenarioKept, scenarioOther, scenarioKept]
        ⟨["A", "B", "A"], [1000, 1333, 1666, 2000],
          [[some (F32.ofNat 20), some (F32.ofNat 10), some (F32.ofNat 20)],
           [some (F32.ofNat 20), some (F32.ofNat 10), some (F32.ofNat 20)],
           [some (F32.ofNat 20), some (F32.ofNat 10), some (F32.ofNat 20)],
           [some (F32.ofNat 20), some (F32.ofNat 10), some (F32.ofNat 20)]]⟩
        (by decide) (by decide) (by decide) (by decide) (by decide!))
      rfl⟩

end StreamSyncer
